import Mathlib

/-!
# curve25519-voi: the Ed25519 signature layer

A shallow embedding of `primitives/ed25519/ed25519.go` (option validation,
`dom2`, `scMinimal`, `PrivateKey.Sign`, `verifyWithOptionsNoPanic`,
`NewKeyFromSeed`) and the properties of the specification that concern it.

Conventions of the embedding.

* A byte is a `Fin 256`; a byte slice, array or Go string is a `List Byte`.
* A Go panic is the value `none` of an `Option`; a Go `error` result is an
  explicit error value.
* SHA-512 comes from the Go standard library and is a parameter (`Sha512`).
* The packages `curve` and `curve/scalar` are not part of the sources at hand;
  the operations used by the signature layer are modelled from the
  specification, over an arbitrary commutative group with a point codec.
-/

namespace Ed25519

/-! ## Bytes -/

/-- A byte (`uint8`). -/
abbrev Byte := Fin 256

/-- The integer a byte string denotes, little-endian. -/
def leValue : List Byte → Nat
  | [] => 0
  | b :: bs => b.val + 256 * leValue bs

/-- The `len` low bytes of `n`, little-endian. -/
def leBytes : Nat → Nat → List Byte
  | 0, _ => []
  | len + 1, n => Fin.ofNat (n % 256) :: leBytes len (n / 256)

/-- Go's `s[lo:]`: a panic when `lo` exceeds the length. -/
def sliceFrom (s : List Byte) (lo : Nat) : Option (List Byte) :=
  if lo ≤ s.length then some (s.drop lo) else none

/-- Go's `binary.LittleEndian.Uint64(b)`: a panic when `b` has fewer than 8 bytes. -/
def uint64LE (b : List Byte) : Option Nat :=
  if b.length < 8 then none else some (leValue (b.take 8))

/-! ## Constants of the package -/

def PublicKeySize : Nat := 32

def PrivateKeySize : Nat := 64

def SignatureSize : Nat := 64

def SeedSize : Nat := 32

def ContextMaxSize : Nat := 255

/-- The group order `ℓ = 2^252 + 27742317777372353535851937790883648493`. -/
def L : Nat := 2 ^ 252 + 27742317777372353535851937790883648493

/-- The array `order` of the source: four 64-bit words, least significant first. -/
def order : List Nat :=
  [0x5812631a5cf5d3ed, 0x14def9dea2f79cd6, 0, 0x1000000000000000]

/-! ## `scMinimal` -/

/-- The loop of `scMinimal`, entered at index `i` and counting down:
`v > order[i]` returns false, `v < order[i]` breaks out of the loop (and the
function then returns true), equality at `i == 0` returns false, equality
elsewhere goes on with `i - 1`. -/
def scMinimalLoop (scalar : List Byte) : Nat → Option Bool
  | 0 => do
    let v ← (sliceFrom scalar 0).bind uint64LE
    let o ← order[0]?
    if v > o then some false
    else if v < o then some true
    else some false
  | i + 1 => do
    let v ← (sliceFrom scalar ((i + 1) * 8)).bind uint64LE
    let o ← order[i + 1]?
    if v > o then some false
    else if v < o then some true
    else scMinimalLoop scalar i

/-- The function `scMinimal` of the source, masks as written there (`240`, `244`). -/
def scMinimal (scalar : List Byte) : Option Bool := do
  let top ← scalar[31]?
  if top &&& 240 = 0 then some true
  else if top &&& 244 ≠ 0 then some false
  else scMinimalLoop scalar 3

/-! ## Options and domain separation -/

/-- The errors the package returns, one constructor per message. -/
inductive Err
  | badContextLength (l : Nat)
  | badMessageHashLength (l : Nat)
  | badHashFunc
  | badPrivateKeyLength (l : Nat)
  | deserializeR
  | deserializeHram
  | deserializeA
  | deserializeS
  | serializeS
  deriving DecidableEq, Repr

/-- The struct `VerifyOptions`; the zero value has every field false. -/
structure VerifyOptions where
  AllowSmallOrderA : Bool
  AllowSmallOrderR : Bool
  AllowNonCanonicalAR : Bool
  CofactorlessVerify : Bool
  deriving DecidableEq, Repr

/-- The struct `Options`: `Hash` is a `crypto.Hash` (an unsigned integer),
`Context` a string, `Verify` a pointer that may be nil. -/
structure Options where
  Hash : Nat
  Context : List Byte
  Verify : Option VerifyOptions
  deriving DecidableEq, Repr

/-- The constant `crypto.SHA512` of the Go standard library. -/
def cryptoSHA512 : Nat := 7

def VerifyOptionsRuntime : VerifyOptions :=
  { AllowSmallOrderA := true
    AllowSmallOrderR := true
    AllowNonCanonicalAR := true
    CofactorlessVerify := true }

def VerifyOptionsFIPS_186_5 : VerifyOptions :=
  { AllowSmallOrderA := true
    AllowSmallOrderR := true
    AllowNonCanonicalAR := false
    CofactorlessVerify := false }

/-- The value `&VerifyOptions{}` that `defaultPureOptions.Verify` points to. -/
def defaultVerifyOptions : VerifyOptions :=
  { AllowSmallOrderA := false
    AllowSmallOrderR := false
    AllowNonCanonicalAR := false
    CofactorlessVerify := false }

def defaultPureOptions : Options :=
  { Hash := 0
    Context := []
    Verify := some defaultVerifyOptions }

def Options.HashFunc (opt : Options) : Nat := opt.Hash

/-- The type `dom2Flag`, a byte. -/
abbrev dom2Flag := Byte

def fCtx : dom2Flag := 0

def fPh : dom2Flag := 1

def fPure : dom2Flag := 255

/-- The string constant `dom2Prefix`, as bytes. -/
def dom2Prefix : List Byte :=
  ("SigEd25519 no Ed25519 collisions").toList.map fun c => Fin.ofNat c.toNat

/-- The method `(*Options).verify`: the flag and context, or the error. -/
def Options.verify (opt : Options) : Except Err (dom2Flag × List Byte) :=
  let l := opt.Context.length
  if l > 0 then
    if l > ContextMaxSize then .error (.badContextLength l)
    else .ok (fCtx, opt.Context)
  else .ok (fPure, [])

def checkHash (f : dom2Flag) (message : List Byte) (hashFunc : Nat) : Except Err dom2Flag :=
  if hashFunc = cryptoSHA512 then
    if message.length ≠ 64 then .error (.badMessageHashLength message.length)
    else .ok fPh
  else if hashFunc = 0 then .ok f
  else .error .badHashFunc

/-- The function `writeDom2`: the bytes written to the hash, `none` for its panic. -/
def writeDom2 (f : dom2Flag) (c : List Byte) : Option (List Byte) :=
  if f = fPure then some []
  else
    let cLen := c.length
    if cLen > ContextMaxSize then none
    else some (dom2Prefix ++ [f, Fin.ofNat cLen] ++ c)

/-! ## External and absent collaborators -/

/-- SHA-512 of the Go standard library: a function to 64-byte digests, taken
as a parameter. `sum data` is what `h.Sum` returns after `data` was written. -/
structure Sha512 where
  sum : List Byte → List Byte
  size : ∀ data, (sum data).length = 64

/-- Modelled from the spec: `scalar.Scalar.FromBytesModOrderWide`, "Barrett-reduce
512 bits into [0,ℓ)", which "always succeeds for 64-byte inputs"; `none` is the
error for another length. A scalar is its integer value. -/
def Scalar.FromBytesModOrderWide (b : List Byte) : Option Nat :=
  if b.length = 64 then some (leValue b % L) else none

/-- Modelled from the spec: `scalar.Scalar.FromBytesModOrder`, the "reduction
from 32 / 64 bytes" of the scalar layer for 32 bytes: the little-endian integer
reduced mod ℓ; `none` is the error for another length. -/
def Scalar.FromBytesModOrder (b : List Byte) : Option Nat :=
  if b.length = 32 then some (leValue b % L) else none

/-- Modelled from the spec: `scalar.Scalar.FromBits`, "from_bits(32) producing
the biased scalar used in key-derivation without reduction". -/
def Scalar.FromBits (b : List Byte) : Option Nat :=
  if b.length = 32 then some (leValue b) else none

/-- Modelled from the spec: `scalar.Scalar.Mul`, multiplication mod ℓ. -/
def Scalar.Mul (a b : Nat) : Nat := a * b % L

/-- Modelled from the spec: `scalar.Scalar.Add`, addition mod ℓ. -/
def Scalar.Add (a b : Nat) : Nat := (a + b) % L

/-- Modelled from the spec: `scalar.Scalar.ToBytes`, "encode_to_bytes(32)": the
32 little-endian bytes written to an output slice of `outLen` bytes; `none` is
the error for an output of another length. -/
def Scalar.ToBytes (s : Nat) (outLen : Nat) : Option (List Byte) :=
  if outLen = 32 then some (leBytes 32 s) else none

/-- Modelled from the spec: the package `curve` as far as the signature layer
sees it. The points form a commutative group `G` (the instance is an argument
of every operation); `B` is `ED25519_BASEPOINT_POINT`, `compress` is
`CompressedEdwardsY.FromEdwardsPoint` ("compress → 32 bytes") and `decompress`
is `EdwardsPoint.FromCompressedY` ("decompress(32 bytes) → point or decode
error"). -/
structure Curve (G : Type) where
  B : G
  compress : G → List Byte
  decompress : List Byte → Option G
  compress_length : ∀ P, (compress P).length = 32

/-- Modelled from the spec: the facts about the absent package `curve` that the
sign/verify round trip rests on: "ℓ·P = identity" for the basepoint and
decompression inverting compression. -/
structure Curve.Lawful {G : Type} [AddCommGroup G] (C : Curve G) : Prop where
  order_B : L • C.B = 0
  decompress_compress : ∀ P, C.decompress (C.compress P) = some P

section CurveOps

variable {G : Type} [AddCommGroup G] [DecidableEq G]

/-- Modelled from the spec: `CompressedEdwardsY.FromBytes`, which takes exactly
32 bytes ("Public key A | 32 | Compressed Edwards y"); `none` is its error. -/
def CompressedEdwardsY.FromBytes (b : List Byte) : Option (List Byte) :=
  if b.length = 32 then some b else none

/-- Modelled from the spec: `CompressedEdwardsY.IsCanonical`, "re-encode decoded
A and R and require the bytes to match exactly". -/
def Curve.IsCanonical (C : Curve G) (c : List Byte) : Bool :=
  match C.decompress c with
  | some P => decide (C.compress P = c)
  | none => false

/-- Modelled from the spec: `EdwardsPoint.IsSmallOrder`, "returns true iff
8·P = identity". -/
def EdwardsPoint.IsSmallOrder (P : G) : Bool := decide ((8 : ℕ) • P = 0)

/-- Modelled from the spec: `EdwardsPoint.Neg`. -/
def EdwardsPoint.Neg (P : G) : G := -P

/-- Modelled from the spec: `EdwardsPoint.Sub`. -/
def EdwardsPoint.Sub (P Q : G) : G := P - Q

/-- Modelled from the spec: `EdwardsPoint.Equal`, 1 for equal points, 0 otherwise. -/
def EdwardsPoint.Equal (P Q : G) : Nat := if P = Q then 1 else 0

/-- Modelled from the spec: `ED25519_BASEPOINT_TABLE.Mul`,
"table_multiply(s) = slow_double_and_add(s, B)". -/
def Curve.BasepointMul (C : Curve G) (s : Nat) : G := s • C.B

/-- Modelled from the spec: `EdwardsPoint.DoubleScalarMulBasepointVartime`,
"DSMB(a, A, b) = a·A + b·B". -/
def Curve.DoubleScalarMulBasepointVartime (C : Curve G) (a : Nat) (A : G) (b : Nat) : G :=
  a • A + b • C.B

/-! ## Verification -/

/-- Lines 376-457 of `verifyWithOptionsNoPanic`: what the function does once the
options are validated and the length and top-bits check has let the signature
through. `sig[:32]` and `sig[32:]` are `take` and `drop` (the caller has
checked the length). The result is the pair `(bool, error)`; `none` is a panic. -/
def verifyChecked (C : Curve G) (H : Sha512) (f : dom2Flag) (context : List Byte)
    (vOpts : VerifyOptions) (publicKey message sig : List Byte) :
    Option (Bool × Option Err) :=
  match CompressedEdwardsY.FromBytes publicKey with
  | none => some (false, none)
  | some aCompressed =>
  match C.decompress aCompressed with
  | none => some (false, none)
  | some A =>
  -- Check A order (required for strong binding).
  if !vOpts.AllowSmallOrderA && EdwardsPoint.IsSmallOrder A then some (false, none) else
  -- hram = H(R,A,m)
  match writeDom2 f context with
  | none => none
  | some dom =>
  let hash := H.sum (dom ++ sig.take 32 ++ publicKey ++ message)
  match Scalar.FromBytesModOrderWide hash with
  | none => some (false, some Err.deserializeHram)
  | some hram =>
  match scMinimal (sig.drop 32) with
  | none => none
  | some false => some (false, none)
  | some true =>
  -- R; the error of `FromBytes` is dropped ("Can't fail"), a failure would leave zeroes.
  let rCompressed := (CompressedEdwardsY.FromBytes (sig.take 32)).getD (List.replicate 32 0)
  match C.decompress rCompressed with
  | none => some (false, none)
  | some checkR =>
  -- Check R order.
  if !vOpts.AllowSmallOrderR && EdwardsPoint.IsSmallOrder checkR then some (false, none) else
  -- Check if A and R are canonical.
  if !vOpts.AllowNonCanonicalAR && !(C.IsCanonical aCompressed && C.IsCanonical rCompressed)
  then some (false, none) else
  -- S
  match Scalar.FromBytesModOrder (sig.drop 32) with
  | none => some (false, some Err.deserializeS)
  | some S =>
  -- SB - H(R,A,m)A
  let A := EdwardsPoint.Neg A
  let R := C.DoubleScalarMulBasepointVartime hram A S
  if vOpts.CofactorlessVerify then some (decide (EdwardsPoint.Equal checkR R = 1), none)
  else
    let rDiff := EdwardsPoint.Sub R checkR
    some (EdwardsPoint.IsSmallOrder rDiff, none)

/-- Lines 360-363: `opts.Verify`, or what `defaultPureOptions.Verify` points to
when it is nil. -/
def Options.vOpts (opts : Options) : VerifyOptions :=
  match opts.Verify with
  | none => defaultVerifyOptions
  | some v => v

/-- The function `verifyWithOptionsNoPanic`; `opts` is a non-nil pointer. In
`len(sig) != SignatureSize || (sig[63]&224 != 0)` the right operand is evaluated
only when the left one is false. -/
def verifyWithOptionsNoPanic (C : Curve G) (H : Sha512) (publicKey message sig : List Byte)
    (opts : Options) : Option (Bool × Option Err) :=
  match opts.verify with
  | .error err => some (false, some err)
  | .ok (f, context) =>
  let vOpts := opts.vOpts
  match checkHash f message opts.HashFunc with
  | .error err => some (false, some err)
  | .ok f =>
  if sig.length ≠ SignatureSize then some (false, none) else
  match sig[63]? with
  | none => none
  | some top =>
  if top &&& 224 ≠ 0 then some (false, none) else
  verifyChecked C H f context vOpts publicKey message sig

/-- The function `VerifyWithOptions`: it panics on an error. -/
def VerifyWithOptions (C : Curve G) (H : Sha512) (publicKey message sig : List Byte)
    (opts : Options) : Option Bool :=
  match verifyWithOptionsNoPanic C H publicKey message sig opts with
  | none => none
  | some (_, some _) => none
  | some (ok, none) => some ok

def Verify (C : Curve G) (H : Sha512) (publicKey message sig : List Byte) : Option Bool :=
  VerifyWithOptions C H publicKey message sig defaultPureOptions

/-! ## Signing and key derivation -/

/-- A `crypto.SignerOpts`: a `*Options`, or another implementation of the
interface, of which only `HashFunc()` is seen. -/
inductive SignerOpts
  | options (o : Options)
  | other (hashFunc : Nat)

def SignerOpts.HashFunc : SignerOpts → Nat
  | .options o => o.HashFunc
  | .other h => h

/-- The method `PrivateKey.Sign`; `rand` is the `io.Reader` argument. The result
is the signature or the error; `none` is a panic. -/
def PrivateKey.Sign {ρ : Type} (C : Curve G) (H : Sha512) (priv : List Byte) (_rand : ρ)
    (message : List Byte) (opts : SignerOpts) : Option (Except Err (List Byte)) :=
  let validated : Except Err (dom2Flag × List Byte) :=
    match opts with
    | .options o => o.verify
    | .other _ => .ok (fPure, [])
  match validated with
  | .error err => some (.error err)
  | .ok (f, context) =>
  match checkHash f message opts.HashFunc with
  | .error err => some (.error err)
  | .ok f =>
  if priv.length ≠ PrivateKeySize then some (.error (Err.badPrivateKeyLength priv.length)) else
  let extsk := H.sum (priv.take 32)
  let extsk := extsk.set 0 (extsk.getD 0 0 &&& 248)
  let extsk := extsk.set 31 (extsk.getD 31 0 &&& 127)
  let extsk := extsk.set 31 (extsk.getD 31 0 ||| 64)
  -- r = H(aExt[32..64], m)
  match writeDom2 f context with
  | none => none
  | some dom =>
  let hashr := H.sum (dom ++ extsk.drop 32 ++ message)
  match Scalar.FromBytesModOrderWide hashr with
  | none => some (.error Err.deserializeR)
  | some r =>
  -- R = rB
  let R := C.BasepointMul r
  let rCompressed := C.compress R
  -- S = H(R,A,m)
  let hram := H.sum (dom ++ rCompressed ++ priv.drop 32 ++ message)
  match Scalar.FromBytesModOrderWide hram with
  | none => some (.error Err.deserializeHram)
  | some S =>
  -- S = H(R,A,m)a
  match Scalar.FromBytesModOrder (extsk.take 32) with
  | none => some (.error Err.deserializeA)
  | some a =>
  let S := Scalar.Mul S a
  -- S = (r + H(R,A,m)a)
  let S := Scalar.Add S r
  -- S = (r + H(R,A,m)a) mod L, written to `RS[32:]`
  match Scalar.ToBytes S (SignatureSize - 32) with
  | none => some (.error Err.serializeS)
  | some sBytes =>
  some (.ok (rCompressed.take 32 ++ sBytes))

/-- The function `Sign`: `PrivateKey.Sign` with a nil `rand` and
`defaultPureOptions`; it panics on an error. -/
def Sign (C : Curve G) (H : Sha512) (privateKey message : List Byte) : Option (List Byte) :=
  match PrivateKey.Sign C H privateKey () message (.options defaultPureOptions) with
  | some (.ok signature) => some signature
  | _ => none

/-- The function `NewKeyFromSeed`; `none` is a panic. -/
def NewKeyFromSeed (C : Curve G) (H : Sha512) (seed : List Byte) : Option (List Byte) :=
  if seed.length ≠ SeedSize then none else
  let digest := H.sum seed
  let digest := digest.set 0 (digest.getD 0 0 &&& 248)
  let digest := digest.set 31 (digest.getD 31 0 &&& 127)
  let digest := digest.set 31 (digest.getD 31 0 ||| 64)
  match Scalar.FromBits (digest.take 32) with
  | none => none
  | some a =>
  let A := C.BasepointMul a
  let aCompressed := C.compress A
  some (seed ++ aCompressed)

end CurveOps

/-- The three clamping statements of lines 250-252 and of lines 473-475
(`d[0] &= 248; d[31] &= 127; d[31] |= 64`) as one function, to state lemmas. -/
def clamped (d : List Byte) : List Byte :=
  let d := d.set 0 (d.getD 0 0 &&& 248)
  let d := d.set 31 (d.getD 31 0 &&& 127)
  d.set 31 (d.getD 31 0 ||| 64)

/-- A byte with bit `i` cleared. -/
def clearBit (b : Byte) (i : Nat) : Byte :=
  if b.val.testBit i then Fin.ofNat (b.val - 2 ^ i) else b

/-- A byte with bit `i` set. -/
def setBit (b : Byte) (i : Nat) : Byte :=
  if b.val.testBit i then b else Fin.ofNat (b.val + 2 ^ i)

/-- The clamp in the words of the specification, on the 32 bytes `h[0..32]`:
"clamp clears bit 0,1,2 of the first byte, clears bit 7 of the last byte, and
sets bit 6 of the last byte". It is compared with the statements of the source
(`clamped`). -/
def clampSpec (h : List Byte) : List Byte :=
  let h := h.set 0 (clearBit (clearBit (clearBit (h.getD 0 0) 0) 1) 2)
  let h := h.set 31 (clearBit (h.getD 31 0) 7)
  h.set 31 (setBit (h.getD 31 0) 6)

/-- The 32 ASCII codes of the text "SigEd25519 no Ed25519 collisions". -/
def dom2PrefixAscii : List Byte :=
  [83, 105, 103, 69, 100, 50, 53, 53, 49, 57, 32, 110, 111, 32, 69, 100,
   50, 53, 53, 49, 57, 32, 99, 111, 108, 108, 105, 115, 105, 111, 110, 115]

/-! ## An instance of the interface

The cyclic group of order `8ℓ` (the order of the curve group), with the element
`8` of order `ℓ` as basepoint. A point is encoded as its 32 little-endian
bytes; the 19 values `8ℓ, …, 8ℓ + 18` are accepted as second, non-canonical
encodings of the points `0, …, 18`, every other value is a decoding error. It
serves to evaluate the definitions on concrete inputs. -/

def modelOrder : Nat := 8 * L

def ModelPoint : Type := Fin modelOrder

instance : NeZero modelOrder := ⟨by decide⟩

instance : DecidableEq ModelPoint := inferInstanceAs (DecidableEq (Fin modelOrder))

/-- The multiple `n • x`, computed by one multiplication. -/
def ModelPoint.nsmul (n : Nat) (x : ModelPoint) : ModelPoint :=
  ⟨(n * x.val) % modelOrder, Nat.mod_lt _ (by decide)⟩

instance : AddCommGroup ModelPoint :=
  { (inferInstanceAs (AddCommGroup (Fin modelOrder))) with
    nsmul := ModelPoint.nsmul
    nsmul_zero := by
      intro x
      apply Fin.ext
      show (0 * x.val) % modelOrder = 0
      simp
    nsmul_succ := by
      intro n x
      apply Fin.ext
      show ((n + 1) * x.val) % modelOrder = ((n * x.val) % modelOrder + x.val) % modelOrder
      rw [Nat.add_mul, one_mul, Nat.mod_add_mod] }

def modelDecompress (c : List Byte) : Option ModelPoint :=
  if c.length ≠ 32 then none
  else if h : leValue c < modelOrder then some ⟨leValue c, h⟩
  else if leValue c - modelOrder < 19 then
    some ⟨(leValue c - modelOrder) % modelOrder, Nat.mod_lt _ (by decide)⟩
  else none

def modelCurve : Curve ModelPoint where
  B := ⟨8, by decide⟩
  compress := fun P => leBytes 32 P.val
  decompress := modelDecompress
  compress_length := fun _ => rfl

/-- A stand-in for SHA-512: the digest is the length of the data. -/
def modelSha : Sha512 where
  sum := fun data => leBytes 64 data.length
  size := fun _ => rfl

/-- A stand-in for SHA-512 whose digest of a 33-byte input is `2^252` and of any
other input is zero. -/
def modelShaHigh : Sha512 where
  sum := fun data => if data.length = 33 then leBytes 64 (2 ^ 252) else leBytes 64 0
  size := fun data => by by_cases h : data.length = 33 <;> simp [h] <;> rfl

/-- A seed, and the private key `NewKeyFromSeed` derives from it in the instance. -/
def seed0 : List Byte := List.replicate 32 7

def priv0 : List Byte := (NewKeyFromSeed modelCurve modelSha seed0).getD []

def pub0 : List Byte := priv0.drop 32

def msg0 : List Byte := [1, 2, 3]

/-- The signature of `msg0` under `priv0` in the instance, plain Ed25519. -/
def sig0 : List Byte :=
  match PrivateKey.Sign modelCurve modelSha priv0 () msg0 (.options defaultPureOptions) with
  | some (.ok sig) => sig
  | _ => []

/-- The private key of `seed0` when the hash is `modelShaHigh`. -/
def privHigh : List Byte := (NewKeyFromSeed modelCurve modelShaHigh seed0).getD []

def msgHigh : List Byte := [1]

/-- The signature of `msgHigh` under `privHigh` when the hash is `modelShaHigh`;
its scalar `S` is `2^252`. -/
def sigHigh : List Byte :=
  match PrivateKey.Sign modelCurve modelShaHigh privHigh () msgHigh
    (.options defaultPureOptions) with
  | some (.ok sig) => sig
  | _ => []

/-- The 32-byte little-endian encoding of `2^252`: 31 zero bytes, then `0x10`. -/
def twoPow252Bytes : List Byte := List.replicate 31 0 ++ [16]

/-- A 32-byte string whose last byte is `0x20`. -/
def highBitBytes : List Byte := List.replicate 31 0 ++ [32]

/-- The encoding of the neutral element in the instance. -/
def zeroBytes : List Byte := List.replicate 32 0

/-- The second, non-canonical encoding of the neutral element in the instance. -/
def nonCanonicalZeroBytes : List Byte := leBytes 32 modelOrder

/-- A 32-byte string that decodes to no point of the instance. -/
def undecodableBytes : List Byte := List.replicate 32 255

/-- Plain Ed25519 with the FIPS 186-5 verification preset. -/
def fipsOptions : Options :=
  { Hash := 0
    Context := []
    Verify := some VerifyOptionsFIPS_186_5 }

/-- Plain Ed25519 with the preset compatible with Go's `crypto/ed25519`. -/
def runtimeOptions : Options :=
  { Hash := 0
    Context := []
    Verify := some VerifyOptionsRuntime }

/-! ## Key accessors -/

/-- Go's `copy(dst, src)`: the first `min(len(dst), len(src))` bytes of `dst` are
replaced by those of `src`; the result is the new content of `dst`. -/
def goCopy (dst src : List Byte) : List Byte :=
  src.take dst.length ++ dst.drop src.length

/-- The method `PrivateKey.Public`: a fresh slice of `PublicKeySize` bytes filled
from `priv[SeedSize:]`; `none` is the panic of the slice expression. -/
def PrivateKey.Public (priv : List Byte) : Option (List Byte) :=
  match sliceFrom priv SeedSize with
  | none => none
  | some tail => some (goCopy (List.replicate PublicKeySize 0) tail)

/-- The method `PrivateKey.Seed`: a fresh slice of `SeedSize` bytes filled from
`priv[:SeedSize]`; `none` is the panic of the slice expression (the capacity of
`priv` is taken to be its length). -/
def PrivateKey.Seed (priv : List Byte) : Option (List Byte) :=
  if SeedSize ≤ priv.length then
    some (goCopy (List.replicate SeedSize 0) (priv.take SeedSize))
  else none

/-! ## The order of the checks -/

/-- The places of lines 376-457 where `verifyWithOptionsNoPanic` can return, in
the order of the source text: decoding `A` (lines 376-384), the small-order test
of `A` (387), `H(R,A,m)` (392-404), `scMinimal` (408), decoding `R` (413-419),
the small-order test of `R` (422), the canonicity test (427), deserialising `S`
(432), the acceptance equation (446-456). -/
inductive VerifyStep
  | decodeA
  | smallOrderA
  | hram
  | minimalS
  | decodeR
  | smallOrderR
  | canonicalAR
  | scalarS
  | equation
  deriving DecidableEq, Repr

/-- The order of the source text. -/
def verifyOrder : List VerifyStep :=
  [.decodeA, .smallOrderA, .hram, .minimalS, .decodeR, .smallOrderR, .canonicalAR, .scalarS,
    .equation]

section Steps

variable {G : Type} [AddCommGroup G] [DecidableEq G]

/-- Lines 376-457 once more, this time with the list of the steps that were
executed; the last one is the step at which the function returned. The second
component is the result, as in `verifyChecked`. -/
def verifyCheckedSteps (C : Curve G) (H : Sha512) (f : dom2Flag) (context : List Byte)
    (vOpts : VerifyOptions) (publicKey message sig : List Byte) :
    List VerifyStep × Option (Bool × Option Err) :=
  match CompressedEdwardsY.FromBytes publicKey with
  | none => ([.decodeA], some (false, none))
  | some aCompressed =>
  match C.decompress aCompressed with
  | none => ([.decodeA], some (false, none))
  | some A =>
  -- Check A order (required for strong binding).
  if !vOpts.AllowSmallOrderA && EdwardsPoint.IsSmallOrder A then
    ([.decodeA, .smallOrderA], some (false, none)) else
  -- hram = H(R,A,m)
  match writeDom2 f context with
  | none => ([.decodeA, .smallOrderA, .hram], none)
  | some dom =>
  let hash := H.sum (dom ++ sig.take 32 ++ publicKey ++ message)
  match Scalar.FromBytesModOrderWide hash with
  | none => ([.decodeA, .smallOrderA, .hram], some (false, some Err.deserializeHram))
  | some hram =>
  match scMinimal (sig.drop 32) with
  | none => ([.decodeA, .smallOrderA, .hram, .minimalS], none)
  | some false => ([.decodeA, .smallOrderA, .hram, .minimalS], some (false, none))
  | some true =>
  -- R
  let rCompressed := (CompressedEdwardsY.FromBytes (sig.take 32)).getD (List.replicate 32 0)
  match C.decompress rCompressed with
  | none => ([.decodeA, .smallOrderA, .hram, .minimalS, .decodeR], some (false, none))
  | some checkR =>
  -- Check R order.
  if !vOpts.AllowSmallOrderR && EdwardsPoint.IsSmallOrder checkR then
    ([.decodeA, .smallOrderA, .hram, .minimalS, .decodeR, .smallOrderR], some (false, none))
  else
  -- Check if A and R are canonical.
  if !vOpts.AllowNonCanonicalAR && !(C.IsCanonical aCompressed && C.IsCanonical rCompressed)
  then
    ([.decodeA, .smallOrderA, .hram, .minimalS, .decodeR, .smallOrderR, .canonicalAR],
      some (false, none))
  else
  -- S
  match Scalar.FromBytesModOrder (sig.drop 32) with
  | none =>
    ([.decodeA, .smallOrderA, .hram, .minimalS, .decodeR, .smallOrderR, .canonicalAR,
      .scalarS], some (false, some Err.deserializeS))
  | some S =>
  -- SB - H(R,A,m)A
  let A := EdwardsPoint.Neg A
  let R := C.DoubleScalarMulBasepointVartime hram A S
  (verifyOrder,
    if vOpts.CofactorlessVerify then some (decide (EdwardsPoint.Equal checkR R = 1), none)
    else
      let rDiff := EdwardsPoint.Sub R checkR
      some (EdwardsPoint.IsSmallOrder rDiff, none))

end Steps

/-! ## Package `field` -/

namespace field

/-- The prime `p = 2^255 - 19`. -/
def p : Nat := 2 ^ 255 - 19

/-- Modelled from the spec: a field element, "internally represented as five
64-bit limbs in radix 2⁵¹ with bounded excess". -/
structure FieldElement where
  l0 : Nat
  l1 : Nat
  l2 : Nat
  l3 : Nat
  l4 : Nat
  deriving DecidableEq, Repr

/-- Modelled from the spec: `NewFieldElement51` builds a field element from its
five limbs. -/
def NewFieldElement51 (l0 l1 l2 l3 l4 : Nat) : FieldElement := ⟨l0, l1, l2, l3, l4⟩

/-- Modelled from the spec: the value of a field element, "the unique integer
residue modulo p = 2²⁵⁵ − 19 in [0, p)" of the number written in radix 2⁵¹. -/
def FieldElement.val (f : FieldElement) : Nat :=
  (f.l0 + f.l1 * 2 ^ 51 + f.l2 * 2 ^ 102 + f.l3 * 2 ^ 153 + f.l4 * 2 ^ 204) % p

/-- Modelled from the spec: the field operation `add`, on residues. -/
def feAdd (a b : Nat) : Nat := (a + b) % p

/-- Modelled from the spec: the field operation `neg`, on residues. -/
def feNeg (a : Nat) : Nat := (p - a % p) % p

/-- Modelled from the spec: the field operation `sub`, on residues. -/
def feSub (a b : Nat) : Nat := (a + (p - b % p)) % p

/-- Modelled from the spec: the field operation `mul`, on residues. -/
def feMul (a b : Nat) : Nat := a * b % p

/-- The power `a ^ e` in the field by repeated squaring; `fuel` bounds the
number of bits of `e`. -/
def fePow (a : Nat) : Nat → Nat → Nat
  | 0, _ => 1
  | fuel + 1, e =>
    if e = 0 then 1
    else
      let h := fePow a fuel (e / 2)
      if e % 2 = 1 then feMul (feMul h h) a else feMul h h

/-- Modelled from the spec: the field operation `invert`, `a ^ (p - 2)`
("a·a⁻¹ = 1 for a ≠ 0"). -/
def feInvert (a : Nat) : Nat := fePow a 255 (p - 2)

end field

/-! ## Package `curve`: the constants of `constants_u64.go` -/

namespace curve

/-- Modelled from the spec: an `EdwardsPoint`, "Extended Edwards (X,Y,Z,T), with xy = T/Z
and (X/Z, Y/Z) on curve"; the four coordinates are field elements. -/
structure EdwardsPoint where
  X : field.FieldElement
  Y : field.FieldElement
  Z : field.FieldElement
  T : field.FieldElement
  deriving DecidableEq, Repr

/-- Modelled from the spec: `newEdwardsPoint(X, Y, Z, T)` builds the point from its four
coordinates. -/
def newEdwardsPoint (X Y Z T : field.FieldElement) : EdwardsPoint := ⟨X, Y, Z, T⟩

/-- Modelled from the spec: an `affineNielsPoint`, "Affine Niels (Y+X, Y−X, 2dXY)". -/
structure affineNielsPoint where
  y_plus_x : field.FieldElement
  y_minus_x : field.FieldElement
  xy2d : field.FieldElement
  deriving DecidableEq, Repr

/-- The Ed25519 basepoint as an `EdwardsPoint`. -/
def ED25519_BASEPOINT_POINT : EdwardsPoint :=
  newEdwardsPoint
    (field.NewFieldElement51 1738742601995546 1146398526822698 2070867633025821
      562264141797630 587772402128613)
    (field.NewFieldElement51 1801439850948184 1351079888211148 450359962737049
      900719925474099 1801439850948198)
    (field.NewFieldElement51 1 0 0 0 0)
    (field.NewFieldElement51 1841354044333475 16398895984059 755974180946558
      900171276175154 1821297809914039)

def eightTorsionInnerDocHidden : List EdwardsPoint :=
  [
    newEdwardsPoint
      (field.NewFieldElement51 0 0 0 0 0)
      (field.NewFieldElement51 1 0 0 0 0)
      (field.NewFieldElement51 1 0 0 0 0)
      (field.NewFieldElement51 0 0 0 0 0),
    newEdwardsPoint
      (field.NewFieldElement51 358744748052810 1691584618240980 977650209285361
        1429865912637724 560044844278676)
      (field.NewFieldElement51 84926274344903 473620666599931 365590438845504
        1028470286882429 2146499180330972)
      (field.NewFieldElement51 1 0 0 0 0)
      (field.NewFieldElement51 1448326834587521 1857896831960481 1093722731865333
        1677408490711241 1915505153018406),
    newEdwardsPoint
      (field.NewFieldElement51 533094393274173 2016890930128738 18285341111199
        134597186663265 1486323764102114)
      (field.NewFieldElement51 0 0 0 0 0)
      (field.NewFieldElement51 1 0 0 0 0)
      (field.NewFieldElement51 0 0 0 0 0),
    newEdwardsPoint
      (field.NewFieldElement51 358744748052810 1691584618240980 977650209285361
        1429865912637724 560044844278676)
      (field.NewFieldElement51 2166873539340326 1778179147085316 1886209374839743
        1223329526802818 105300633354275)
      (field.NewFieldElement51 1 0 0 0 0)
      (field.NewFieldElement51 803472979097708 393902981724766 1158077081819914
        574391322974006 336294660666841),
    newEdwardsPoint
      (field.NewFieldElement51 0 0 0 0 0)
      (field.NewFieldElement51 2251799813685228 2251799813685247 2251799813685247
        2251799813685247 2251799813685247)
      (field.NewFieldElement51 1 0 0 0 0)
      (field.NewFieldElement51 0 0 0 0 0),
    newEdwardsPoint
      (field.NewFieldElement51 1893055065632419 560215195444267 1274149604399886
        821933901047523 1691754969406571)
      (field.NewFieldElement51 2166873539340326 1778179147085316 1886209374839743
        1223329526802818 105300633354275)
      (field.NewFieldElement51 1 0 0 0 0)
      (field.NewFieldElement51 1448326834587521 1857896831960481 1093722731865333
        1677408490711241 1915505153018406),
    newEdwardsPoint
      (field.NewFieldElement51 1718705420411056 234908883556509 2233514472574048
        2117202627021982 765476049583133)
      (field.NewFieldElement51 0 0 0 0 0)
      (field.NewFieldElement51 1 0 0 0 0)
      (field.NewFieldElement51 0 0 0 0 0),
    newEdwardsPoint
      (field.NewFieldElement51 1893055065632419 560215195444267 1274149604399886
        821933901047523 1691754969406571)
      (field.NewFieldElement51 84926274344903 473620666599931 365590438845504
        1028470286882429 2146499180330972)
      (field.NewFieldElement51 1 0 0 0 0)
      (field.NewFieldElement51 803472979097708 393902981724766 1158077081819914
        574391322974006 336294660666841)
  ]

/-- The 8-torsion subgroup (E[8]); a Go array of length 8. -/
def EIGHT_TORSION : List EdwardsPoint := eightTorsionInnerDocHidden

/-- The value of minus one, equal to `-FieldElement.One()`. -/
def constMINUS_ONE : field.FieldElement :=
  field.NewFieldElement51 2251799813685228 2251799813685247 2251799813685247
    2251799813685247 2251799813685247

/-- Edwards `d` value, equal to `-121665/121666 mod p`. -/
def constEDWARDS_D : field.FieldElement :=
  field.NewFieldElement51 929955233495203 466365720129213 1662059464998953
    2033849074728123 1442794654840575

/-- Edwards `2*d` value, equal to `2*(-121665/121666) mod p`. -/
def constEDWARDS_D2 : field.FieldElement :=
  field.NewFieldElement51 1859910466990425 932731440258426 1072319116312658
    1815898335770999 633789495995903

/-- The source comment reads: one minus edwards `d` value squared, equal to
`(1 - (-121665/121666) mod p) pow 2`. -/
def constONE_MINUS_EDWARDS_D_SQUARED : field.FieldElement :=
  field.NewFieldElement51 1136626929484150 1998550399581263 496427632559748
    118527312129759 45110755273534

/-- Edwards `d` value minus one squared, equal to `(((-121665/121666) mod p) - 1) pow 2`. -/
def constEDWARDS_D_MINUS_ONE_SQUARED : field.FieldElement :=
  field.NewFieldElement51 1507062230895904 1572317787530805 683053064812840
    317374165784489 1572899562415810

/-- The value `sqrt(a*d - 1)`, where `a = -1 (mod p)`, `d` are the Edwards curve parameters. -/
def constSQRT_AD_MINUS_ONE : field.FieldElement :=
  field.NewFieldElement51 2241493124984347 425987919032274 2207028919301688
    1220490630685848 974799131293748

/-- The value `1/sqrt(a-d)`, where `a = -1 (mod p)`, `d` are the Edwards curve parameters. -/
def constINVSQRT_A_MINUS_D : field.FieldElement :=
  field.NewFieldElement51 278908739862762 821645201101625 8113234426968
    1777959178193151 2118520810568447

/-- The value (A+2)/4, used within the Montgomery ladder. -/
def constAPLUS2_OVER_FOUR : field.FieldElement :=
  field.NewFieldElement51 121666 0 0 0 0

/-- Odd multiples of the basepoint `[B, 3B, 5B, 7B, 9B, 11B, 13B, 15B, ..., 127B]`; the Go
type `affineNielsPointNafLookupTable` is an array of length 64. -/
def constAFFINE_ODD_MULTIPLES_OF_BASEPOINT : List affineNielsPoint :=
  [
    { y_plus_x := field.NewFieldElement51 3540182452943730 2497478415033846 2521227595762870
        1462984067271729 2389212253076811
      y_minus_x := field.NewFieldElement51 62697248952638 204681361388450 631292143396476
        338455783676468 1213667448819585
      xy2d := field.NewFieldElement51 301289933810280 1259582250014073 1422107436869536
        796239922652654 1953934009299142 },
    { y_plus_x := field.NewFieldElement51 1601611775252272 1720807796594148 1132070835939856
        3512254832574799 2147779492816910
      y_minus_x := field.NewFieldElement51 316559037616741 2177824224946892 1459442586438991
        1461528397712656 751590696113597
      xy2d := field.NewFieldElement51 1850748884277385 1200145853858453 1068094770532492
        672251375690438 1586055907191707 },
    { y_plus_x := field.NewFieldElement51 769950342298400 2384754244604994 3095885746880802
        3225892188161580 2977876099231263
      y_minus_x := field.NewFieldElement51 425251763115706 608463272472562 442562545713235
        837766094556764 374555092627893
      xy2d := field.NewFieldElement51 1086255230780037 274979815921559 1960002765731872
        929474102396301 1190409889297339 },
    { y_plus_x := field.NewFieldElement51 2916800678241215 2065379846933858 2622030924071124
        2602788184473875 1233371373142984
      y_minus_x := field.NewFieldElement51 2019367628972465 676711900706637 110710997811333
        1108646842542025 517791959672113
      xy2d := field.NewFieldElement51 965130719900578 247011430587952 526356006571389
        91986625355052 2157223321444601 },
    { y_plus_x := field.NewFieldElement51 1802695059464988 1664899123557221 2845359304426105
        2160434469266658 3179370264440279
      y_minus_x := field.NewFieldElement51 1725674970513508 1933645953859181 1542344539275782
        1767788773573747 1297447965928905
      xy2d := field.NewFieldElement51 1381809363726107 1430341051343062 2061843536018959
        1551778050872521 2036394857967624 },
    { y_plus_x := field.NewFieldElement51 4222693909998302 2779866139518454 1619374932191226
        2207306624415883 1169170329061080
      y_minus_x := field.NewFieldElement51 2070390218572616 1458919061857835 624171843017421
        1055332792707765 433987520732508
      xy2d := field.NewFieldElement51 893653801273833 1168026499324677 1242553501121234
        1306366254304474 1086752658510815 },
    { y_plus_x := field.NewFieldElement51 2465253816303469 3191571337672685 1159882208056013
        2569188183312765 621213314200686
      y_minus_x := field.NewFieldElement51 1971678598905747 338026507889165 762398079972271
        655096486107477 42299032696322
      xy2d := field.NewFieldElement51 177130678690680 1754759263300204 1864311296286618
        1180675631479880 1292726903152791 },
    { y_plus_x := field.NewFieldElement51 1913163449625248 2712579013977241 2193883288642313
        1008900146920800 1721983679009502
      y_minus_x := field.NewFieldElement51 1070401523076875 1272492007800961 1910153608563310
        2075579521696771 1191169788841221
      xy2d := field.NewFieldElement51 692896803108118 500174642072499 2068223309439677
        1162190621851337 1426986007309901 },
    { y_plus_x := field.NewFieldElement51 1819621230288238 2735700366193240 1755134670739586
        3080648199451191 4172807995775876
      y_minus_x := field.NewFieldElement51 992069868904071 799011518185730 1777586403832768
        1134820506145684 1999461475558530
      xy2d := field.NewFieldElement51 425204543703124 2040469794090382 1651690622153809
        1500530168597569 1253908377065966 },
    { y_plus_x := field.NewFieldElement51 2105824306960939 1387520302709358 3633176580451016
        2211816663841753 1629085891776489
      y_minus_x := field.NewFieldElement51 1485201376284999 1022406647424656 504181009209019
        962621520820995 590876713147230
      xy2d := field.NewFieldElement51 265873406365287 1192742653492898 88553098803050
        525037770869640 1266933811251234 },
    { y_plus_x := field.NewFieldElement51 3552316659826612 1254279525791875 1609927932077699
        3578654071679972 3750681296069893
      y_minus_x := field.NewFieldElement51 37186803519861 1404297334376301 578519728836650
        1740727951192592 2095534282477028
      xy2d := field.NewFieldElement51 833234263154399 2023862470013762 1854137933982069
        853924318090959 1589812702805850 },
    { y_plus_x := field.NewFieldElement51 3679150557957763 1319179453661745 497496853611112
        2665464286942351 1208137952365560
      y_minus_x := field.NewFieldElement51 1654513078530905 907489875842908 126098711296368
        1726320004173677 28269495058173
      xy2d := field.NewFieldElement51 114436686957443 532739313025996 115428841215897
        2191499400074366 370280402676434 },
    { y_plus_x := field.NewFieldElement51 1111146849833253 2016430049079759 1860522747477948
        3537164738290194 4137142824844184
      y_minus_x := field.NewFieldElement51 429069864577128 975327637149449 237881983565075
        1654761232378630 2122527599091807
      xy2d := field.NewFieldElement51 2093793463548278 754827233241879 1420389751719629
        1829952782588138 2011865756773717 },
    { y_plus_x := field.NewFieldElement51 676293365438898 2850296017886344 1205350322490195
        2763699392265669 2133931188538142
      y_minus_x := field.NewFieldElement51 48340340349120 1299261101494832 1137329686775218
        1534848106674340 1351662218216799
      xy2d := field.NewFieldElement51 1904520614137939 1590301001714014 215781420985270
        2043534301034629 1970888949300424 },
    { y_plus_x := field.NewFieldElement51 2365217962409710 2061307169694064 1887478590157603
        2169639621284316 2373810867477200
      y_minus_x := field.NewFieldElement51 1020052624656948 1260412094216707 366721640607121
        585331442306596 345876457758061
      xy2d := field.NewFieldElement51 975390299880933 1066555195234642 12651997758352
        1184252205433068 1058378155074223 },
    { y_plus_x := field.NewFieldElement51 1431537716602643 2024827957433813 3746434518400495
        1087794891033550 2156817571680455
      y_minus_x := field.NewFieldElement51 929288033346881 255179964546973 711057989588035
        208899572612840 185348357387383
      xy2d := field.NewFieldElement51 823689746424808 47266130989546 209403309368097
        1100966895202707 710792075292719 },
    { y_plus_x := field.NewFieldElement51 2311213117823762 3296668540922318 2004276520649823
        1861500579441125 3148029033359833
      y_minus_x := field.NewFieldElement51 1563693677475261 1843782073741194 1950700654453170
        911540858113949 2085151496302359
      xy2d := field.NewFieldElement51 1427880892005482 106216431121745 42608394782284
        1217295886989793 1514235272796882 },
    { y_plus_x := field.NewFieldElement51 3544335535746750 2367994491347456 2567261456502612
        1854058085060971 2263545563461076
      y_minus_x := field.NewFieldElement51 787426011300053 2105981035769060 1130476291127206
        1748659348100075 53470983013756
      xy2d := field.NewFieldElement51 553548273865386 5927805718390 65184587381926
        633576679686953 576048559439973 },
    { y_plus_x := field.NewFieldElement51 993787326657446 3868807161609258 1615796046728943
        2514644292681953 2059021068660907
      y_minus_x := field.NewFieldElement51 251010270518880 1681684095763484 1521949356387564
        431593457045116 1855308922422910
      xy2d := field.NewFieldElement51 618490909691959 1257497595618257 202952467594088
        35577762721238 1494883566841973 },
    { y_plus_x := field.NewFieldElement51 1673474571932262 2409784519770613 2636095316260487
        2761112584601925 3333713288149876
      y_minus_x := field.NewFieldElement51 1600640202645197 1019569075331823 1041916487915822
        1680448171313267 2126903137527901
      xy2d := field.NewFieldElement51 894964745143659 106116880092678 1009869382959477
        317866368542032 1986983122763912 },
    { y_plus_x := field.NewFieldElement51 1765281781276487 2863247187455184 2589075472439062
        1386435905543054 2182338478845320
      y_minus_x := field.NewFieldElement51 1144730936996693 2213315231278180 1489676672185125
        665039429138074 1131283313040268
      xy2d := field.NewFieldElement51 2004734176670602 1738311085075235 418866995976618
        1050782508034394 577747313404652 },
    { y_plus_x := field.NewFieldElement51 2185209688340293 1309276076461009 2514740038571278
        3994889904012999 3018098826231021
      y_minus_x := field.NewFieldElement51 1405936970888515 1754621155316654 1211862168554999
        1813045702919083 997853418197172
      xy2d := field.NewFieldElement51 82037622045021 1646398333621944 613095452763466
        1312329542583705 81014679202721 },
    { y_plus_x := field.NewFieldElement51 2389287991277873 403851022333257 1597473361477193
        2953351602509212 2135174663049062
      y_minus_x := field.NewFieldElement51 1826548187201150 302299893734126 1475477168615781
        842617616347376 1438600873676130
      xy2d := field.NewFieldElement51 663049852468609 1649295727846569 1048009692742781
        628866177992421 1914360327429204 },
    { y_plus_x := field.NewFieldElement51 1795645928096646 306878154408959 2924901319092394
        2801261341654799 1653782432983523
      y_minus_x := field.NewFieldElement51 2077597317438627 212642017882064 674844477518888
        875487498687554 2060550250171182
      xy2d := field.NewFieldElement51 1420448018683809 1032663994771382 1341927003385267
        1340360916546159 1988547473895228 },
    { y_plus_x := field.NewFieldElement51 1082660122598844 2545055705583789 3888919679589007
        1670283344995811 3403239134794618
      y_minus_x := field.NewFieldElement51 90430593339788 1838338032241275 571293238480915
        1639938867416883 257378872001111
      xy2d := field.NewFieldElement51 1528535658865034 1516636853043960 787000569996728
        1464531394704506 1684822625133795 },
    { y_plus_x := field.NewFieldElement51 811329918113934 2783463529007378 1769095754634835
        2970819621866866 881037178164325
      y_minus_x := field.NewFieldElement51 1784566501964517 433890943689325 1186055625589419
        1496077405487512 1731807117886548
      xy2d := field.NewFieldElement51 424909811816304 1355993963741797 409606483251841
        455665350637068 1617009023642808 },
    { y_plus_x := field.NewFieldElement51 2478728492077816 2780289048655501 2328687177473769
        4107341333582032 1316147724308250
      y_minus_x := field.NewFieldElement51 1617420574301156 1741273341070467 667135503486508
        2100436564640123 1032223920000865
      xy2d := field.NewFieldElement51 1753947659404033 247279202390193 1819288880178945
        737334285670249 1037873664856104 },
    { y_plus_x := field.NewFieldElement51 1762568490530034 673742465299012 2054571050635888
        2040165159255111 3040123733327257
      y_minus_x := field.NewFieldElement51 1627187989987422 1686331580821752 1309895873498183
        719718719104086 300063199808722
      xy2d := field.NewFieldElement51 238176707016164 1440454788877048 203336037573144
        1437789888677072 101522256664211 },
    { y_plus_x := field.NewFieldElement51 1895216760098480 1934324337975022 3677350688973167
        2536415965456176 714678003308640
      y_minus_x := field.NewFieldElement51 508185358728815 1691320535341855 2168887448239256
        1035124393070661 1936603999698584
      xy2d := field.NewFieldElement51 390562831571647 1390223890708972 1383183990676371
        435998174196410 1882086414390730 },
    { y_plus_x := field.NewFieldElement51 3747620842612921 2081794785291195 3284594056262745
        2090090346797895 2581692978935809
      y_minus_x := field.NewFieldElement51 244144781251265 1290834426417077 1888701171101942
        1233922456644870 241117402207491
      xy2d := field.NewFieldElement51 1266169390045455 1148042013187970 878921907853942
        1815738019658093 908920199341621 },
    { y_plus_x := field.NewFieldElement51 2521768507305118 953557056811112 2015863732865770
        1358382511861315 2835421647899992
      y_minus_x := field.NewFieldElement51 2239837206240498 330928973149665 422268062913642
        1481280019493032 619879520439841
      xy2d := field.NewFieldElement51 1360166735366017 1770556573948510 1395061284191031
        1814003148068126 522781147076884 },
    { y_plus_x := field.NewFieldElement51 2611794802645686 707234844948070 1314059396506491
        2919250341703934 2161831667832785
      y_minus_x := field.NewFieldElement51 934831784182383 433734253968318 1660867106725771
        1968393082772831 873946300968490
      xy2d := field.NewFieldElement51 26306827827554 430884999378685 1504310424376419
        1761358720837522 542195685418530 },
    { y_plus_x := field.NewFieldElement51 1762131062631725 3123952634417535 3619918390837537
        2909990877347294 1411594230004385
      y_minus_x := field.NewFieldElement51 538272372224622 1425714779586199 588313661410172
        1497062084392578 1602174047128512
      xy2d := field.NewFieldElement51 907490361939255 1963620338391363 626927432296975
        1250748516081414 959901171882527 },
    { y_plus_x := field.NewFieldElement51 1335066153744413 2887804660779657 2653073855954038
        2765226981667422 938831784476763
      y_minus_x := field.NewFieldElement51 296699434737224 2047543711075683 2076451038937139
        227783599906901 1602062110967627
      xy2d := field.NewFieldElement51 1574834773194203 1384279952062839 393652417255803
        2166968242848859 1552890441390820 },
    { y_plus_x := field.NewFieldElement51 1619646774410947 1576090644023562 3035228391320965
        1735328519940543 2355324535937066
      y_minus_x := field.NewFieldElement51 1024074573633446 957088456885874 1690425531356997
        2102187380180052 1082544623222033
      xy2d := field.NewFieldElement51 1871906170635853 1719383891167200 1584032250247862
        823764804192117 2244048510084261 },
    { y_plus_x := field.NewFieldElement51 642147846489775 3334304977145699 305205716788147
        2589176626729533 2224680511484174
      y_minus_x := field.NewFieldElement51 1734162377166545 260713621840346 157174591942595
        952544272517991 222818702471733
      xy2d := field.NewFieldElement51 1213115494182947 286778704335711 2130189536016490
        308349182281342 1217623948685491 },
    { y_plus_x := field.NewFieldElement51 3360052266973635 1843486583624091 1561693837124349
        1084041964025479 1866270922024009
      y_minus_x := field.NewFieldElement51 460705465481210 1968151453817859 497005926994844
        625618055866751 2176893440866887
      xy2d := field.NewFieldElement51 1655800250476757 2036588542300609 666447448675243
        1615721995750683 1508669225186765 },
    { y_plus_x := field.NewFieldElement51 2245948203759141 1058306669699396 1452898014240582
        3961024141962768 1633235287338608
      y_minus_x := field.NewFieldElement51 986647273684279 1507266907811370 1260572633649005
        2071672342077446 695976026010857
      xy2d := field.NewFieldElement51 1312356620823495 1635278548098567 901946076841033
        585120475533168 1240667113237384 },
    { y_plus_x := field.NewFieldElement51 2313723935779695 1506054666773895 996040223525031
        636592914999692 1497801917020297
      y_minus_x := field.NewFieldElement51 292042016419794 1158932298133044 2062611870323738
        1946058478962569 1749165808126286
      xy2d := field.NewFieldElement51 654683942212830 1526897351349087 2006818439922838
        2194919327350361 1451960776874416 },
    { y_plus_x := field.NewFieldElement51 3015041017808905 2951823141773809 2584865668253675
        2508192032998563 2582137700042019
      y_minus_x := field.NewFieldElement51 1628123495344283 2072923641214546 1647225812023982
        855655925244679 1758126430071140
      xy2d := field.NewFieldElement51 1615895096489599 275295258643784 937665541219916
        1313496726746346 1186468946422626 },
    { y_plus_x := field.NewFieldElement51 1603070202850694 2072127623773242 1692648737212158
        2493373404187852 1248948672117105
      y_minus_x := field.NewFieldElement51 11167836031898 596565174397990 2196351068723859
        314744641791907 1102014997250781
      xy2d := field.NewFieldElement51 1409047922401191 69960384467966 688103515547600
        1309746102488044 150292892873778 },
    { y_plus_x := field.NewFieldElement51 1986083055103168 691715819340300 1361811659746933
        3459052030333434 1063594696046061
      y_minus_x := field.NewFieldElement51 1201987338414749 2198784582460616 1203335513981498
        489243077045066 2205278143582433
      xy2d := field.NewFieldElement51 2034744376624534 2077387101466387 148448542974969
        1502697574577258 473186584705655 },
    { y_plus_x := field.NewFieldElement51 472016956315960 720786972252993 2840633661190043
        3150798753357827 2816563335499153
      y_minus_x := field.NewFieldElement51 253464247569755 168314237403057 511780806170295
        1058862316549135 1646858476817137
      xy2d := field.NewFieldElement51 595092995922219 1491311840717691 291581784452778
        1569186646367854 1031385061400544 },
    { y_plus_x := field.NewFieldElement51 3483137021572755 1526955102024322 2778006642704458
        457549634924205 1097420237736736
      y_minus_x := field.NewFieldElement51 1246991699537710 81367319519439 530844036072196
        163656863755855 1950742455979290
      xy2d := field.NewFieldElement51 191532664076407 539378506082089 1021612562876554
        1026603384732632 1773368780410653 },
    { y_plus_x := field.NewFieldElement51 4144620731387879 590179521333342 4034023318016108
        2255745030335426 2699746851701250
      y_minus_x := field.NewFieldElement51 2206599697359952 553895797384417 181689161933786
        1153123447919104 778568064152659
      xy2d := field.NewFieldElement51 1706307000059211 1885601289314487 889758608505788
        550131729999853 1006862664714268 },
    { y_plus_x := field.NewFieldElement51 3210197754285058 2048500453422630 3403309827888207
        927154428508963 4199813798872019
      y_minus_x := field.NewFieldElement51 992058915374933 476120535358775 1973648780784340
        2025282643598818 2182318983793230
      xy2d := field.NewFieldElement51 1343440812005821 1316045839091795 1884951299078063
        1765919609219175 2197567554627988 },
    { y_plus_x := field.NewFieldElement51 3129247779382818 4415026969054274 1900265885969643
        1528796215447059 2172730393748688
      y_minus_x := field.NewFieldElement51 1773355092297603 64654329538271 1332124041660957
        748492100858001 895500006200535
      xy2d := field.NewFieldElement51 2000840647851980 546565968824914 420633283457524
        195470736374507 1958689297569520 },
    { y_plus_x := field.NewFieldElement51 743138980705446 3411117504637167 2591389959690621
        2380042066577202 3022267940115114
      y_minus_x := field.NewFieldElement51 165947002229363 115186103724967 1068573292121517
        1842565776920938 1969395681111987
      xy2d := field.NewFieldElement51 553322266190633 234265665613185 484544650202821
        1238773526575826 2017991917953668 },
    { y_plus_x := field.NewFieldElement51 2581954631514051 1245093644265357 3537016673825374
        1834216551713857 923978372152807
      y_minus_x := field.NewFieldElement51 1855378315339552 890045579230758 1764718173975590
        197904186055854 1718129022310327
      xy2d := field.NewFieldElement51 1278162928734862 1894118254109862 987503995465517
        177406744098996 781538103127693 },
    { y_plus_x := field.NewFieldElement51 1996603431230215 1191888797552937 1207440075928499
        2765853449051137 2525314961343288
      y_minus_x := field.NewFieldElement51 808903879370889 990820108751280 1084429472258867
        1078562781312589 254514692695625
      xy2d := field.NewFieldElement51 615855140068469 586046731175395 693470779212674
        1964537100203868 1350330550265229 },
    { y_plus_x := field.NewFieldElement51 3344544372023708 720386671449874 2480841360702110
        2036034126860286 2015744690201389
      y_minus_x := field.NewFieldElement51 1337446193390478 1984110761311871 746489405020285
        407347127604128 1740475330360596
      xy2d := field.NewFieldElement51 140840424783613 1063284623568331 1136446106453878
        372042229029799 442607248430694 },
    { y_plus_x := field.NewFieldElement51 2330781679120937 376801425148230 2032603686676107
        1488926293635130 1317278311532959
      y_minus_x := field.NewFieldElement51 1290116731380016 2166899563471713 831997001838078
        870954980505220 2108537278055823
      xy2d := field.NewFieldElement51 1912719171026343 846194720551034 2043988124740726
        993234269653961 421229796383281 },
    { y_plus_x := field.NewFieldElement51 2651184584992902 2775702557638963 2539786009779572
        2575974880015305 2122619079836732
      y_minus_x := field.NewFieldElement51 1154054290132562 931753998725577 1647742001778052
        865765466488226 1083816107290025
      xy2d := field.NewFieldElement51 986341121095108 1522330369638573 1990880546211047
        501525962272123 198539304862139 },
    { y_plus_x := field.NewFieldElement51 1496414019192687 3991034436173951 3380311659062196
        2854747485359158 3346958036643152
      y_minus_x := field.NewFieldElement51 805612068303425 1891790027761335 1587008567571549
        722120737390201 378156757163816
      xy2d := field.NewFieldElement51 1588994517921951 977362751042302 1329302387067714
        2069348224564088 1586007159625211 },
    { y_plus_x := field.NewFieldElement51 2490539421551682 1985699850375015 2331762317128172
        4145097393776678 2521049460190674
      y_minus_x := field.NewFieldElement51 615817553313996 2245962768078178 482564324326173
        2101336843140780 1240914880829407
      xy2d := field.NewFieldElement51 1438242482238189 874267817785463 1620810389770625
        866155221338671 1040426546798301 },
    { y_plus_x := field.NewFieldElement51 2403083624110300 2548561409802975 2492699136535911
        2358289519456539 3203964320363148
      y_minus_x := field.NewFieldElement51 1913986535403097 1977163223054199 1972905914623196
        1650122133472502 1905849310819035
      xy2d := field.NewFieldElement51 858174816360838 614595356564037 1099584959044836
        636998087084906 1070393269058348 },
    { y_plus_x := field.NewFieldElement51 3666695924830668 3585640662737501 2372994528684236
        2628565977288995 3482812783469694
      y_minus_x := field.NewFieldElement51 1994161359147952 2198039369802658 62790022842537
        1522306785848169 951223194802833
      xy2d := field.NewFieldElement51 852296621440717 431889737774209 370755457746189
        437604073958073 627857326892757 },
    { y_plus_x := field.NewFieldElement51 1794955764684156 2586904290013612 1322647643615887
        856117964085888 2652432778663153
      y_minus_x := field.NewFieldElement51 933592377399646 78031722952813 926049890685253
        1471649501316246 33789909190376
      xy2d := field.NewFieldElement51 1479319468832059 203906207621608 659828362330083
        44358398435755 1273573524210803 },
    { y_plus_x := field.NewFieldElement51 1592342143350813 3227219208247713 2345240352078765
        2577750109932929 2933512841197243
      y_minus_x := field.NewFieldElement51 2184946892642995 1517382324576002 1557940277419806
        2170635134813213 747314658627002
      xy2d := field.NewFieldElement51 1823193620577742 1135817878516419 1731253819308581
        1031652967267804 2123506616999453 },
    { y_plus_x := field.NewFieldElement51 1346190246005805 2052692552023851 1718128041785940
        2491557332978474 3474370880388305
      y_minus_x := field.NewFieldElement51 424776012994573 281050757243423 626466040846420
        990194703866532 38571969885982
      xy2d := field.NewFieldElement51 192408346595466 1054889725292349 584097975693004
        1447909807397749 2134645004369136 },
    { y_plus_x := field.NewFieldElement51 3169895788615063 3503097743181446 601598510029975
        1422812237223371 2121009661378329
      y_minus_x := field.NewFieldElement51 1603348391996783 2066143816131699 1789627290363958
        2145705961178118 1985578641438222
      xy2d := field.NewFieldElement51 352633958653380 856927627345554 793925083122702
        93551575767286 1222010153634215 },
    { y_plus_x := field.NewFieldElement51 1756866499986349 911731956999969 2707505543214075
        4006920335263786 822501008147910
      y_minus_x := field.NewFieldElement51 1094036422864347 1897208881572508 1503607738246960
        1901060196071406 294068411105729
      xy2d := field.NewFieldElement51 587776484399576 1116861711228807 343398777436088
        936544065763093 1643746750211060 },
    { y_plus_x := field.NewFieldElement51 3477749685790410 267997399528836 2953780922004404
        3252368924080907 3787792887348381
      y_minus_x := field.NewFieldElement51 2042368155872443 41662387210459 1676313264498480
        1333968523426810 1765708383352310
      xy2d := field.NewFieldElement51 1453394896690938 1585795827439909 1469309456804303
        1294645324464404 2042954198665899 },
    { y_plus_x := field.NewFieldElement51 1810069207599881 1358344669503239 1989371257548167
        2316270051121225 3019675451276507
      y_minus_x := field.NewFieldElement51 1866114438287676 1663420339568364 1437691317033088
        538298302628038 1212711449614363
      xy2d := field.NewFieldElement51 1769235035677897 1562012115317882 31277513664750
        536198657928416 1976134212537183 }
  ]

/-- The Edwards parameter `d`, as a residue. -/
def edwardsD : Nat := constEDWARDS_D.val

/-- The curve equation `−x² + y² = 1 + d·x²·y²` of the spec, in the field. -/
@[reducible] def OnCurve (x y : Nat) : Prop :=
  field.feAdd (field.feNeg (field.feMul x x)) (field.feMul y y) =
    field.feAdd 1 (field.feMul edwardsD (field.feMul (field.feMul x x) (field.feMul y y)))

/-- Modelled from the spec: the coordinates "(X,Y,Z,T)" of an extended point, as
residues. -/
structure ExtendedPoint where
  X : Nat
  Y : Nat
  Z : Nat
  T : Nat
  deriving DecidableEq, Repr

/-- The coordinates of an `EdwardsPoint` as residues. -/
def EdwardsPoint.coords (P : EdwardsPoint) : ExtendedPoint :=
  ⟨P.X.val, P.Y.val, P.Z.val, P.T.val⟩

namespace ExtendedPoint

/-- Modelled from the spec: the identity, `(0, 1)` with `Z = 1`. -/
def identity : ExtendedPoint := ⟨0, 1, 1, 0⟩

/-- Modelled from the spec: "add (extended + projective-Niels → completed)" and
back to extended coordinates; the second point enters through its "Projective
Niels (Y+X, Y−X, Z, 2dT)" form. This is the addition law of the curve with
`a = −1`. -/
def add (P Q : ExtendedPoint) : ExtendedPoint :=
  let PP := field.feMul (field.feAdd P.Y P.X) (field.feAdd Q.Y Q.X)
  let MM := field.feMul (field.feSub P.Y P.X) (field.feSub Q.Y Q.X)
  let TT2d := field.feMul P.T (field.feMul (field.feMul 2 edwardsD) Q.T)
  let ZZ2 := field.feMul 2 (field.feMul P.Z Q.Z)
  let cX := field.feSub PP MM
  let cY := field.feAdd PP MM
  let cZ := field.feAdd ZZ2 TT2d
  let cT := field.feSub ZZ2 TT2d
  ⟨field.feMul cX cT, field.feMul cY cZ, field.feMul cZ cT, field.feMul cX cY⟩

/-- Modelled from the spec: "double". -/
def double (P : ExtendedPoint) : ExtendedPoint := P.add P

/-- Modelled from the spec: "mul_by_cofactor (three doublings)". -/
def mulByCofactor (P : ExtendedPoint) : ExtendedPoint := P.double.double.double

/-- The multiple `n·P`: `P` added `n` times to the identity. -/
def smul : Nat → ExtendedPoint → ExtendedPoint
  | 0, _ => identity
  | n + 1, P => (smul n P).add P

/-- Modelled from the spec: "equal (constant-time using Z-independent form
X₁Z₂ = X₂Z₁ ∧ Y₁Z₂ = Y₂Z₁)". -/
def Equal (P Q : ExtendedPoint) : Bool :=
  decide (field.feMul P.X Q.Z = field.feMul Q.X P.Z ∧ field.feMul P.Y Q.Z = field.feMul Q.Y P.Z)

/-- The affine point `(X/Z, Y/Z)`. -/
def affine (P : ExtendedPoint) : Nat × Nat :=
  (field.feMul P.X (field.feInvert P.Z), field.feMul P.Y (field.feInvert P.Z))

end ExtendedPoint

/-- Modelled from the spec: the "Affine Niels (Y+X, Y−X, 2dXY)" form of an affine
point `(x, y)`, as three residues. -/
def affineNiels (xy : Nat × Nat) : Nat × Nat × Nat :=
  (field.feAdd xy.2 xy.1, field.feSub xy.2 xy.1,
    field.feMul (field.feMul 2 edwardsD) (field.feMul xy.1 xy.2))

/-- The three residues held by an `affineNielsPoint`. -/
def affineNielsPoint.vals (e : affineNielsPoint) : Nat × Nat × Nat :=
  (e.y_plus_x.val, e.y_minus_x.val, e.xy2d.val)

end curve

/-! ## Package `curve`: the lookup of `window.go` -/

namespace subtle

/-- Modelled from the spec: `subtle.ConstantTimeCompareByte`, "a mask derived
from equality of the current index with each candidate": 1 when the two bytes are
equal, 0 otherwise. -/
def ConstantTimeCompareByte (a b : Nat) : Nat := if a = b then 1 else 0

end subtle

namespace curve

/-- Modelled from the spec: `ConditionalAssign`, "conditionally copy": `t` becomes
`other` when `choice` is 1 and is left alone when it is 0. -/
def ConditionalAssign {α : Type} (t other : α) (choice : Nat) : α :=
  if choice = 1 then other else t

/-- Modelled from the spec: `ConditionalNegate`, "conditionally negate using the
sign bit of the digit": `t` is negated when `choice` is 1. -/
def ConditionalNegate {α : Type} [Neg α] (t : α) (choice : Nat) : α :=
  if choice = 1 then -t else t

/-- The bits of an `int8` (two's complement), as a number below 256. -/
def int8Bits (x : Int) : Nat := (x % 256).toNat

/-- The type `projectiveNielsPointLookupTable`, `[8]projectiveNielsPoint`, over a
type `α` of points. -/
abbrev projectiveNielsPointLookupTable (α : Type) : Type := Fin 8 → α

/-- The method `projectiveNielsPointLookupTable.Lookup`. The `int8` values are
handled through their bits: `x >> 7` is the arithmetic shift, the sum wraps at 8
bits, `uint8(...)` keeps the bits. The loop variable `j` of the source is
`i + 1` here, so that `tbl[j-1]` is `tbl i`; `Identity()` is the zero of `α`. -/
def projectiveNielsPointLookupTable.Lookup {α : Type} [Zero α] [Neg α]
    (tbl : projectiveNielsPointLookupTable α) (x : Int) : α :=
  -- Compute xabs = |x|
  let xmask := int8Bits (x >>> 7)
  let xabs := ((int8Bits x + xmask) % 256) ^^^ xmask
  -- Set t = 0 * P = identity
  let t := (List.finRange 8).foldl
    (fun t i => ConditionalAssign t (tbl i) (subtle.ConstantTimeCompareByte xabs (i.val + 1)))
    (0 : α)
  -- Now t == |x| * P.
  let negMask := xmask &&& 1
  ConditionalNegate t negMask
  -- Now t == x * P.

/-- The table `{1, 2, ..., 8}·7` over the integers, to evaluate `Lookup`. -/
def integerTable : projectiveNielsPointLookupTable Int := fun j => ((j.val : Int) + 1) * 7

/-- The first line of both `Lookup` methods, `xmask := x >> 7`, as the bits of
the `int8` result. -/
def lookupXmask (x : Int) : Nat := int8Bits (x >>> 7)

/-- The second line of both `Lookup` methods, `xabs := uint8((x + xmask) ^ xmask)`. -/
def lookupXabs (x : Int) : Nat := ((int8Bits x + lookupXmask x) % 256) ^^^ lookupXmask x

/-- The expression `int(byte(xmask & 1))` of both `Lookup` methods. -/
def lookupNegMask (x : Int) : Nat := lookupXmask x &&& 1

/-- The type `projectiveNielsPointNafLookupTable`, `[8]projectiveNielsPoint`: it
"holds odd multiples 1A, 3A, ..., 15A of a point A". -/
abbrev projectiveNielsPointNafLookupTable (α : Type) : Type := Fin 8 → α

/-- The method `projectiveNielsPointNafLookupTable.lookup`, `&tbl[x/2]` for a
`uint8` `x`; `none` is the panic of an index out of range. -/
def projectiveNielsPointNafLookupTable.lookup {α : Type}
    (tbl : projectiveNielsPointNafLookupTable α) (x : Nat) : Option α :=
  if h : x / 2 < 8 then some (tbl ⟨x / 2, h⟩) else none

/-- The type `affineNielsPointNafLookupTable`, `[64]affineNielsPoint`. -/
abbrev affineNielsPointNafLookupTable (α : Type) : Type := Fin 64 → α

/-- The method `affineNielsPointNafLookupTable.lookup`, `&tbl[x/2]` for a `uint8`
`x`; `none` is the panic of an index out of range. -/
def affineNielsPointNafLookupTable.lookup {α : Type}
    (tbl : affineNielsPointNafLookupTable α) (x : Nat) : Option α :=
  if h : x / 2 < 64 then some (tbl ⟨x / 2, h⟩) else none

/-! ### The tables of `window.go`

The point arithmetic is not part of these sources. In the table constructors a
point, in whatever form it is held (extended, completed, projective Niels), is
an element of a commutative group `G`. -/

section Tables

variable {G : Type} [AddCommGroup G]

/-- Modelled from the spec: `projectiveNielsPoint.SetEdwards`, the conversion of
an extended point to its "Projective Niels (Y+X, Y−X, Z, 2dT)" form; the point
held is the same. -/
def projectiveNielsPoint.SetEdwards (ep : G) : G := ep

/-- Modelled from the spec: `EdwardsPoint.setCompleted`, the conversion of a
completed point to extended coordinates; the point held is the same. -/
def EdwardsPoint.setCompleted (p : G) : G := p

/-- Modelled from the spec: `completedPoint.AddEdwardsProjectiveNiels`, "add
(extended + projective-Niels → completed)". -/
def completedPoint.AddEdwardsProjectiveNiels (a b : G) : G := a + b

/-- Modelled from the spec: `EdwardsPoint.double`, "double". -/
def EdwardsPoint.double (ep : G) : G := ep + ep

/-- The function `newProjectiveNielsPointLookupTable`. The array `points` is a
function on `Fin 8`; the loop `for j := 0; j < 7; j++` assigns `points[j+1]`
from `points[j]`. -/
def newProjectiveNielsPointLookupTable (ep : G) : projectiveNielsPointLookupTable G :=
  let epPNiels := projectiveNielsPoint.SetEdwards ep
  let points : Fin 8 → G := fun _ => epPNiels
  (List.finRange 7).foldl
    (fun points j => Function.update points j.succ
      (projectiveNielsPoint.SetEdwards (EdwardsPoint.setCompleted
        (completedPoint.AddEdwardsProjectiveNiels ep (points j.castSucc)))))
    points

/-- The function `newProjectiveNielsPointNafLookupTable`. The array `Ai` is a
function on `Fin 8`; the loop `for i := 0; i < 7; i++` assigns `Ai[i+1]` from
`Ai[i]`. -/
def newProjectiveNielsPointNafLookupTable (ep : G) : projectiveNielsPointNafLookupTable G :=
  let epPNiels := projectiveNielsPoint.SetEdwards ep
  let Ai : Fin 8 → G := fun _ => epPNiels
  let A2 := EdwardsPoint.double ep
  (List.finRange 7).foldl
    (fun Ai i => Function.update Ai i.succ
      (projectiveNielsPoint.SetEdwards (EdwardsPoint.setCompleted
        (completedPoint.AddEdwardsProjectiveNiels A2 (Ai i.castSucc)))))
    Ai

end Tables

/-! ### The packed affine table -/

/-- Modelled from the spec: an affine Niels point, "Affine Niels (Y+X, Y−X,
2dXY)", over a type `F` of field values. -/
structure AffineNiels (F : Type) where
  y_plus_x : F
  y_minus_x : F
  xy2d : F
  deriving DecidableEq, Repr

/-- Modelled from the spec: the negation of an affine Niels point. The negative
of `(x, y)` is `(−x, y)`, so `Y+X` and `Y−X` change places and `2dXY` changes
sign. -/
instance {F : Type} [Neg F] : Neg (AffineNiels F) :=
  ⟨fun t => ⟨t.y_minus_x, t.y_plus_x, -t.xy2d⟩⟩

/-- Modelled from the spec: what the packed table uses of the absent packages,
for points in a group `G` and field values in `F`: `FieldElement.ToBytes`
("encode_canonical (32 bytes)"), `FieldElement.SetBytes` ("decode"),
`affineNielsPoint.SetEdwards` (the affine Niels form of a point) and
`completedPoint.AddEdwardsAffineNiels` followed by `setCompleted` ("add (extended
+ affine-Niels → completed)"). -/
structure AffineNielsOps (G F : Type) where
  ToBytes : F → List Byte
  SetBytes : List Byte → F
  SetEdwards : G → AffineNiels F
  AddEdwardsAffineNiels : G → AffineNiels F → G

/-- Modelled from the spec: the laws of these operations. An encoding has 32
bytes and decodes to the value encoded; adding the affine Niels form of `Q` to
`P` gives `P + Q`; the identity has the form `(1, 1, 0)`; the form of `−Q` is
the negation of the form of `Q`. -/
structure AffineNielsOps.Lawful {G F : Type} [AddCommGroup G] [Zero F] [One F] [Neg F]
    (ops : AffineNielsOps G F) : Prop where
  ToBytes_length : ∀ a, (ops.ToBytes a).length = 32
  SetBytes_ToBytes : ∀ a, ops.SetBytes (ops.ToBytes a) = a
  add_SetEdwards : ∀ P Q, ops.AddEdwardsAffineNiels P (ops.SetEdwards Q) = P + Q
  SetEdwards_zero : ops.SetEdwards 0 = ⟨1, 1, 0⟩
  SetEdwards_neg : ∀ Q, ops.SetEdwards (-Q) = -ops.SetEdwards Q

section Packed

variable {G F : Type}

/-- The type `packedAffineNielsPointLookupTable`, `[8][96]byte`. -/
abbrev packedAffineNielsPointLookupTable : Type := Fin 8 → List Byte

/-- The three `ToBytes` calls that pack one point into 96 bytes (lines 138-140). -/
def packAffineNiels (ops : AffineNielsOps G F) (point : AffineNiels F) : List Byte :=
  ops.ToBytes point.y_plus_x ++ ops.ToBytes point.y_minus_x ++ ops.ToBytes point.xy2d

/-- The three `SetBytes` calls that unpack 96 bytes (lines 96-99): `tPacked[0:32]`,
`tPacked[32:64]`, `tPacked[64:96]`. -/
def unpackAffineNiels (ops : AffineNielsOps G F) (tPacked : List Byte) : AffineNiels F :=
  { y_plus_x := ops.SetBytes ((tPacked.drop 0).take 32)
    y_minus_x := ops.SetBytes ((tPacked.drop 32).take 32)
    xy2d := ops.SetBytes ((tPacked.drop 64).take 32) }

/-- Modelled from the spec: the constant `identityAffineNielsPacked`, the packed
identity `(1, 1, 0)`. -/
def identityAffineNielsPacked [Zero F] [One F] (ops : AffineNielsOps G F) : List Byte :=
  packAffineNiels ops ⟨1, 1, 0⟩

/-- Modelled from the spec: `subtle.MoveConditionalBytesx96`, "conditionally copy":
`out` becomes `src` when `flag` is 1. -/
def MoveConditionalBytesx96 (out src : List Byte) (flag : Nat) : List Byte :=
  if flag = 1 then src else out

/-- The function `lookupPackedAffineNielsGeneric`; the result is the final content
of `out`. The loop variable `j` of the source is `i + 1` here. -/
def lookupPackedAffineNielsGeneric [Zero F] [One F] (ops : AffineNielsOps G F)
    (table : packedAffineNielsPointLookupTable) (xabs : Nat) : List Byte :=
  (List.finRange 8).foldl
    (fun out i => MoveConditionalBytesx96 out (table i)
      (subtle.ConstantTimeCompareByte xabs (i.val + 1)))
    (identityAffineNielsPacked ops)

/-- Modelled from the spec: `lookupPackedAffineNiels`, which the sources leave to
each platform; it is taken to be the generic function. -/
def lookupPackedAffineNiels [Zero F] [One F] (ops : AffineNielsOps G F)
    (tbl : packedAffineNielsPointLookupTable) (xabs : Nat) : List Byte :=
  lookupPackedAffineNielsGeneric ops tbl xabs

/-- The method `packedAffineNielsPointLookupTable.Lookup`. -/
def packedAffineNielsPointLookupTable.Lookup [Zero F] [One F] [Neg F]
    (ops : AffineNielsOps G F) (tbl : packedAffineNielsPointLookupTable) (x : Int) :
    AffineNiels F :=
  -- Compute xabs = |x|
  let xmask := int8Bits (x >>> 7)
  let xabs := ((int8Bits x + xmask) % 256) ^^^ xmask
  -- Set t = 0 * P = identity
  let tPacked := lookupPackedAffineNiels ops tbl xabs
  -- Now t == |x| * P.
  -- Unpack t.
  let t := unpackAffineNiels ops tPacked
  let negMask := xmask &&& 1
  ConditionalNegate t negMask
  -- Now t == x * P.

/-- The function `newPackedAffineNielsPointLookupTable`: the eight points, then
their packing. -/
def newPackedAffineNielsPointLookupTable (ops : AffineNielsOps G F) (ep : G) :
    packedAffineNielsPointLookupTable :=
  let epANiels := ops.SetEdwards ep
  let points : Fin 8 → AffineNiels F := fun _ => epANiels
  let points : Fin 8 → AffineNiels F := (List.finRange 7).foldl
    (fun points j => Function.update points j.succ
      (ops.SetEdwards (EdwardsPoint.setCompleted
        (ops.AddEdwardsAffineNiels ep (points j.castSucc)))))
    points
  -- Pack the table.
  fun i => packAffineNiels ops (points i)

end Packed

/-- A small instance of the operations, to evaluate the packed table: points and
field values are the integers modulo 17, the form of `g` is `(1 + g, 1 − g, g)`,
a value is encoded in the first of 32 bytes. -/
def toyOps : AffineNielsOps (ZMod 17) (ZMod 17) where
  ToBytes := fun a => Fin.ofNat a.val :: List.replicate 31 0
  SetBytes := fun b => ((b.headD 0).val : ZMod 17)
  SetEdwards := fun g => ⟨1 + g, 1 - g, g⟩
  AddEdwardsAffineNiels := fun P n => P + n.xy2d

end curve

/-! ## The loop of `scMinimal`, step by step -/

/-- How a run of the loop of `scMinimal` ends: with the value the function
returns and the indices `i` of the iterations made, with a panic (a slice or an
index out of range), or without an end within the given number of iterations. -/
inductive LoopOutcome
  | result (value : Bool) (visited : List Int)
  | panic (visited : List Int)
  | unfinished (visited : List Int)
  deriving DecidableEq, Repr

/-- The loop `for i := 3; ; i--` of `scMinimal` with the Go `int` index `i` as
an integer and no assumption on where it stops: `scalar[i*8:]` panics when
`i*8` is negative or exceeds the length, `Uint64` when fewer than 8 bytes
remain, `order[i]` when `i` is outside `[0, 4)`. At most `fuel` iterations are
made; `visited` lists the indices of the iterations made so far. -/
def scMinimalRun (scalar : List Byte) : Nat → Int → List Int → LoopOutcome
  | 0, _, visited => .unfinished visited
  | fuel + 1, i, visited =>
    if i < 0 ∨ (i * 8).toNat > scalar.length then .panic (visited ++ [i]) else
    match uint64LE (scalar.drop (i * 8).toNat) with
    | none => .panic (visited ++ [i])
    | some v =>
    match order[i.toNat]? with
    | none => .panic (visited ++ [i])
    | some o =>
    if v > o then .result false (visited ++ [i])
    else if v < o then .result true (visited ++ [i])
    else if i = 0 then .result false (visited ++ [i])
    else scMinimalRun scalar fuel (i - 1) (visited ++ [i])

/-! ## Little-endian values -/

theorem length_leBytes (len n : Nat) : (leBytes len n).length = len := by
  induction len generalizing n with
  | zero => rfl
  | succ k ih => simp [leBytes, ih]

theorem leValue_lt (l : List Byte) : leValue l < 256 ^ l.length := by
  induction l with
  | nil => simp [leValue]
  | cons b bs ih =>
    have hb := b.isLt
    simp only [leValue, List.length_cons, pow_succ]
    omega

theorem leValue_append (a b : List Byte) :
    leValue (a ++ b) = leValue a + 256 ^ a.length * leValue b := by
  induction a with
  | nil => simp [leValue]
  | cons x xs ih =>
    rw [List.cons_append]
    simp only [leValue, List.length_cons, pow_succ]
    rw [ih]
    ring

theorem leValue_leBytes (len n : Nat) : leValue (leBytes len n) = n % 256 ^ len := by
  induction len generalizing n with
  | zero => simp [leBytes, leValue, Nat.mod_one]
  | succ k ih =>
    have h256 : (Fin.ofNat (n % 256) : Byte).val = n % 256 := by
      simp [Fin.ofNat]
    simp only [leBytes, leValue, ih, h256]
    rw [pow_succ, Nat.mul_comm (256 ^ k) 256, Nat.mod_mul]

/-! ## `scMinimal` -/

theorem byte_masks : ∀ b : Byte,
    (b &&& 240 = 0 ↔ b.val < 16) ∧ (b &&& 240 ≠ 0 → b &&& 244 ≠ 0) ∧
    (b &&& 224 ≠ 0 → b &&& 240 ≠ 0) ∧ ((b ||| 32) &&& 224 ≠ 0) := by
  decide!

/-- What `scMinimal` computes on 32 bytes: whether the value is below `2^252`. -/
theorem scMinimal_eq (s : List Byte) (hlen : s.length = 32) :
    scMinimal s = some (decide (leValue s < 2 ^ 252)) := by
  have h31 : 31 < s.length := by omega
  have hget : s[31]? = some s[31] := List.getElem?_eq_getElem h31
  have hsplit : s = s.take 31 ++ [s[31]] := by
    conv_lhs => rw [← List.take_append_drop 31 s]
    rw [List.drop_eq_getElem_cons h31, List.drop_eq_nil_of_le (by omega)]
  have hval : leValue s = leValue (s.take 31) + 256 ^ 31 * (s[31]).val := by
    conv_lhs => rw [hsplit]
    rw [leValue_append]
    simp [leValue, List.length_take, hlen]
  have hlow : leValue (s.take 31) < 256 ^ 31 := by
    have := leValue_lt (s.take 31)
    simpa [List.length_take, hlen] using this
  obtain ⟨h1, h2, _, _⟩ := byte_masks s[31]
  unfold scMinimal
  rw [hget]
  simp only [Option.bind_eq_bind, Option.some_bind]
  by_cases htop : s[31] &&& 240 = 0
  · have : (s[31]).val < 16 := h1.mp htop
    have hlt : leValue s < 2 ^ 252 := by
      rw [hval]; norm_num at hlow ⊢; omega
    rw [if_pos htop, decide_eq_true hlt]
  · have hge : ¬ (s[31]).val < 16 := fun h => htop (h1.mpr h)
    have hnlt : ¬ leValue s < 2 ^ 252 := by
      rw [hval]; norm_num at hlow ⊢; omega
    rw [if_neg htop, if_pos (h2 htop), decide_eq_false hnlt]

/-- A set top bit (any of the three) makes `scMinimal` answer false. -/
theorem scMinimal_top_bits (s : List Byte) (top : Byte) (h : s[31]? = some top)
    (htop : top &&& 224 ≠ 0) : scMinimal s = some false := by
  obtain ⟨_, h2, h3, _⟩ := byte_masks top
  unfold scMinimal
  rw [h]
  simp only [Option.bind_eq_bind, Option.some_bind]
  rw [if_neg (h3 htop), if_pos (h2 (h3 htop))]

/-! ## The control flow of verification -/

section VerifyLemmas

variable {G : Type} [AddCommGroup G] [DecidableEq G]

theorem wide_sum (H : Sha512) (data : List Byte) :
    Scalar.FromBytesModOrderWide (H.sum data) = some (leValue (H.sum data) % L) := by
  simp [Scalar.FromBytesModOrderWide, H.size]

theorem writeDom2_isSome (f : dom2Flag) (c : List Byte) (h : c.length ≤ ContextMaxSize) :
    ∃ dom, writeDom2 f c = some dom := by
  unfold writeDom2
  by_cases hf : f = fPure
  · exact ⟨[], by simp [hf]⟩
  · exact ⟨dom2Prefix ++ [f, Fin.ofNat c.length] ++ c, by simp [hf, Nat.not_lt.mpr h]⟩

theorem Options.verify_ok {opts : Options} {f : dom2Flag} {context : List Byte}
    (h : opts.verify = .ok (f, context)) : context.length ≤ ContextMaxSize := by
  unfold Options.verify at h
  by_cases h0 : opts.Context.length > 0
  · by_cases h1 : opts.Context.length > ContextMaxSize
    · simp [h0, h1] at h
    · simp [h0, h1] at h
      rw [← h.2]; omega
  · simp [h0] at h
    rw [h.2]; simp

/-- A 64-byte signature that passes every check reaches the acceptance equation. -/
theorem verifyChecked_pass (C : Curve G) (H : Sha512) (f : dom2Flag) (context dom : List Byte)
    (vOpts : VerifyOptions) (publicKey message sig : List Byte) (A R : G)
    (hsig : sig.length = 64) (hdom : writeDom2 f context = some dom)
    (hpk : publicKey.length = 32) (hA : C.decompress publicKey = some A)
    (hga : (!vOpts.AllowSmallOrderA && EdwardsPoint.IsSmallOrder A) = false)
    (hS : scMinimal (sig.drop 32) = some true)
    (hR : C.decompress (sig.take 32) = some R)
    (hgr : (!vOpts.AllowSmallOrderR && EdwardsPoint.IsSmallOrder R) = false)
    (hgc : (!vOpts.AllowNonCanonicalAR &&
      !(C.IsCanonical publicKey && C.IsCanonical (sig.take 32))) = false) :
    verifyChecked C H f context vOpts publicKey message sig =
      some
        (if vOpts.CofactorlessVerify then
          decide (EdwardsPoint.Equal R (C.DoubleScalarMulBasepointVartime
            (leValue (H.sum (dom ++ sig.take 32 ++ publicKey ++ message)) % L)
            (EdwardsPoint.Neg A) (leValue (sig.drop 32) % L)) = 1)
        else
          EdwardsPoint.IsSmallOrder (EdwardsPoint.Sub (C.DoubleScalarMulBasepointVartime
            (leValue (H.sum (dom ++ sig.take 32 ++ publicKey ++ message)) % L)
            (EdwardsPoint.Neg A) (leValue (sig.drop 32) % L)) R),
        none) := by
  have hdrop : (sig.drop 32).length = 32 := by simp [hsig]
  have htake : (sig.take 32).length = 32 := by simp [hsig]
  unfold verifyChecked CompressedEdwardsY.FromBytes
  simp only [hpk, hA, hga, hdom, wide_sum, hS, htake, hR, hgr, hgc, Scalar.FromBytesModOrder,
    hdrop, if_true, Option.getD_some, Bool.false_eq_true, if_false]
  split <;> rfl

/-- A 64-byte signature is rejected with `(false, nil)` unless every check passes. -/
theorem verifyChecked_cases (C : Curve G) (H : Sha512) (f : dom2Flag) (context dom : List Byte)
    (vOpts : VerifyOptions) (publicKey message sig : List Byte)
    (hsig : sig.length = 64) (hdom : writeDom2 f context = some dom) :
    verifyChecked C H f context vOpts publicKey message sig = some (false, none) ∨
    ∃ A R, publicKey.length = 32 ∧ C.decompress publicKey = some A ∧
      (!vOpts.AllowSmallOrderA && EdwardsPoint.IsSmallOrder A) = false ∧
      scMinimal (sig.drop 32) = some true ∧
      C.decompress (sig.take 32) = some R ∧
      (!vOpts.AllowSmallOrderR && EdwardsPoint.IsSmallOrder R) = false ∧
      (!vOpts.AllowNonCanonicalAR &&
        !(C.IsCanonical publicKey && C.IsCanonical (sig.take 32))) = false := by
  have hdrop : (sig.drop 32).length = 32 := by simp [hsig]
  have htake : (sig.take 32).length = 32 := by simp [hsig]
  by_cases hpk : publicKey.length = 32
  swap
  · left
    unfold verifyChecked CompressedEdwardsY.FromBytes
    simp only [hpk, if_false]
  cases hA : C.decompress publicKey with
  | none =>
    left
    unfold verifyChecked CompressedEdwardsY.FromBytes
    simp only [hpk, hA, if_true]
  | some A =>
  cases hga : (!vOpts.AllowSmallOrderA && EdwardsPoint.IsSmallOrder A) with
  | true =>
    left
    unfold verifyChecked CompressedEdwardsY.FromBytes
    simp only [hpk, hA, hga, if_true]
  | false =>
  cases hb : decide (leValue (sig.drop 32) < 2 ^ 252) with
  | false =>
    left
    unfold verifyChecked CompressedEdwardsY.FromBytes
    simp only [hpk, hA, hga, hdom, wide_sum, scMinimal_eq _ hdrop, hb, if_true,
      Bool.false_eq_true, if_false]
  | true =>
  have hS : scMinimal (sig.drop 32) = some true := by rw [scMinimal_eq _ hdrop, hb]
  cases hR : C.decompress (sig.take 32) with
  | none =>
    left
    unfold verifyChecked CompressedEdwardsY.FromBytes
    simp only [hpk, hA, hga, hdom, wide_sum, hS, htake, hR, if_true, Option.getD_some,
      Bool.false_eq_true, if_false]
  | some R =>
  cases hgr : (!vOpts.AllowSmallOrderR && EdwardsPoint.IsSmallOrder R) with
  | true =>
    left
    unfold verifyChecked CompressedEdwardsY.FromBytes
    simp only [hpk, hA, hga, hdom, wide_sum, hS, htake, hR, hgr, if_true, Option.getD_some,
      Bool.false_eq_true, if_false]
  | false =>
  cases hgc : (!vOpts.AllowNonCanonicalAR &&
      !(C.IsCanonical publicKey && C.IsCanonical (sig.take 32))) with
  | true =>
    left
    unfold verifyChecked CompressedEdwardsY.FromBytes
    simp only [hpk, hA, hga, hdom, wide_sum, hS, htake, hR, hgr, hgc, if_true,
      Option.getD_some, Bool.false_eq_true, if_false]
  | false =>
    right
    refine ⟨A, R, hpk, ?_, ?_, hS, ?_, ?_, ?_⟩ <;> first | rfl | assumption

/-- With valid options, a 64-byte signature whose top three bits are clear is
handed to `verifyChecked`. -/
theorem verifyNoPanic_checked (C : Curve G) (H : Sha512) (publicKey message sig : List Byte)
    (opts : Options) (f0 f : dom2Flag) (context : List Byte)
    (hv : opts.verify = .ok (f0, context))
    (hh : checkHash f0 message opts.HashFunc = .ok f)
    (hsig : sig.length = 64) (htop : ∀ top, sig[63]? = some top → top &&& 224 = 0) :
    verifyWithOptionsNoPanic C H publicKey message sig opts =
      verifyChecked C H f context opts.vOpts publicKey message sig := by
  have hget : sig[63]? = some sig[63] := List.getElem?_eq_getElem (by omega)
  unfold verifyWithOptionsNoPanic
  simp only [hv, hh, hsig, SignatureSize, ne_eq, not_true_eq_false, if_false, hget,
    htop _ hget]

/-- With valid options, a signature of the wrong length or with one of the top
three bits of its last byte set is rejected with `(false, nil)`. -/
theorem verifyNoPanic_malformed (C : Curve G) (H : Sha512) (publicKey message sig : List Byte)
    (opts : Options) (f0 f : dom2Flag) (context : List Byte)
    (hv : opts.verify = .ok (f0, context))
    (hh : checkHash f0 message opts.HashFunc = .ok f)
    (hbad : sig.length ≠ 64 ∨ ∃ top, sig[63]? = some top ∧ top &&& 224 ≠ 0) :
    verifyWithOptionsNoPanic C H publicKey message sig opts = some (false, none) := by
  unfold verifyWithOptionsNoPanic
  by_cases hsig : sig.length = 64
  · rcases hbad with hbad | ⟨top, hget, htop⟩
    · exact absurd hsig hbad
    · simp only [hv, hh, hsig, SignatureSize, ne_eq, not_true_eq_false, if_false, hget, htop,
        not_false_eq_true, if_true]
  · simp only [hv, hh, hsig, SignatureSize, ne_eq, not_false_eq_true, if_true]

theorem VerifyWithOptions_of_noPanic (C : Curve G) (H : Sha512)
    (publicKey message sig : List Byte) (opts : Options) (b : Bool)
    (h : verifyWithOptionsNoPanic C H publicKey message sig opts = some (b, none)) :
    VerifyWithOptions C H publicKey message sig opts = some b := by
  unfold VerifyWithOptions
  rw [h]

/-- With valid options the result is `(false, nil)` unless the signature has 64
bytes with the top three bits clear and every check of `verifyChecked` passes. -/
theorem verifyNoPanic_cases (C : Curve G) (H : Sha512) (publicKey message sig : List Byte)
    (opts : Options) (f0 f : dom2Flag) (context : List Byte)
    (hv : opts.verify = .ok (f0, context))
    (hh : checkHash f0 message opts.HashFunc = .ok f) :
    verifyWithOptionsNoPanic C H publicKey message sig opts = some (false, none) ∨
    ∃ A R, sig.length = 64 ∧ publicKey.length = 32 ∧ C.decompress publicKey = some A ∧
      (!opts.vOpts.AllowSmallOrderA && EdwardsPoint.IsSmallOrder A) = false ∧
      scMinimal (sig.drop 32) = some true ∧
      C.decompress (sig.take 32) = some R ∧
      (!opts.vOpts.AllowSmallOrderR && EdwardsPoint.IsSmallOrder R) = false ∧
      (!opts.vOpts.AllowNonCanonicalAR &&
        !(C.IsCanonical publicKey && C.IsCanonical (sig.take 32))) = false := by
  by_cases hsig : sig.length = 64
  swap
  · exact Or.inl (verifyNoPanic_malformed C H publicKey message sig opts f0 f context hv hh
      (Or.inl hsig))
  have hget : sig[63]? = some sig[63] := List.getElem?_eq_getElem (by omega)
  by_cases htop : sig[63] &&& 224 = 0
  swap
  · exact Or.inl (verifyNoPanic_malformed C H publicKey message sig opts f0 f context hv hh
      (Or.inr ⟨_, hget, htop⟩))
  have htop2 : ∀ top, sig[63]? = some top → top &&& 224 = 0 := by
    intro top h
    rw [hget] at h
    cases h
    exact htop
  obtain ⟨dom, hdom⟩ := writeDom2_isSome f context (Options.verify_ok hv)
  rw [verifyNoPanic_checked C H publicKey message sig opts f0 f context hv hh hsig htop2]
  rcases verifyChecked_cases C H f context dom opts.vOpts publicKey message sig hsig hdom with
    h | ⟨A, R, h⟩
  · exact Or.inl h
  · exact Or.inr ⟨A, R, hsig, h⟩

end VerifyLemmas

/-! ## Signing followed by verification -/

section RoundTrip

variable {G : Type} [AddCommGroup G]

theorem length_clamped (d : List Byte) : (clamped d).length = d.length := by
  simp [clamped]

theorem NewKeyFromSeed_ok (C : Curve G) (H : Sha512) (seed sk : List Byte)
    (hsk : NewKeyFromSeed C H seed = some sk) :
    seed.length = 32 ∧
    sk = seed ++ C.compress (leValue ((clamped (H.sum seed)).take 32) • C.B) := by
  unfold NewKeyFromSeed at hsk
  by_cases hlen : seed.length = 32
  · have h32 : ((clamped (H.sum seed)).take 32).length = 32 := by
      simp [length_clamped, H.size]
    have hbits : Scalar.FromBits ((clamped (H.sum seed)).take 32) =
        some (leValue ((clamped (H.sum seed)).take 32)) := by
      simp [Scalar.FromBits, h32]
    simp only [SeedSize, hlen, ne_eq, not_true_eq_false, if_false] at hsk
    change (match Scalar.FromBits ((clamped (H.sum seed)).take 32) with
      | none => none
      | some a => some (seed ++ C.compress (C.BasepointMul a))) = some sk at hsk
    rw [hbits] at hsk
    exact ⟨hlen, (Option.some.inj hsk).symm⟩
  · simp [SeedSize, hlen] at hsk

/-- What `PrivateKey.Sign` returns for a 64-byte key and valid options. -/
theorem Sign_ok {ρ : Type} (C : Curve G) (H : Sha512) (rand : ρ) (priv message : List Byte)
    (opts : Options) (f0 f : dom2Flag) (context dom : List Byte)
    (hpriv : priv.length = 64)
    (hv : opts.verify = .ok (f0, context))
    (hh : checkHash f0 message opts.HashFunc = .ok f)
    (hdom : writeDom2 f context = some dom) :
    PrivateKey.Sign C H priv rand message (.options opts) =
      some (.ok (C.compress
          ((leValue (H.sum (dom ++ (clamped (H.sum (priv.take 32))).drop 32 ++ message)) % L) •
            C.B) ++
        leBytes 32
          ((leValue (H.sum (dom ++ C.compress
              ((leValue (H.sum (dom ++ (clamped (H.sum (priv.take 32))).drop 32 ++ message))
                % L) • C.B) ++ priv.drop 32 ++ message)) % L *
            (leValue ((clamped (H.sum (priv.take 32))).take 32) % L) % L +
            leValue (H.sum (dom ++ (clamped (H.sum (priv.take 32))).drop 32 ++ message)) % L)
            % L))) := by
  have h32 : ((clamped (H.sum (priv.take 32))).take 32).length = 32 := by
    simp [length_clamped, H.size]
  have hbits : Scalar.FromBytesModOrder ((clamped (H.sum (priv.take 32))).take 32) =
      some (leValue ((clamped (H.sum (priv.take 32))).take 32) % L) := by
    simp [Scalar.FromBytesModOrder, h32]
  unfold PrivateKey.Sign
  simp only [clamped] at hbits ⊢
  simp only [hv, SignerOpts.HashFunc, hh, hpriv, PrivateKeySize, ne_eq, not_true_eq_false,
    if_false, hdom, wide_sum, hbits, Curve.BasepointMul, Scalar.ToBytes, Scalar.Add, Scalar.Mul,
    SignatureSize, Nat.reduceSub, if_true]
  rw [List.take_of_length_le (by rw [C.compress_length])]

theorem mod_order_smul (C : Curve G) (hlaw : C.Lawful) (n : Nat) : (n % L) • C.B = n • C.B := by
  conv_rhs => rw [← Nat.div_add_mod n L, Nat.mul_comm]
  rw [add_smul, mul_smul, hlaw.order_B, smul_zero, zero_add]

end RoundTrip

theorem modelDecompress_of_lt (c : List Byte) (hlen : c.length = 32)
    (h : leValue c < modelOrder) : modelDecompress c = some ⟨leValue c, h⟩ := by
  unfold modelDecompress
  rw [if_neg (by rw [hlen]; exact fun h => h rfl), dif_pos h]

theorem modelDecompress_leBytes (P : ModelPoint) :
    modelDecompress (leBytes 32 P.val) = some P := by
  have hP : P.val < modelOrder := P.isLt
  have hbound : modelOrder < 256 ^ 32 := by decide
  have hval : leValue (leBytes 32 P.val) = P.val := by
    rw [leValue_leBytes]
    exact Nat.mod_eq_of_lt (Nat.lt_trans hP hbound)
  have hlt : leValue (leBytes 32 P.val) < modelOrder := by rw [hval]; exact hP
  rw [modelDecompress_of_lt _ (length_leBytes 32 P.val) hlt]
  exact congrArg some (Fin.ext hval)

theorem modelCurve_lawful : modelCurve.Lawful := by
  constructor
  · decide
  · intro P
    have h1 : modelCurve.decompress = modelDecompress := rfl
    have h2 : modelCurve.compress P = leBytes 32 P.val := rfl
    rw [h1, h2]
    exact modelDecompress_leBytes P

/-! ## Clamping -/


theorem clamp_bytes : ∀ b : Byte,
    clearBit (clearBit (clearBit b 0) 1) 2 = b &&& 248 ∧
    setBit (clearBit b 7) 6 = (b &&& 127) ||| 64 ∧
    (b &&& 248).val % 8 = 0 ∧ 64 ≤ ((b &&& 127) ||| 64).val ∧ ((b &&& 127) ||| 64).val < 128 ∧
    (b.val < 32 → b &&& 224 = 0) := by
  decide!

theorem clamp_bits : ∀ (b : Byte) (j : Fin 8),
    (b &&& 248).val.testBit j = (decide (3 ≤ j.val) && b.val.testBit j) ∧
    ((b &&& 127) ||| 64).val.testBit j =
      (if j.val = 6 then true else if j.val = 7 then false else b.val.testBit j) := by
  decide!

theorem take_clamped (d : List Byte) (hd : 32 ≤ d.length) :
    (clamped d).take 32 = clampSpec (d.take 32) := by
  have h31 : 31 < d.length := by omega
  have h0 : 0 < d.length := by omega
  apply List.ext_getElem?
  intro i
  simp only [clamped, clampSpec, (clamp_bytes _).1]
  simp only [List.getElem?_take, List.getElem?_set, List.getD_eq_getElem?_getD, List.length_set,
    List.length_take, h31, h0, if_true, Option.getD_some, (clamp_bytes _).2.1,
    Nat.min_eq_left hd, Nat.lt_irrefl, if_false, show (0 : ℕ) < 32 from by norm_num,
    show (31 : ℕ) < 32 from by norm_num, show ¬ (0 : ℕ) = 31 from by norm_num,
    show ¬ (31 : ℕ) = 0 from by norm_num]
  by_cases hi31 : 31 = i
  · subst hi31; simp
  · by_cases hi0 : 0 = i
    · subst hi0; simp
    · simp only [hi31, hi0, if_false]

theorem drop_clamped (d : List Byte) : (clamped d).drop 32 = d.drop 32 := by
  simp [clamped, List.drop_set]


theorem getD_clamped (d : List Byte) (hd : 32 ≤ d.length) (i : Nat) :
    (clamped d).getD i 0 =
      if i = 0 then d.getD 0 0 &&& 248
      else if i = 31 then (d.getD 31 0 &&& 127) ||| 64
      else d.getD i 0 := by
  have h31 : 31 < d.length := by omega
  have h0 : 0 < d.length := by omega
  simp only [clamped, List.getD_eq_getElem?_getD, List.getElem?_set, List.length_set, h31, h0,
    if_true, Option.getD_some, show ¬ (0 : ℕ) = 31 from by norm_num,
    show ¬ (31 : ℕ) = 0 from by norm_num, if_false]
  by_cases hi0 : i = 0
  · subst hi0; simp
  · by_cases hi31 : i = 31
    · subst hi31; simp
    · have h1 : ¬ 31 = i := fun h => hi31 h.symm
      have h2 : ¬ 0 = i := fun h => hi0 h.symm
      simp only [hi0, hi31, h1, h2, if_false]

theorem leValue_split32 (l : List Byte) (hl : l.length = 32) :
    leValue l = (l.getD 0 0).val + 256 * leValue ((l.drop 1).take 30) +
      256 ^ 31 * (l.getD 31 0).val := by
  have h31 : 31 < l.length := by omega
  have h0 : 0 < l.length := by omega
  have h3 : (l.drop 1).drop 30 = [l[31]] := by
    rw [List.drop_drop]
    show List.drop 31 l = [l[31]]
    rw [List.drop_eq_getElem_cons h31, List.drop_eq_nil_of_le (by omega)]
  have h4 : l.take 1 = [l[0]] := by
    cases l with
    | nil => simp at hl
    | cons x xs => simp
  have hsplit : l = [l[0]] ++ ((l.drop 1).take 30 ++ [l[31]]) :=
    calc l = l.take 1 ++ l.drop 1 := (List.take_append_drop 1 l).symm
      _ = l.take 1 ++ ((l.drop 1).take 30 ++ (l.drop 1).drop 30) := by
          rw [List.take_append_drop 30 (l.drop 1)]
      _ = [l[0]] ++ ((l.drop 1).take 30 ++ [l[31]]) := by rw [h3, h4]
  have hg0 : l.getD 0 0 = l[0] := by simp [List.getD_eq_getElem?_getD, h0]
  have hg31 : l.getD 31 0 = l[31] := by simp [List.getD_eq_getElem?_getD, h31]
  rw [hg0, hg31]
  conv_lhs => rw [hsplit]
  rw [leValue_append, leValue_append]
  simp only [leValue, List.length_singleton, List.length_take, List.length_drop, hl]
  norm_num
  ring


theorem getD_take_of_lt (l : List Byte) (n i : Nat) (h : i < n) :
    (l.take n).getD i 0 = l.getD i 0 := by
  simp [List.getD_eq_getElem?_getD, List.getElem?_take, h]

/-- The scalar read from a clamped digest is a multiple of 8 in `[2^254, 2^255)`. -/
theorem clamped_scalar (d : List Byte) (hd : 32 ≤ d.length) :
    leValue ((clamped d).take 32) % 8 = 0 ∧ 2 ^ 254 ≤ leValue ((clamped d).take 32) ∧
    leValue ((clamped d).take 32) < 2 ^ 255 := by
  have hlen : ((clamped d).take 32).length = 32 := by
    simp [clamped, hd]
  have hmid := leValue_lt ((((clamped d).take 32).drop 1).take 30)
  have hmidlen : ((((clamped d).take 32).drop 1).take 30).length = 30 := by
    simp [clamped]; omega
  rw [hmidlen] at hmid
  have hb0 : ((clamped d).take 32).getD 0 0 = d.getD 0 0 &&& 248 := by
    rw [getD_take_of_lt _ _ _ (by norm_num), getD_clamped d hd 0, if_pos rfl]
  have hb31 : ((clamped d).take 32).getD 31 0 = (d.getD 31 0 &&& 127) ||| 64 := by
    rw [getD_take_of_lt _ _ _ (by norm_num), getD_clamped d hd 31, if_neg (by norm_num),
      if_pos rfl]
  obtain ⟨_, _, h8, _, _, _⟩ := clamp_bytes (d.getD 0 0)
  obtain ⟨_, _, _, hlo, hhi, _⟩ := clamp_bytes (d.getD 31 0)
  rw [leValue_split32 _ hlen, hb0, hb31]
  generalize leValue ((((clamped d).take 32).drop 1).take 30) = mid at hmid
  have hx0 : (d.getD 0 0 &&& 248).val < 256 := (d.getD 0 0 &&& 248).isLt
  generalize (d.getD 0 0 &&& 248).val = x0 at h8 hx0
  generalize ((d.getD 31 0 &&& 127) ||| 64).val = x31 at hlo hhi
  norm_num at hmid ⊢
  omega

/-! ## Option validation -/

/-- When `Options.verify` and `checkHash` accept, and what they return. -/
theorem options_accepted (opts : Options) (message : List Byte)
    (hctx : opts.Context.length ≤ 255)
    (hhash : opts.Hash = 0 ∨ (opts.Hash = cryptoSHA512 ∧ message.length = 64)) :
    opts.verify = .ok (if opts.Context.length > 0 then fCtx else fPure, opts.Context) ∧
    checkHash (if opts.Context.length > 0 then fCtx else fPure) message opts.HashFunc =
      .ok (if opts.Hash = cryptoSHA512 then fPh
        else if opts.Context.length > 0 then fCtx else fPure) := by
  constructor
  · unfold Options.verify
    by_cases h0 : opts.Context.length > 0
    · simp [h0, ContextMaxSize, Nat.not_lt.mpr hctx]
    · have : opts.Context = [] := List.length_eq_zero.mp (by omega)
      simp [this]
  · unfold checkHash Options.HashFunc
    rcases hhash with h | ⟨h, hm⟩
    · simp [h, cryptoSHA512]
    · simp [h, hm]

/-- When `Options.verify` or `checkHash` refuses. -/
theorem options_refused (opts : Options) (message : List Byte)
    (hbad : opts.Context.length > 255 ∨ (opts.Hash = cryptoSHA512 ∧ message.length ≠ 64) ∨
      (opts.Hash ≠ 0 ∧ opts.Hash ≠ cryptoSHA512)) :
    (∃ e, opts.verify = .error e) ∨
    (∃ f0 context e, opts.verify = .ok (f0, context) ∧
      checkHash f0 message opts.HashFunc = .error e) := by
  by_cases hctx : opts.Context.length > 255
  · left
    refine ⟨.badContextLength opts.Context.length, ?_⟩
    unfold Options.verify
    have h0 : opts.Context.length > 0 := by omega
    simp [h0, ContextMaxSize, hctx]
  · right
    have hctx' : opts.Context.length ≤ 255 := by omega
    have hv : opts.verify =
        .ok (if opts.Context.length > 0 then fCtx else fPure, opts.Context) := by
      unfold Options.verify
      by_cases h0 : opts.Context.length > 0
      · simp [h0, ContextMaxSize, Nat.not_lt.mpr hctx']
      · have : opts.Context = [] := List.length_eq_zero.mp (by omega)
        simp [this]
    rcases hbad with h | ⟨h, hm⟩ | ⟨h0, h7⟩
    · exact absurd h hctx
    · exact ⟨_, _, .badMessageHashLength message.length, hv, by
        simp [checkHash, Options.HashFunc, h, hm]⟩
    · exact ⟨_, _, .badHashFunc, hv, by simp [checkHash, Options.HashFunc, h0, h7]⟩

/-- Two option values that differ only in `CofactorlessVerify`: acceptance by
the cofactorless one implies acceptance by the cofactored one. -/
theorem cofactorless_imp_cofactored {G : Type} [AddCommGroup G] [DecidableEq G]
    (C : Curve G) (H : Sha512) (publicKey message sig : List Byte) (optsT optsF : Options)
    (hverify : optsF.verify = optsT.verify) (hhash : optsF.HashFunc = optsT.HashFunc)
    (hA : optsF.vOpts.AllowSmallOrderA = optsT.vOpts.AllowSmallOrderA)
    (hR : optsF.vOpts.AllowSmallOrderR = optsT.vOpts.AllowSmallOrderR)
    (hN : optsF.vOpts.AllowNonCanonicalAR = optsT.vOpts.AllowNonCanonicalAR)
    (hcT : optsT.vOpts.CofactorlessVerify = true)
    (hcF : optsF.vOpts.CofactorlessVerify = false)
    (h : VerifyWithOptions C H publicKey message sig optsT = some true) :
    VerifyWithOptions C H publicKey message sig optsF = some true := by
  -- the options are valid, or the cofactorless call would have panicked
  cases hv : optsT.verify with
  | error e =>
    simp [VerifyWithOptions, verifyWithOptionsNoPanic, hv] at h
  | ok p =>
  obtain ⟨f0, ctx⟩ := p
  cases hh : checkHash f0 message optsT.HashFunc with
  | error e =>
    simp [VerifyWithOptions, verifyWithOptionsNoPanic, hv, hh] at h
  | ok f =>
  obtain ⟨dom, hdom⟩ := writeDom2_isSome f ctx (Options.verify_ok hv)
  rcases verifyNoPanic_cases C H publicKey message sig optsT f0 f ctx hv hh with
    hrej | ⟨A, R, hsig, hpk, hdA, hga, hS, hdR, hgr, hgc⟩
  · rw [VerifyWithOptions_of_noPanic C H publicKey message sig optsT false hrej] at h
    cases h
  have htop : ∀ top, sig[63]? = some top → top &&& 224 = 0 := by
    intro top hget
    by_contra hne
    have h31 : (sig.drop 32)[31]? = some top := by
      rw [List.getElem?_drop]; exact hget
    rw [scMinimal_top_bits _ top h31 hne] at hS
    cases hS
  -- the cofactorless equation holds
  have hEq : R = C.DoubleScalarMulBasepointVartime
      (leValue (H.sum (dom ++ sig.take 32 ++ publicKey ++ message)) % L) (EdwardsPoint.Neg A)
      (leValue (sig.drop 32) % L) := by
    by_contra hne
    have hTrue := h
    unfold VerifyWithOptions at hTrue
    rw [verifyNoPanic_checked C H publicKey message sig optsT f0 f ctx hv hh hsig htop,
      verifyChecked_pass C H f ctx dom optsT.vOpts publicKey message sig A R hsig hdom hpk hdA
        hga hS hdR hgr hgc, hcT] at hTrue
    simp only [if_true, EdwardsPoint.Equal, if_neg hne] at hTrue
    simp at hTrue
  -- so the difference is the identity
  apply VerifyWithOptions_of_noPanic
  rw [verifyNoPanic_checked C H publicKey message sig optsF f0 f ctx (hverify.trans hv)
      (by rw [hhash]; exact hh) hsig htop,
    verifyChecked_pass C H f ctx dom optsF.vOpts publicKey message sig A R hsig hdom hpk hdA
      (by rw [hA]; exact hga) hS hdR (by rw [hR]; exact hgr) (by rw [hN]; exact hgc), hcF,
    ← hEq]
  simp [EdwardsPoint.IsSmallOrder, EdwardsPoint.Sub]

/-! ## The bytes of a scalar -/

theorem getElem?_leBytes (len n i : Nat) (h : i < len) :
    (leBytes len n)[i]? = some (Fin.ofNat (n / 256 ^ i % 256)) := by
  induction len generalizing n i with
  | zero => omega
  | succ k ih =>
    cases i with
    | zero => simp [leBytes]
    | succ j =>
      simp only [leBytes, List.getElem?_cons_succ]
      rw [ih (n / 256) j (by omega), Nat.div_div_eq_div_mul, pow_succ, Nat.mul_comm]

/-- The last byte of the 32-byte encoding of a scalar below `ℓ` has its top
three bits clear. -/
theorem top_bits_of_lt_order (S : Nat) (hS : S < L) (top : Byte)
    (h : (leBytes 32 S)[31]? = some top) : top &&& 224 = 0 := by
  rw [getElem?_leBytes 32 S 31 (by norm_num)] at h
  have htop : top = Fin.ofNat (S / 256 ^ 31 % 256) := (Option.some.inj h).symm
  have hlt : S / 256 ^ 31 < 32 := by
    apply Nat.div_lt_of_lt_mul
    unfold L at hS
    norm_num at hS ⊢
    omega
  have hval : top.val < 32 := by
    rw [htop]
    simp only [Fin.ofNat, Fin.val_mk]
    omega
  exact (clamp_bytes top).2.2.2.2.2 hval

theorem scalar_muladd (k a r : Nat) : (k * (a % L) % L + r) % L = (r + k * a) % L := by
  rw [Nat.add_comm r, Nat.add_mod (k * a), Nat.mul_mod k a, Nat.add_mod (k * (a % L) % L),
    Nat.mod_mod, Nat.mul_mod k (a % L), Nat.mod_mod]

/-- Bit by bit, what the three clamping statements do to a digest. -/
theorem testBit_clamped (d : List Byte) (hd : 32 ≤ d.length) (i j : Nat) (hj : j < 8) :
    ((clamped d).getD i 0).val.testBit j =
      if i = 0 ∧ j < 3 then false
      else if i = 31 ∧ j = 7 then false
      else if i = 31 ∧ j = 6 then true
      else (d.getD i 0).val.testBit j := by
  rw [getD_clamped d hd i]
  by_cases hi0 : i = 0
  · subst hi0
    rw [if_pos rfl, (clamp_bits (d.getD 0 0) ⟨j, hj⟩).1]
    by_cases h3 : j < 3
    · have : ¬ 3 ≤ j := by omega
      simp [h3, this]
    · have : 3 ≤ j := by omega
      simp [h3, this]
  · by_cases hi31 : i = 31
    · subst hi31
      rw [if_neg hi0, if_pos rfl, (clamp_bits (d.getD 31 0) ⟨j, hj⟩).2]
      by_cases h6 : j = 6
      · simp [h6]
      · by_cases h7 : j = 7
        · simp [h7]
        · simp [h6, h7]
    · simp [hi0, hi31]

/-! ## The outcomes of signing -/

section SignLemmas

variable {G : Type} [AddCommGroup G]

/-- Invalid options make `PrivateKey.Sign` return an error, whatever the key. -/
theorem Sign_refused {ρ : Type} (C : Curve G) (H : Sha512) (rand : ρ) (priv message : List Byte)
    (opts : Options)
    (hbad : opts.Context.length > 255 ∨ (opts.Hash = cryptoSHA512 ∧ message.length ≠ 64) ∨
      (opts.Hash ≠ 0 ∧ opts.Hash ≠ cryptoSHA512)) :
    ∃ e, PrivateKey.Sign C H priv rand message (.options opts) = some (.error e) := by
  rcases options_refused opts message hbad with ⟨e, hv⟩ | ⟨f0, context, e, hv, hh⟩
  · refine ⟨e, ?_⟩
    unfold PrivateKey.Sign
    simp only [hv]
  · refine ⟨e, ?_⟩
    unfold PrivateKey.Sign
    simp only [hv, SignerOpts.HashFunc, hh]

/-- With valid options, a key that is not 64 bytes long is an error. -/
theorem Sign_bad_key {ρ : Type} (C : Curve G) (H : Sha512) (rand : ρ) (priv message : List Byte)
    (opts : Options) (f0 f : dom2Flag) (context : List Byte)
    (hv : opts.verify = .ok (f0, context))
    (hh : checkHash f0 message opts.HashFunc = .ok f) (hpriv : priv.length ≠ 64) :
    PrivateKey.Sign C H priv rand message (.options opts) =
      some (.error (.badPrivateKeyLength priv.length)) := by
  unfold PrivateKey.Sign
  simp only [hv, SignerOpts.HashFunc, hh, PrivateKeySize, ne_eq, hpriv, not_false_eq_true,
    if_true]

/-- With valid options and a 64-byte key, signing returns 64 bytes. -/
theorem Sign_total {ρ : Type} (C : Curve G) (H : Sha512) (rand : ρ) (priv message : List Byte)
    (opts : Options) (hctx : opts.Context.length ≤ 255)
    (hhash : opts.Hash = 0 ∨ (opts.Hash = cryptoSHA512 ∧ message.length = 64))
    (hpriv : priv.length = 64) :
    ∃ sig, PrivateKey.Sign C H priv rand message (.options opts) = some (.ok sig) ∧
      sig.length = 64 := by
  obtain ⟨hv, hh⟩ := options_accepted opts message hctx hhash
  obtain ⟨dom, hdom⟩ := writeDom2_isSome _ opts.Context
    (show opts.Context.length ≤ ContextMaxSize from hctx)
  refine ⟨_, Sign_ok C H rand priv message opts _ _ _ dom hpriv hv hh hdom, ?_⟩
  rw [List.length_append, C.compress_length, length_leBytes]

end SignLemmas

/-! ## The outcomes of verification -/

section VerifyOutcomes

variable {G : Type} [AddCommGroup G] [DecidableEq G]

/-- With valid options the result is a boolean and a nil error, whatever the
public key and the signature. -/
theorem verifyNoPanic_total (C : Curve G) (H : Sha512) (publicKey message sig : List Byte)
    (opts : Options) (f0 f : dom2Flag) (context : List Byte)
    (hv : opts.verify = .ok (f0, context))
    (hh : checkHash f0 message opts.HashFunc = .ok f) :
    ∃ b, verifyWithOptionsNoPanic C H publicKey message sig opts = some (b, none) := by
  obtain ⟨dom, hdom⟩ := writeDom2_isSome f context (Options.verify_ok hv)
  rcases verifyNoPanic_cases C H publicKey message sig opts f0 f context hv hh with
    hrej | ⟨A, R, hsig, hpk, hdA, hga, hS, hdR, hgr, hgc⟩
  · exact ⟨false, hrej⟩
  have htop : ∀ top, sig[63]? = some top → top &&& 224 = 0 := by
    intro top hget
    by_contra hne
    have h31 : (sig.drop 32)[31]? = some top := by
      rw [List.getElem?_drop]; exact hget
    rw [scMinimal_top_bits _ top h31 hne] at hS
    cases hS
  exact ⟨_, by
    rw [verifyNoPanic_checked C H publicKey message sig opts f0 f context hv hh hsig htop,
      verifyChecked_pass C H f context dom opts.vOpts publicKey message sig A R hsig hdom hpk
        hdA hga hS hdR hgr hgc]⟩

/-- Invalid options make `verifyWithOptionsNoPanic` return an error. -/
theorem verifyNoPanic_refused (C : Curve G) (H : Sha512) (publicKey message sig : List Byte)
    (opts : Options)
    (hbad : opts.Context.length > 255 ∨ (opts.Hash = cryptoSHA512 ∧ message.length ≠ 64) ∨
      (opts.Hash ≠ 0 ∧ opts.Hash ≠ cryptoSHA512)) :
    ∃ e, verifyWithOptionsNoPanic C H publicKey message sig opts = some (false, some e) := by
  rcases options_refused opts message hbad with ⟨e, hv⟩ | ⟨f0, context, e, hv, hh⟩
  · refine ⟨e, ?_⟩
    unfold verifyWithOptionsNoPanic
    simp only [hv]
  · refine ⟨e, ?_⟩
    unfold verifyWithOptionsNoPanic
    simp only [hv, hh]

/-- With valid options, a public key that is not 32 bytes long gives
`(false, nil)`. -/
theorem verifyNoPanic_bad_key (C : Curve G) (H : Sha512) (publicKey message sig : List Byte)
    (opts : Options) (f0 f : dom2Flag) (context : List Byte)
    (hv : opts.verify = .ok (f0, context))
    (hh : checkHash f0 message opts.HashFunc = .ok f) (hpk : publicKey.length ≠ 32) :
    verifyWithOptionsNoPanic C H publicKey message sig opts = some (false, none) := by
  rcases verifyNoPanic_cases C H publicKey message sig opts f0 f context hv hh with
    hrej | ⟨A, R, _, hpk32, _⟩
  · exact hrej
  · exact absurd hpk32 hpk

end VerifyOutcomes

/-! ## Key derivation always succeeds on 32 bytes -/

theorem NewKeyFromSeed_some {G : Type} [AddCommGroup G] (C : Curve G) (H : Sha512)
    (seed : List Byte) (hlen : seed.length = 32) :
    NewKeyFromSeed C H seed =
      some (seed ++ C.compress (leValue ((clamped (H.sum seed)).take 32) • C.B)) := by
  have h32 : ((clamped (H.sum seed)).take 32).length = 32 := by
    simp [length_clamped, H.size]
  have hbits : Scalar.FromBits ((clamped (H.sum seed)).take 32) =
      some (leValue ((clamped (H.sum seed)).take 32)) := by
    simp [Scalar.FromBits, h32]
  unfold NewKeyFromSeed
  simp only [clamped] at hbits ⊢
  simp only [SeedSize, hlen, ne_eq, not_true_eq_false, if_false, hbits, Curve.BasepointMul]

/-! ## The steps of verification -/

section StepLemmas

variable {G : Type} [AddCommGroup G] [DecidableEq G]

/-- The instrumented function returns what `verifyChecked` returns, and its list
of steps is a non-empty initial part of the order of the source text. -/
theorem verifyCheckedSteps_spec (C : Curve G) (H : Sha512) (f : dom2Flag)
    (context : List Byte) (vOpts : VerifyOptions) (publicKey message sig : List Byte) :
    (verifyCheckedSteps C H f context vOpts publicKey message sig).2 =
      verifyChecked C H f context vOpts publicKey message sig ∧
    ∃ n, 1 ≤ n ∧ n ≤ 9 ∧
      (verifyCheckedSteps C H f context vOpts publicKey message sig).1 = verifyOrder.take n := by
  cases hpk : CompressedEdwardsY.FromBytes publicKey with
  | none =>
    refine ⟨?_, 1, by decide, by decide, ?_⟩
    · unfold verifyCheckedSteps verifyChecked
      simp only [hpk]
    · unfold verifyCheckedSteps
      simp only [hpk]
      rfl
  | some aCompressed =>
  cases hA : C.decompress aCompressed with
  | none =>
    refine ⟨?_, 1, by decide, by decide, ?_⟩
    · unfold verifyCheckedSteps verifyChecked
      simp only [hpk, hA]
    · unfold verifyCheckedSteps
      simp only [hpk, hA]
      rfl
  | some A =>
  cases hga : (!vOpts.AllowSmallOrderA && EdwardsPoint.IsSmallOrder A) with
  | true =>
    refine ⟨?_, 2, by decide, by decide, ?_⟩
    · unfold verifyCheckedSteps verifyChecked
      simp only [hpk, hA, hga, if_true]
    · unfold verifyCheckedSteps
      simp only [hpk, hA, hga, if_true]
      rfl
  | false =>
  cases hdom : writeDom2 f context with
  | none =>
    refine ⟨?_, 3, by decide, by decide, ?_⟩
    · unfold verifyCheckedSteps verifyChecked
      simp only [hpk, hA, hga, hdom, Bool.false_eq_true, if_false]
    · unfold verifyCheckedSteps
      simp only [hpk, hA, hga, hdom, Bool.false_eq_true, if_false]
      rfl
  | some dom =>
  cases hS : scMinimal (sig.drop 32) with
  | none =>
    refine ⟨?_, 4, by decide, by decide, ?_⟩
    · unfold verifyCheckedSteps verifyChecked
      simp only [hpk, hA, hga, hdom, wide_sum, hS, Bool.false_eq_true, if_false]
    · unfold verifyCheckedSteps
      simp only [hpk, hA, hga, hdom, wide_sum, hS, Bool.false_eq_true, if_false]
      rfl
  | some okS =>
  cases okS with
  | false =>
    refine ⟨?_, 4, by decide, by decide, ?_⟩
    · unfold verifyCheckedSteps verifyChecked
      simp only [hpk, hA, hga, hdom, wide_sum, hS, Bool.false_eq_true, if_false]
    · unfold verifyCheckedSteps
      simp only [hpk, hA, hga, hdom, wide_sum, hS, Bool.false_eq_true, if_false]
      rfl
  | true =>
  cases hR : C.decompress
      ((CompressedEdwardsY.FromBytes (sig.take 32)).getD (List.replicate 32 0)) with
  | none =>
    refine ⟨?_, 5, by decide, by decide, ?_⟩
    · unfold verifyCheckedSteps verifyChecked
      simp only [hpk, hA, hga, hdom, wide_sum, hS, hR, Bool.false_eq_true, if_false]
    · unfold verifyCheckedSteps
      simp only [hpk, hA, hga, hdom, wide_sum, hS, hR, Bool.false_eq_true, if_false]
      rfl
  | some checkR =>
  cases hgr : (!vOpts.AllowSmallOrderR && EdwardsPoint.IsSmallOrder checkR) with
  | true =>
    refine ⟨?_, 6, by decide, by decide, ?_⟩
    · unfold verifyCheckedSteps verifyChecked
      simp only [hpk, hA, hga, hdom, wide_sum, hS, hR, hgr, Bool.false_eq_true, if_false, if_true]
    · unfold verifyCheckedSteps
      simp only [hpk, hA, hga, hdom, wide_sum, hS, hR, hgr, Bool.false_eq_true, if_false, if_true]
      rfl
  | false =>
  cases hgc : (!vOpts.AllowNonCanonicalAR && !(C.IsCanonical aCompressed &&
      C.IsCanonical ((CompressedEdwardsY.FromBytes (sig.take 32)).getD
        (List.replicate 32 0)))) with
  | true =>
    refine ⟨?_, 7, by decide, by decide, ?_⟩
    · unfold verifyCheckedSteps verifyChecked
      simp only [hpk, hA, hga, hdom, wide_sum, hS, hR, hgr, hgc, Bool.false_eq_true, if_false,
        if_true]
    · unfold verifyCheckedSteps
      simp only [hpk, hA, hga, hdom, wide_sum, hS, hR, hgr, hgc, Bool.false_eq_true, if_false,
        if_true]
      rfl
  | false =>
  cases hSc : Scalar.FromBytesModOrder (sig.drop 32) with
  | none =>
    refine ⟨?_, 8, by decide, by decide, ?_⟩
    · unfold verifyCheckedSteps verifyChecked
      simp only [hpk, hA, hga, hdom, wide_sum, hS, hR, hgr, hgc, hSc, Bool.false_eq_true,
        if_false, if_true]
    · unfold verifyCheckedSteps
      simp only [hpk, hA, hga, hdom, wide_sum, hS, hR, hgr, hgc, hSc, Bool.false_eq_true,
        if_false, if_true]
      rfl
  | some S =>
    refine ⟨?_, 9, by decide, by decide, ?_⟩
    · unfold verifyCheckedSteps verifyChecked
      simp only [hpk, hA, hga, hdom, wide_sum, hS, hR, hgr, hgc, hSc, Bool.false_eq_true,
        if_false, if_true]
    · unfold verifyCheckedSteps
      simp only [hpk, hA, hga, hdom, wide_sum, hS, hR, hgr, hgc, hSc, Bool.false_eq_true,
        if_false, if_true]
      rfl

end StepLemmas

/-! ## The constant-time lookup -/

section LookupLemmas

variable {G : Type} [AddCommGroup G]

/-- A digit in `[-8, 8]` is 0, or `j + 1`, or `-(j + 1)` for an index `j` of the
table. -/
theorem digit_cases (x : Int) (hlo : -8 ≤ x) (hhi : x ≤ 8) :
    x = 0 ∨ ∃ j : Fin 8, x = (j.val : Int) + 1 ∨ x = -((j.val : Int) + 1) := by
  by_cases h0 : x = 0
  · exact Or.inl h0
  · right
    by_cases hpos : 0 < x
    · refine ⟨⟨(x - 1).toNat, by omega⟩, Or.inl ?_⟩
      simp only
      omega
    · refine ⟨⟨(-x - 1).toNat, by omega⟩, Or.inr ?_⟩
      simp only
      omega

/-- What the scan of `Lookup` selects for each digit in `[-8, 8]`. -/
theorem Lookup_select (tbl : curve.projectiveNielsPointLookupTable G) (x : Int)
    (hlo : -8 ≤ x) (hhi : x ≤ 8) :
    (x = 0 → curve.projectiveNielsPointLookupTable.Lookup tbl x = 0) ∧
    (∀ j : Fin 8, x = (j.val : Int) + 1 →
      curve.projectiveNielsPointLookupTable.Lookup tbl x = tbl j) ∧
    (∀ j : Fin 8, x = -((j.val : Int) + 1) →
      curve.projectiveNielsPointLookupTable.Lookup tbl x = -tbl j) := by
  interval_cases x
  all_goals
    refine ⟨?_, ?_, ?_⟩
    · intro h
      first
        | rfl
        | exact absurd h (by decide)
    · intro j hj
      fin_cases j <;> first
        | rfl
        | exact absurd hj (by decide)
    · intro j hj
      fin_cases j <;> first
        | rfl
        | exact absurd hj (by decide)

theorem succ_zsmul_eq (P : G) (n : Nat) : ((n : Int) + 1) • P = (n + 1) • P := by
  rw [← natCast_zsmul P (n + 1)]
  push_cast
  rfl

end LookupLemmas

/-! ## The loop of `scMinimal` -/

theorem uint64LE_drop (scalar : List Byte) (hlen : scalar.length = 32) (k : Nat) (hk : k ≤ 24) :
    uint64LE (scalar.drop k) = some (leValue ((scalar.drop k).take 8)) := by
  unfold uint64LE
  have : ¬ (scalar.drop k).length < 8 := by
    rw [List.length_drop]; omega
  rw [if_neg this]

/-- On 32 bytes the loop of `scMinimal`, started at `i = 3` with room for four
iterations, ends with a result; the indices of its iterations are an initial
part of `3, 2, 1, 0`; and the result is the one of `scMinimalLoop`. -/
theorem scMinimalRun_spec (scalar : List Byte) (hlen : scalar.length = 32) :
    ∃ b visited, scMinimalRun scalar 4 3 [] = .result b visited ∧
      visited ≠ [] ∧ visited <+: [3, 2, 1, 0] ∧ scMinimalLoop scalar 3 = some b := by
  have h3 := uint64LE_drop scalar hlen 24 (by omega)
  have h2 := uint64LE_drop scalar hlen 16 (by omega)
  have h1 := uint64LE_drop scalar hlen 8 (by omega)
  have h0 := uint64LE_drop scalar hlen 0 (by omega)
  simp only [List.drop_zero] at h0
  generalize hr : scMinimalRun scalar 4 3 [] = r
  generalize hl : scMinimalLoop scalar 3 = l
  simp only [scMinimalRun, scMinimalLoop, sliceFrom, hlen, order] at hr hl
  simp [h3, h2, h1, h0] at hr hl
  generalize leValue (List.take 8 (List.drop 24 scalar)) = w3 at hr hl
  generalize leValue (List.take 8 (List.drop 16 scalar)) = w2 at hr hl
  generalize leValue (List.take 8 (List.drop 8 scalar)) = w1 at hr hl
  generalize leValue (List.take 8 scalar) = w0 at hr hl
  subst hr hl
  split_ifs <;> exact ⟨_, _, rfl, by decide, by decide, rfl⟩

/-! ## The bits of a digit -/

/-- The branch-free computations of `Lookup` on every `int8`, written `n - 128`
for `n` below 256. -/
theorem lookup_bits : ∀ n : Fin 256,
    (((n.val : Int) - 128 ≠ -128 →
      curve.lookupXabs ((n.val : Int) - 128) = ((n.val : Int) - 128).natAbs) ∧
    curve.lookupXmask ((n.val : Int) - 128) = (if (n.val : Int) - 128 < 0 then 255 else 0) ∧
    curve.lookupNegMask ((n.val : Int) - 128) = (if (n.val : Int) - 128 < 0 then 1 else 0) ∧
    ((n.val : Int) - 128 = -128 → curve.lookupXabs ((n.val : Int) - 128) = 128)) := by
  decide!

/-! ## Monotonicity in the allow-flags -/

/-- Two option values with the same mode and the same acceptance rule, the
second allowing whatever the first allows: acceptance by the first implies
acceptance by the second. -/
theorem accepted_of_more_allowed {G : Type} [AddCommGroup G] [DecidableEq G]
    (C : Curve G) (H : Sha512) (publicKey message sig : List Byte) (opts1 opts2 : Options)
    (hverify : opts2.verify = opts1.verify) (hhash : opts2.HashFunc = opts1.HashFunc)
    (hA : opts1.vOpts.AllowSmallOrderA = true → opts2.vOpts.AllowSmallOrderA = true)
    (hR : opts1.vOpts.AllowSmallOrderR = true → opts2.vOpts.AllowSmallOrderR = true)
    (hN : opts1.vOpts.AllowNonCanonicalAR = true → opts2.vOpts.AllowNonCanonicalAR = true)
    (hc : opts2.vOpts.CofactorlessVerify = opts1.vOpts.CofactorlessVerify)
    (h : VerifyWithOptions C H publicKey message sig opts1 = some true) :
    VerifyWithOptions C H publicKey message sig opts2 = some true := by
  cases hv : opts1.verify with
  | error e =>
    simp [VerifyWithOptions, verifyWithOptionsNoPanic, hv] at h
  | ok p =>
  obtain ⟨f0, ctx⟩ := p
  cases hh : checkHash f0 message opts1.HashFunc with
  | error e =>
    simp [VerifyWithOptions, verifyWithOptionsNoPanic, hv, hh] at h
  | ok f =>
  obtain ⟨dom, hdom⟩ := writeDom2_isSome f ctx (Options.verify_ok hv)
  rcases verifyNoPanic_cases C H publicKey message sig opts1 f0 f ctx hv hh with
    hrej | ⟨A, R, hsig, hpk, hdA, hga, hS, hdR, hgr, hgc⟩
  · rw [VerifyWithOptions_of_noPanic C H publicKey message sig opts1 false hrej] at h
    cases h
  have htop : ∀ top, sig[63]? = some top → top &&& 224 = 0 := by
    intro top hget
    by_contra hne
    have h31 : (sig.drop 32)[31]? = some top := by
      rw [List.getElem?_drop]; exact hget
    rw [scMinimal_top_bits _ top h31 hne] at hS
    cases hS
  have hga2 : (!opts2.vOpts.AllowSmallOrderA && EdwardsPoint.IsSmallOrder A) = false := by
    cases h1 : opts1.vOpts.AllowSmallOrderA with
    | true => simp [hA h1]
    | false =>
      rw [h1] at hga
      simp only [Bool.not_false, Bool.true_and] at hga
      simp [hga]
  have hgr2 : (!opts2.vOpts.AllowSmallOrderR && EdwardsPoint.IsSmallOrder R) = false := by
    cases h1 : opts1.vOpts.AllowSmallOrderR with
    | true => simp [hR h1]
    | false =>
      rw [h1] at hgr
      simp only [Bool.not_false, Bool.true_and] at hgr
      simp [hgr]
  have hgc2 : (!opts2.vOpts.AllowNonCanonicalAR &&
      !(C.IsCanonical publicKey && C.IsCanonical (sig.take 32))) = false := by
    cases h1 : opts1.vOpts.AllowNonCanonicalAR with
    | true => simp [hN h1]
    | false =>
      rw [h1] at hgc
      simp only [Bool.not_false, Bool.true_and] at hgc
      simp [hgc]
  have h1 := h
  unfold VerifyWithOptions at h1 ⊢
  rw [verifyNoPanic_checked C H publicKey message sig opts1 f0 f ctx hv hh hsig htop,
    verifyChecked_pass C H f ctx dom opts1.vOpts publicKey message sig A R hsig hdom hpk hdA
      hga hS hdR hgr hgc] at h1
  rw [verifyNoPanic_checked C H publicKey message sig opts2 f0 f ctx (hverify.trans hv)
      (by rw [hhash]; exact hh) hsig htop,
    verifyChecked_pass C H f ctx dom opts2.vOpts publicKey message sig A R hsig hdom hpk hdA
      hga2 hS hdR hgr2 hgc2, hc]
  exact h1

/-! ## Domain separation -/

/-- What `writeDom2` writes for the flags `ctx` and `ph`. -/
theorem writeDom2_of_ne_pure (f : dom2Flag) (c : List Byte) (hf : f ≠ fPure)
    (hc : c.length ≤ 255) :
    writeDom2 f c = some (dom2Prefix ++ [f, Fin.ofNat c.length] ++ c) := by
  unfold writeDom2
  have hgt : ¬ c.length > ContextMaxSize := by unfold ContextMaxSize; omega
  simp only [hf, hgt, if_false]

/-- The prefix written before a context determines the flag and the context. -/
theorem dom2_prefix_free (f1 f2 : dom2Flag) (c1 c2 rest1 rest2 : List Byte)
    (h1 : c1.length ≤ 255) (h2 : c2.length ≤ 255)
    (h : dom2Prefix ++ [f1, Fin.ofNat c1.length] ++ c1 ++ rest1 =
      dom2Prefix ++ [f2, Fin.ofNat c2.length] ++ c2 ++ rest2) :
    f1 = f2 ∧ c1 = c2 ∧ rest1 = rest2 := by
  simp only [List.append_assoc, List.cons_append, List.nil_append, List.append_cancel_left_eq,
    List.cons.injEq] at h
  obtain ⟨hf, hl, hrest⟩ := h
  have hlen : c1.length = c2.length := by
    have := congrArg Fin.val hl
    simp only [Fin.ofNat, Fin.val_mk] at this
    omega
  obtain ⟨hc, hr⟩ := List.append_inj hrest hlen
  exact ⟨hf, hc, hr⟩

/-! ## No panic from `writeDom2` -/

section NoPanic

variable {G : Type} [AddCommGroup G]

/-- Options are either refused or accepted. -/
theorem options_valid_or_not (opts : Options) (message : List Byte) :
    (opts.Context.length > 255 ∨ (opts.Hash = cryptoSHA512 ∧ message.length ≠ 64) ∨
      (opts.Hash ≠ 0 ∧ opts.Hash ≠ cryptoSHA512)) ∨
    (opts.Context.length ≤ 255 ∧
      (opts.Hash = 0 ∨ (opts.Hash = cryptoSHA512 ∧ message.length = 64))) := by
  by_cases h1 : opts.Context.length > 255
  · exact Or.inl (Or.inl h1)
  · by_cases h0 : opts.Hash = 0
    · exact Or.inr ⟨by omega, Or.inl h0⟩
    · by_cases h7 : opts.Hash = cryptoSHA512
      · by_cases hm : message.length = 64
        · exact Or.inr ⟨by omega, Or.inr ⟨h7, hm⟩⟩
        · exact Or.inl (Or.inr (Or.inl ⟨h7, hm⟩))
      · exact Or.inl (Or.inr (Or.inr ⟨h0, h7⟩))

/-- `PrivateKey.Sign` with a `*Options` never panics. -/
theorem Sign_options_no_panic {ρ : Type} (C : Curve G) (H : Sha512) (rand : ρ)
    (priv message : List Byte) (opts : Options) :
    PrivateKey.Sign C H priv rand message (.options opts) ≠ none := by
  rcases options_valid_or_not opts message with hbad | ⟨hctx, hhash⟩
  · obtain ⟨e, he⟩ := Sign_refused C H rand priv message opts hbad
    rw [he]; exact Option.some_ne_none _
  · by_cases hpriv : priv.length = 64
    · obtain ⟨sig, hs, _⟩ := Sign_total C H rand priv message opts hctx hhash hpriv
      rw [hs]; exact Option.some_ne_none _
    · obtain ⟨hv, hh⟩ := options_accepted opts message hctx hhash
      rw [Sign_bad_key C H rand priv message opts _ _ _ hv hh hpriv]
      exact Option.some_ne_none _

/-- `PrivateKey.Sign` with another `crypto.SignerOpts` never panics either: the
context is then empty. -/
theorem Sign_other_no_panic {ρ : Type} (C : Curve G) (H : Sha512) (rand : ρ)
    (priv message : List Byte) (hashFunc : Nat) :
    PrivateKey.Sign C H priv rand message (.other hashFunc) ≠ none := by
  have h32 : ((clamped (H.sum (priv.take 32))).take 32).length = 32 := by
    simp [length_clamped, H.size]
  have hbits : Scalar.FromBytesModOrder ((clamped (H.sum (priv.take 32))).take 32) =
      some (leValue ((clamped (H.sum (priv.take 32))).take 32) % L) := by
    simp [Scalar.FromBytesModOrder, h32]
  unfold PrivateKey.Sign
  simp only [clamped] at hbits
  cases hh : checkHash fPure message (SignerOpts.other hashFunc).HashFunc with
  | error e => simp only [hh]; exact Option.some_ne_none _
  | ok f =>
    obtain ⟨dom, hdom⟩ := writeDom2_isSome f [] (by simp)
    by_cases hpriv : priv.length = 64
    · simp only [hh, hpriv, PrivateKeySize, ne_eq, not_true_eq_false, if_false, hdom, wide_sum,
        hbits, Scalar.ToBytes, Scalar.Add, Scalar.Mul, SignatureSize, Nat.reduceSub, if_true]
      exact Option.some_ne_none _
    · simp only [hh, PrivateKeySize, ne_eq, hpriv, not_false_eq_true, if_true]
      exact Option.some_ne_none _

end NoPanic

/-- `verifyWithOptionsNoPanic` never panics. -/
theorem verifyNoPanic_no_panic {G : Type} [AddCommGroup G] [DecidableEq G] (C : Curve G)
    (H : Sha512) (publicKey message sig : List Byte) (opts : Options) :
    verifyWithOptionsNoPanic C H publicKey message sig opts ≠ none := by
  rcases options_valid_or_not opts message with hbad | ⟨hctx, hhash⟩
  · obtain ⟨e, he⟩ := verifyNoPanic_refused C H publicKey message sig opts hbad
    rw [he]; exact Option.some_ne_none _
  · obtain ⟨hv, hh⟩ := options_accepted opts message hctx hhash
    obtain ⟨b, hb⟩ := verifyNoPanic_total C H publicKey message sig opts _ _ _ hv hh
    rw [hb]; exact Option.some_ne_none _

/-! ## The table constructors -/

section TableLemmas

variable {G : Type} [AddCommGroup G]

/-- Entry `j` of the table built by `newProjectiveNielsPointLookupTable` is
`(j + 1)·P`. -/
theorem newProjectiveNielsPointLookupTable_entry (P : G) (j : Fin 8) :
    curve.newProjectiveNielsPointLookupTable P j = (j.val + 1) • P := by
  fin_cases j
  · show P = (0 + 1) • P
    abel
  · show P + P = (1 + 1) • P
    abel
  · show P + (P + P) = (2 + 1) • P
    abel
  · show P + (P + (P + P)) = (3 + 1) • P
    abel
  · show P + (P + (P + (P + P))) = (4 + 1) • P
    abel
  · show P + (P + (P + (P + (P + P)))) = (5 + 1) • P
    abel
  · show P + (P + (P + (P + (P + (P + P))))) = (6 + 1) • P
    abel
  · show P + (P + (P + (P + (P + (P + (P + P)))))) = (7 + 1) • P
    abel

/-- Entry `i` of the table built by `newProjectiveNielsPointNafLookupTable` is
`(2i + 1)·A`. -/
theorem newProjectiveNielsPointNafLookupTable_entry (A : G) (i : Fin 8) :
    curve.newProjectiveNielsPointNafLookupTable A i = (2 * i.val + 1) • A := by
  fin_cases i
  · show A = (2 * 0 + 1) • A
    abel
  · show (A + A) + A = (2 * 1 + 1) • A
    abel
  · show (A + A) + ((A + A) + A) = (2 * 2 + 1) • A
    abel
  · show (A + A) + ((A + A) + ((A + A) + A)) = (2 * 3 + 1) • A
    abel
  · show (A + A) + ((A + A) + ((A + A) + ((A + A) + A))) = (2 * 4 + 1) • A
    abel
  · show (A + A) + ((A + A) + ((A + A) + ((A + A) + ((A + A) + A)))) = (2 * 5 + 1) • A
    abel
  · show (A + A) + ((A + A) + ((A + A) + ((A + A) + ((A + A) + ((A + A) + A))))) = (2 * 6 + 1) • A
    abel
  · show (A + A) + ((A + A) + ((A + A) + ((A + A) + ((A + A) + ((A + A) + ((A + A) + A)))))) = (2 * 7 + 1) • A
    abel

end TableLemmas


/-! ## The packed affine table -/

/-- What the scan of `lookupPackedAffineNielsGeneric` leaves in `out`. -/
theorem lookupPackedAffineNielsGeneric_select {G F : Type} [Zero F] [One F]
    (ops : curve.AffineNielsOps G F)
    (table : curve.packedAffineNielsPointLookupTable) (xabs : Nat) :
    (xabs = 0 → curve.lookupPackedAffineNielsGeneric ops table xabs =
      curve.identityAffineNielsPacked ops) ∧
    (∀ j : Fin 8, xabs = j.val + 1 →
      curve.lookupPackedAffineNielsGeneric ops table xabs = table j) := by
  refine ⟨?_, ?_⟩
  · intro h
    subst h
    rfl
  · intro j hj
    subst hj
    fin_cases j <;> rfl

/-- What the packed `Lookup` returns for each digit in `[-8, 8]`. -/
theorem packedLookup_select {G F : Type} [Zero F] [One F] [Neg F]
    (ops : curve.AffineNielsOps G F)
    (tbl : curve.packedAffineNielsPointLookupTable) (x : Int) (hlo : -8 ≤ x) (hhi : x ≤ 8) :
    (x = 0 → curve.packedAffineNielsPointLookupTable.Lookup ops tbl x =
      curve.unpackAffineNiels ops (curve.identityAffineNielsPacked ops)) ∧
    (∀ j : Fin 8, x = (j.val : Int) + 1 →
      curve.packedAffineNielsPointLookupTable.Lookup ops tbl x =
        curve.unpackAffineNiels ops (tbl j)) ∧
    (∀ j : Fin 8, x = -((j.val : Int) + 1) →
      curve.packedAffineNielsPointLookupTable.Lookup ops tbl x =
        -curve.unpackAffineNiels ops (tbl j)) := by
  interval_cases x
  all_goals
    refine ⟨?_, ?_, ?_⟩
    · intro h
      first
        | rfl
        | exact absurd h (by decide)
    · intro j hj
      fin_cases j <;> first
        | rfl
        | exact absurd hj (by decide)
    · intro j hj
      fin_cases j <;> first
        | rfl
        | exact absurd hj (by decide)

section PackedLemmas

variable {G : Type} [AddCommGroup G] {F : Type} [Zero F] [One F] [Neg F]

/-- With multiples of `P`: what `Lookup` returns on a table of `(j + 1)·P`. -/
theorem Lookup_of_multiples (tbl : curve.projectiveNielsPointLookupTable G) (x : Int)
    (hlo : -8 ≤ x) (hhi : x ≤ 8) (P : G) (htbl : ∀ j : Fin 8, tbl j = (j.val + 1) • P) :
    curve.projectiveNielsPointLookupTable.Lookup tbl x = x • P := by
  obtain ⟨h0, hpos, hneg⟩ := Lookup_select tbl x hlo hhi
  rcases digit_cases x hlo hhi with hx | ⟨j, hx | hx⟩
  · rw [h0 hx, hx, zero_smul]
  · rw [hpos j hx, htbl j, hx, succ_zsmul_eq]
  · rw [hneg j hx, htbl j, hx, neg_smul, succ_zsmul_eq]

/-- Unpacking what was packed gives the point back. -/
theorem unpack_pack (ops : curve.AffineNielsOps G F) (hlaw : ops.Lawful)
    (n : curve.AffineNiels F) :
    curve.unpackAffineNiels ops (curve.packAffineNiels ops n) = n := by
  have h1 := hlaw.ToBytes_length n.y_plus_x
  have h2 := hlaw.ToBytes_length n.y_minus_x
  have h3 := hlaw.ToBytes_length n.xy2d
  unfold curve.unpackAffineNiels curve.packAffineNiels
  have hlen : (ops.ToBytes n.y_plus_x ++ ops.ToBytes n.y_minus_x).length = 64 := by
    rw [List.length_append, h1, h2]
  have e1 : ((ops.ToBytes n.y_plus_x ++ ops.ToBytes n.y_minus_x ++ ops.ToBytes n.xy2d).drop
      0).take 32 = ops.ToBytes n.y_plus_x := by
    rw [List.drop_zero, List.append_assoc]
    exact List.take_left' h1
  have e2 : ((ops.ToBytes n.y_plus_x ++ ops.ToBytes n.y_minus_x ++ ops.ToBytes n.xy2d).drop
      32).take 32 = ops.ToBytes n.y_minus_x := by
    rw [List.append_assoc, List.drop_left' h1]
    exact List.take_left' h2
  have e3 : ((ops.ToBytes n.y_plus_x ++ ops.ToBytes n.y_minus_x ++ ops.ToBytes n.xy2d).drop
      64).take 32 = ops.ToBytes n.xy2d := by
    rw [List.drop_left' hlen]
    exact List.take_of_length_le (by omega)
  rw [e1, e2, e3, hlaw.SetBytes_ToBytes, hlaw.SetBytes_ToBytes, hlaw.SetBytes_ToBytes]

/-- Entry `j` of the table built by `newPackedAffineNielsPointLookupTable` packs
the affine Niels form of `(j + 1)·P`. -/
theorem newPackedAffineNielsPointLookupTable_entry (ops : curve.AffineNielsOps G F)
    (hlaw : ops.Lawful) (P : G) (j : Fin 8) :
    curve.newPackedAffineNielsPointLookupTable ops P j =
      curve.packAffineNiels ops (ops.SetEdwards ((j.val + 1) • P)) := by
  fin_cases j
  · have hsum : P = (0 + 1) • P := by abel
    show curve.packAffineNiels ops
      (ops.SetEdwards P) = _
    simp only [curve.EdwardsPoint.setCompleted, hlaw.add_SetEdwards]
    exact congrArg (fun Q => curve.packAffineNiels ops (ops.SetEdwards Q)) hsum
  · have hsum : P + P = (1 + 1) • P := by abel
    show curve.packAffineNiels ops
      (ops.SetEdwards (curve.EdwardsPoint.setCompleted
        (ops.AddEdwardsAffineNiels P (ops.SetEdwards P)))) = _
    simp only [curve.EdwardsPoint.setCompleted, hlaw.add_SetEdwards]
    exact congrArg (fun Q => curve.packAffineNiels ops (ops.SetEdwards Q)) hsum
  · have hsum : P + (P + P) = (2 + 1) • P := by abel
    show curve.packAffineNiels ops
      (ops.SetEdwards (curve.EdwardsPoint.setCompleted
        (ops.AddEdwardsAffineNiels P (ops.SetEdwards (curve.EdwardsPoint.setCompleted
        (ops.AddEdwardsAffineNiels P (ops.SetEdwards P))))))) = _
    simp only [curve.EdwardsPoint.setCompleted, hlaw.add_SetEdwards]
    exact congrArg (fun Q => curve.packAffineNiels ops (ops.SetEdwards Q)) hsum
  · have hsum : P + (P + (P + P)) = (3 + 1) • P := by abel
    show curve.packAffineNiels ops
      (ops.SetEdwards (curve.EdwardsPoint.setCompleted
        (ops.AddEdwardsAffineNiels P (ops.SetEdwards (curve.EdwardsPoint.setCompleted
        (ops.AddEdwardsAffineNiels P (ops.SetEdwards (curve.EdwardsPoint.setCompleted
        (ops.AddEdwardsAffineNiels P (ops.SetEdwards P)))))))))) = _
    simp only [curve.EdwardsPoint.setCompleted, hlaw.add_SetEdwards]
    exact congrArg (fun Q => curve.packAffineNiels ops (ops.SetEdwards Q)) hsum
  · have hsum : P + (P + (P + (P + P))) = (4 + 1) • P := by abel
    show curve.packAffineNiels ops
      (ops.SetEdwards (curve.EdwardsPoint.setCompleted
        (ops.AddEdwardsAffineNiels P (ops.SetEdwards (curve.EdwardsPoint.setCompleted
        (ops.AddEdwardsAffineNiels P (ops.SetEdwards (curve.EdwardsPoint.setCompleted
        (ops.AddEdwardsAffineNiels P (ops.SetEdwards (curve.EdwardsPoint.setCompleted
        (ops.AddEdwardsAffineNiels P (ops.SetEdwards P))))))))))))) = _
    simp only [curve.EdwardsPoint.setCompleted, hlaw.add_SetEdwards]
    exact congrArg (fun Q => curve.packAffineNiels ops (ops.SetEdwards Q)) hsum
  · have hsum : P + (P + (P + (P + (P + P)))) = (5 + 1) • P := by abel
    show curve.packAffineNiels ops
      (ops.SetEdwards (curve.EdwardsPoint.setCompleted
        (ops.AddEdwardsAffineNiels P (ops.SetEdwards (curve.EdwardsPoint.setCompleted
        (ops.AddEdwardsAffineNiels P (ops.SetEdwards (curve.EdwardsPoint.setCompleted
        (ops.AddEdwardsAffineNiels P (ops.SetEdwards (curve.EdwardsPoint.setCompleted
        (ops.AddEdwardsAffineNiels P (ops.SetEdwards (curve.EdwardsPoint.setCompleted
        (ops.AddEdwardsAffineNiels P (ops.SetEdwards P)))))))))))))))) = _
    simp only [curve.EdwardsPoint.setCompleted, hlaw.add_SetEdwards]
    exact congrArg (fun Q => curve.packAffineNiels ops (ops.SetEdwards Q)) hsum
  · have hsum : P + (P + (P + (P + (P + (P + P))))) = (6 + 1) • P := by abel
    show curve.packAffineNiels ops
      (ops.SetEdwards (curve.EdwardsPoint.setCompleted
        (ops.AddEdwardsAffineNiels P (ops.SetEdwards (curve.EdwardsPoint.setCompleted
        (ops.AddEdwardsAffineNiels P (ops.SetEdwards (curve.EdwardsPoint.setCompleted
        (ops.AddEdwardsAffineNiels P (ops.SetEdwards (curve.EdwardsPoint.setCompleted
        (ops.AddEdwardsAffineNiels P (ops.SetEdwards (curve.EdwardsPoint.setCompleted
        (ops.AddEdwardsAffineNiels P (ops.SetEdwards (curve.EdwardsPoint.setCompleted
        (ops.AddEdwardsAffineNiels P (ops.SetEdwards P))))))))))))))))))) = _
    simp only [curve.EdwardsPoint.setCompleted, hlaw.add_SetEdwards]
    exact congrArg (fun Q => curve.packAffineNiels ops (ops.SetEdwards Q)) hsum
  · have hsum : P + (P + (P + (P + (P + (P + (P + P)))))) = (7 + 1) • P := by abel
    show curve.packAffineNiels ops
      (ops.SetEdwards (curve.EdwardsPoint.setCompleted
        (ops.AddEdwardsAffineNiels P (ops.SetEdwards (curve.EdwardsPoint.setCompleted
        (ops.AddEdwardsAffineNiels P (ops.SetEdwards (curve.EdwardsPoint.setCompleted
        (ops.AddEdwardsAffineNiels P (ops.SetEdwards (curve.EdwardsPoint.setCompleted
        (ops.AddEdwardsAffineNiels P (ops.SetEdwards (curve.EdwardsPoint.setCompleted
        (ops.AddEdwardsAffineNiels P (ops.SetEdwards (curve.EdwardsPoint.setCompleted
        (ops.AddEdwardsAffineNiels P (ops.SetEdwards (curve.EdwardsPoint.setCompleted
        (ops.AddEdwardsAffineNiels P (ops.SetEdwards P)))))))))))))))))))))) = _
    simp only [curve.EdwardsPoint.setCompleted, hlaw.add_SetEdwards]
    exact congrArg (fun Q => curve.packAffineNiels ops (ops.SetEdwards Q)) hsum

end PackedLemmas

/-- The small instance satisfies the laws. -/
theorem toyOps_lawful : curve.toyOps.Lawful where
  ToBytes_length := by
    intro a
    simp [curve.toyOps]
  SetBytes_ToBytes := by decide
  add_SetEdwards := fun _ _ => rfl
  SetEdwards_zero := by decide
  SetEdwards_neg := by decide


/-! ## The claims -/

section Claims

variable {G : Type} [AddCommGroup G] [DecidableEq G]

/-- C1 (the code departs from it). Signing then verifying, for every seed,
message and valid mode. With `sk = NewKeyFromSeed(seed)`, `pk = sk[32:]` and a
curve on which `ℓ·B` is the identity and decompression inverts compression,
`sk.Sign(rand, m, opts)` returns a 64-byte signature `sig` whose scalar
`S = sig[32:64]` is below `ℓ`, and under every profile whose small-order gates
the generated `A` and `R` pass (the canonicity gate always passes)
`VerifyWithOptions(pk, m, sig, opts)` returns, without panic, the truth value
of `S < 2^252`: true when `S` is below `2^252`, false when `S` lies in
`[2^252, ℓ)`, where the claim says true. -/
theorem sign_then_verify {ρ : Type} (C : Curve G) (H : Sha512) (rand : ρ)
    (seed message sk : List Byte) (opts : Options) (f0 f : dom2Flag) (context : List Byte)
    (hlaw : C.Lawful)
    (hsk : NewKeyFromSeed C H seed = some sk)
    (hv : opts.verify = .ok (f0, context))
    (hh : checkHash f0 message opts.HashFunc = .ok f) :
    ∃ sig, PrivateKey.Sign C H sk rand message (.options opts) = some (.ok sig) ∧
      sig.length = 64 ∧ leValue (sig.drop 32) < L ∧
      ((opts.vOpts.AllowSmallOrderA = false →
          ∀ A, C.decompress (sk.drop 32) = some A → (8 : ℕ) • A ≠ 0) →
        (opts.vOpts.AllowSmallOrderR = false →
          ∀ R, C.decompress (sig.take 32) = some R → (8 : ℕ) • R ≠ 0) →
        VerifyWithOptions C H (sk.drop 32) message sig opts =
          some (decide (leValue (sig.drop 32) < 2 ^ 252))) := by
  obtain ⟨hseed, hskeq⟩ := NewKeyFromSeed_ok C H seed sk hsk
  obtain ⟨dom, hdom⟩ := writeDom2_isSome f context (Options.verify_ok hv)
  have hsklen : sk.length = 64 := by
    rw [hskeq, List.length_append, hseed, C.compress_length]
  have hsktake : sk.take 32 = seed := by
    rw [hskeq, ← hseed]; exact List.take_left seed _
  have hskdrop : sk.drop 32 = C.compress (leValue ((clamped (H.sum seed)).take 32) • C.B) := by
    rw [hskeq, ← hseed]; exact List.drop_left seed _
  have hsign := Sign_ok C H rand sk message opts f0 f context dom hsklen hv hh hdom
  rw [hsktake] at hsign
  -- the quantities of the signature
  generalize ha : leValue ((clamped (H.sum seed)).take 32) = a at hskdrop hsign
  generalize hr : leValue (H.sum (dom ++ (clamped (H.sum seed)).drop 32 ++ message)) % L = r
    at hsign
  generalize hk : leValue (H.sum (dom ++ C.compress (r • C.B) ++ sk.drop 32 ++ message)) % L = k
    at hsign
  have hSlt : (k * (a % L) % L + r) % L < L := Nat.mod_lt _ (by decide)
  generalize hSdef : (k * (a % L) % L + r) % L = S at hsign hSlt
  have hRlen : (C.compress (r • C.B)).length = 32 := C.compress_length _
  have hsiglen : (C.compress (r • C.B) ++ leBytes 32 S).length = 64 := by
    rw [List.length_append, hRlen, length_leBytes]
  have hsigtake : (C.compress (r • C.B) ++ leBytes 32 S).take 32 = C.compress (r • C.B) := by
    rw [← hRlen]; exact List.take_left _ _
  have hsigdrop : (C.compress (r • C.B) ++ leBytes 32 S).drop 32 = leBytes 32 S := by
    rw [← hRlen]; exact List.drop_left _ _
  have hSval : leValue (leBytes 32 S) = S := by
    rw [leValue_leBytes]
    apply Nat.mod_eq_of_lt
    have : L < 256 ^ 32 := by decide
    omega
  refine ⟨_, hsign, hsiglen, ?_, ?_⟩
  · rw [hsigdrop, hSval]; exact hSlt
  rw [hsigtake, hsigdrop, hSval]
  intro hga hgr
  have hdecA : C.decompress (sk.drop 32) = some (a • C.B) := by
    rw [hskdrop]; exact hlaw.decompress_compress _
  have hdecR : C.decompress (C.compress (r • C.B)) = some (r • C.B) :=
    hlaw.decompress_compress _
  have hsc : scMinimal (leBytes 32 S) = some (decide (S < 2 ^ 252)) := by
    rw [scMinimal_eq _ (length_leBytes 32 S), hSval]
  by_cases hlt : S < 2 ^ 252
  · -- every check passes and the equation holds
    rw [decide_eq_true hlt] at hsc ⊢
    have hS' : scMinimal ((C.compress (r • C.B) ++ leBytes 32 S).drop 32) = some true := by
      rw [hsigdrop]; exact hsc
    have htop : ∀ top, (C.compress (r • C.B) ++ leBytes 32 S)[63]? = some top →
        top &&& 224 = 0 := by
      intro top hget
      by_contra hne
      have h31 : ((C.compress (r • C.B) ++ leBytes 32 S).drop 32)[31]? = some top := by
        rw [List.getElem?_drop]; exact hget
      rw [scMinimal_top_bits _ top h31 hne] at hS'
      cases hS'
    have hga' : (!opts.vOpts.AllowSmallOrderA && EdwardsPoint.IsSmallOrder (a • C.B)) = false := by
      cases hf : opts.vOpts.AllowSmallOrderA
      · simp [EdwardsPoint.IsSmallOrder, hga hf _ hdecA]
      · simp
    have hgr' : (!opts.vOpts.AllowSmallOrderR && EdwardsPoint.IsSmallOrder (r • C.B)) = false := by
      cases hf : opts.vOpts.AllowSmallOrderR
      · simp [EdwardsPoint.IsSmallOrder, hgr hf _ hdecR]
      · simp
    have hcanA : C.IsCanonical (sk.drop 32) = true := by
      unfold Curve.IsCanonical
      rw [hdecA]
      simp [hskdrop]
    have hcanR : C.IsCanonical (C.compress (r • C.B)) = true := by
      unfold Curve.IsCanonical
      rw [hdecR]
      simp
    have hgc' : (!opts.vOpts.AllowNonCanonicalAR && !(C.IsCanonical (sk.drop 32) &&
        C.IsCanonical ((C.compress (r • C.B) ++ leBytes 32 S).take 32))) = false := by
      rw [hsigtake, hcanA, hcanR]
      simp
    have hpk : (sk.drop 32).length = 32 := by rw [hskdrop]; exact C.compress_length _
    have hdecR' : C.decompress ((C.compress (r • C.B) ++ leBytes 32 S).take 32) =
        some (r • C.B) := by
      rw [hsigtake]; exact hdecR
    have heq : k • (-(a • C.B)) + (S % L) • C.B = r • C.B := by
      rw [mod_order_smul C hlaw, ← hSdef, mod_order_smul C hlaw, add_smul,
        mod_order_smul C hlaw, mul_smul, mod_order_smul C hlaw, smul_neg]
      abel
    apply VerifyWithOptions_of_noPanic
    rw [verifyNoPanic_checked C H (sk.drop 32) message _ opts f0 f context hv hh hsiglen htop,
      verifyChecked_pass C H f context dom opts.vOpts (sk.drop 32) message _ (a • C.B)
        (r • C.B) hsiglen hdom hpk hdecA hga' hS' hdecR' hgr' hgc', hsigtake, hsigdrop, hSval,
      hk]
    simp only [EdwardsPoint.Equal, EdwardsPoint.Sub, EdwardsPoint.Neg,
      EdwardsPoint.IsSmallOrder, Curve.DoubleScalarMulBasepointVartime, heq]
    cases opts.vOpts.CofactorlessVerify <;> simp
  · -- the scalar is refused by `scMinimal`
    rw [decide_eq_false hlt] at hsc ⊢
    apply VerifyWithOptions_of_noPanic
    rcases verifyNoPanic_cases C H (sk.drop 32) message (C.compress (r • C.B) ++ leBytes 32 S)
      opts f0 f context hv hh with h | ⟨A, R, _, _, _, _, hS', _⟩
    · exact h
    · rw [hsigdrop, hsc] at hS'
      cases hS'

theorem sign_then_verify_witness :
    modelCurve.Lawful ∧
    NewKeyFromSeed modelCurve modelShaHigh seed0 = some privHigh ∧
    defaultPureOptions.verify = .ok (fPure, []) ∧
    checkHash fPure msgHigh defaultPureOptions.HashFunc = .ok fPure ∧
    (∃ sig, PrivateKey.Sign modelCurve modelShaHigh privHigh () msgHigh
        (.options defaultPureOptions) = some (.ok sig) ∧
      sig.length = 64 ∧ leValue (sig.drop 32) < L ∧
      ((defaultPureOptions.vOpts.AllowSmallOrderA = false →
          ∀ A, modelCurve.decompress (privHigh.drop 32) = some A → (8 : ℕ) • A ≠ 0) →
        (defaultPureOptions.vOpts.AllowSmallOrderR = false →
          ∀ R, modelCurve.decompress (sig.take 32) = some R → (8 : ℕ) • R ≠ 0) →
        VerifyWithOptions modelCurve modelShaHigh (privHigh.drop 32) msgHigh sig
          defaultPureOptions = some (decide (leValue (sig.drop 32) < 2 ^ 252)))) ∧
    -- the signature of this instance: `S = 2^252 < ℓ`, no small-order point, refused
    sigHigh.length = 64 ∧ leValue (sigHigh.drop 32) = 2 ^ 252 ∧
    leValue (sigHigh.drop 32) < L ∧
    modelCurve.decompress (privHigh.drop 32) = some (2 ^ 254 • modelCurve.B) ∧
    modelCurve.decompress (sigHigh.take 32) = some (2 ^ 252 • modelCurve.B) ∧
    (8 : ℕ) • (2 ^ 254 • modelCurve.B) ≠ 0 ∧ (8 : ℕ) • (2 ^ 252 • modelCurve.B) ≠ 0 ∧
    VerifyWithOptions modelCurve modelShaHigh (privHigh.drop 32) msgHigh sigHigh
      defaultPureOptions = some false ∧
    VerifyWithOptions modelCurve modelShaHigh (privHigh.drop 32) msgHigh sigHigh
      runtimeOptions = some false :=
  ⟨modelCurve_lawful, by decide!, rfl, rfl,
    sign_then_verify modelCurve modelShaHigh () seed0 msgHigh privHigh defaultPureOptions
      fPure fPure [] modelCurve_lawful (by decide!) rfl rfl,
    by decide!, by decide!, by decide!, by decide!, by decide!, by decide!, by decide!,
    by decide!, by decide!⟩

/-- C2. `scMinimal` is sound: on 32 bytes, the answer true implies that the
little-endian value is below the group order `ℓ`, and the answer is false
whenever one of the three most significant bits of the last byte is set. So the
early `sig[63]&224` test never changes the result: for valid options and every
64-byte signature `r ++ s`, `verifyWithOptionsNoPanic` returns what the rest of
the function (`verifyChecked`, entered without that test) returns. -/
theorem scMinimal_sound (s : List Byte) (hlen : s.length = 32) :
    (scMinimal s = some true → leValue s < L) ∧
    (∀ top, s[31]? = some top → top &&& 224 ≠ 0 → scMinimal s = some false) ∧
    (∀ (C : Curve G) (H : Sha512) (publicKey message r : List Byte) (opts : Options)
      (f0 f : dom2Flag) (context : List Byte), r.length = 32 →
      opts.verify = .ok (f0, context) → checkHash f0 message opts.HashFunc = .ok f →
      verifyWithOptionsNoPanic C H publicKey message (r ++ s) opts =
        verifyChecked C H f context opts.vOpts publicKey message (r ++ s)) := by
  refine ⟨?_, ?_, ?_⟩
  · intro h
    rw [scMinimal_eq s hlen] at h
    have hlt : leValue s < 2 ^ 252 := by simpa using h
    unfold L
    omega
  · intro top h htop
    exact scMinimal_top_bits s top h htop
  · intro C H publicKey message r opts f0 f context hr hv hh
    have hsig : (r ++ s).length = 64 := by simp [hr, hlen]
    have hdrop : (r ++ s).drop 32 = s := by
      rw [← hr]; exact List.drop_left r s
    have hget : (r ++ s)[63]? = some (r ++ s)[63] := List.getElem?_eq_getElem (by omega)
    by_cases htop : (r ++ s)[63] &&& 224 = 0
    · apply verifyNoPanic_checked C H publicKey message (r ++ s) opts f0 f context hv hh hsig
      intro top h
      rw [hget] at h
      cases h
      exact htop
    · rw [verifyNoPanic_malformed C H publicKey message (r ++ s) opts f0 f context hv hh
        (Or.inr ⟨_, hget, htop⟩)]
      obtain ⟨dom, hdom⟩ := writeDom2_isSome f context (Options.verify_ok hv)
      have h31 : ((r ++ s).drop 32)[31]? = some (r ++ s)[63] := by
        rw [List.getElem?_drop]; exact hget
      rcases verifyChecked_cases C H f context dom opts.vOpts publicKey message (r ++ s) hsig
        hdom with hc | ⟨A, R, _, _, _, hS, _⟩
      · exact hc.symm
      · rw [scMinimal_top_bits _ _ h31 htop] at hS
        cases hS

theorem scMinimal_sound_witness :
    highBitBytes.length = 32 ∧
    ((scMinimal highBitBytes = some true → leValue highBitBytes < L) ∧
    (∀ top, highBitBytes[31]? = some top → top &&& 224 ≠ 0 →
      scMinimal highBitBytes = some false) ∧
    (∀ (C : Curve ModelPoint) (H : Sha512) (publicKey message r : List Byte) (opts : Options)
      (f0 f : dom2Flag) (context : List Byte), r.length = 32 →
      opts.verify = .ok (f0, context) → checkHash f0 message opts.HashFunc = .ok f →
      verifyWithOptionsNoPanic C H publicKey message (r ++ highBitBytes) opts =
        verifyChecked C H f context opts.vOpts publicKey message (r ++ highBitBytes))) ∧
    -- at this input: the last byte is `0x20`, the answer is false, the rest rejects
    highBitBytes[31]? = some 32 ∧ (32 : Byte) &&& 224 ≠ 0 ∧
    scMinimal highBitBytes = some false ∧
    verifyChecked modelCurve modelSha fPure [] defaultVerifyOptions pub0 msg0
      (sig0.take 32 ++ highBitBytes) = some (false, none) :=
  ⟨by decide, scMinimal_sound (G := ModelPoint) highBitBytes (by decide), by decide,
    by decide, by decide, by decide!⟩

/-- C3 (the code departs from it). The scalars `2^252` and `ℓ - 1` are less
than the group order `ℓ`, and `scMinimal` answers false on their 32-byte
encodings, as on every 32-byte scalar from `2^252` on: the second mask of the
source is `244`, which contains the bit `16` of the first mask `240`, so the
comparison with `order` is never reached. That comparison, entered at `i = 3`,
answers true on both scalars. -/
theorem scMinimal_rejects_scalar_below_order :
    twoPow252Bytes.length = 32 ∧ leValue twoPow252Bytes = 2 ^ 252 ∧
    leValue twoPow252Bytes < L ∧ scMinimal twoPow252Bytes = some false ∧
    scMinimalLoop twoPow252Bytes 3 = some true ∧
    leValue (leBytes 32 (L - 1)) = L - 1 ∧ scMinimal (leBytes 32 (L - 1)) = some false ∧
    scMinimalLoop (leBytes 32 (L - 1)) 3 = some true ∧
    (∀ s : List Byte, s.length = 32 → 2 ^ 252 ≤ leValue s → scMinimal s = some false) := by
  refine ⟨by decide, by decide, by decide, by decide, by decide, by decide, by decide,
    by decide, ?_⟩
  intro s hlen hge
  rw [scMinimal_eq s hlen, decide_eq_false (Nat.not_lt.mpr hge)]

/-- C4. With valid options, a signature whose length is not 64, or whose last
byte has one of its top three bits set, is rejected: `verifyWithOptionsNoPanic`
returns `(false, nil)` and `VerifyWithOptions` returns false, with no panic (no
read of `sig[63]` outside the slice). In particular `sig[63] |= 0x20` on any
64-byte signature makes `VerifyWithOptions`, and `Verify`, return false. -/
theorem verify_rejects_malformed_signature (C : Curve G) (H : Sha512)
    (publicKey message : List Byte) (opts : Options) (f0 f : dom2Flag)
    (context : List Byte)
    (hv : opts.verify = .ok (f0, context))
    (hh : checkHash f0 message opts.HashFunc = .ok f) :
    (∀ sig : List Byte, sig.length ≠ 64 →
      verifyWithOptionsNoPanic C H publicKey message sig opts = some (false, none) ∧
      VerifyWithOptions C H publicKey message sig opts = some false) ∧
    (∀ (sig : List Byte) (top : Byte), sig[63]? = some top → top &&& 224 ≠ 0 →
      verifyWithOptionsNoPanic C H publicKey message sig opts = some (false, none) ∧
      VerifyWithOptions C H publicKey message sig opts = some false) ∧
    (∀ sig : List Byte, sig.length = 64 →
      VerifyWithOptions C H publicKey message (sig.set 63 (sig.getD 63 0 ||| 32)) opts =
        some false) ∧
    (∀ sig : List Byte, sig.length = 64 →
      Verify C H publicKey message (sig.set 63 (sig.getD 63 0 ||| 32)) = some false) := by
  have tamper : ∀ sig : List Byte, sig.length = 64 →
      (sig.set 63 (sig.getD 63 0 ||| 32))[63]? = some (sig.getD 63 0 ||| 32) := by
    intro sig hlen
    simp [hlen]
  refine ⟨?_, ?_, ?_, ?_⟩
  · intro sig hlen
    have h := verifyNoPanic_malformed C H publicKey message sig opts f0 f context hv hh
      (Or.inl hlen)
    exact ⟨h, VerifyWithOptions_of_noPanic C H publicKey message sig opts false h⟩
  · intro sig top hget htop
    have h := verifyNoPanic_malformed C H publicKey message sig opts f0 f context hv hh
      (Or.inr ⟨top, hget, htop⟩)
    exact ⟨h, VerifyWithOptions_of_noPanic C H publicKey message sig opts false h⟩
  · intro sig hlen
    have h := verifyNoPanic_malformed C H publicKey message _ opts f0 f context hv hh
      (Or.inr ⟨_, tamper sig hlen, (byte_masks _).2.2.2⟩)
    exact VerifyWithOptions_of_noPanic C H publicKey message _ opts false h
  · intro sig hlen
    have h := verifyNoPanic_malformed C H publicKey message _ defaultPureOptions fPure fPure []
      rfl rfl (Or.inr ⟨_, tamper sig hlen, (byte_masks _).2.2.2⟩)
    exact VerifyWithOptions_of_noPanic C H publicKey message _ defaultPureOptions false h

theorem verify_rejects_malformed_signature_witness :
    defaultPureOptions.verify = .ok (fPure, []) ∧
    checkHash fPure msg0 defaultPureOptions.HashFunc = .ok fPure ∧
    -- a short signature, and a signature that verifies until its last byte is altered
    zeroBytes.length ≠ 64 ∧
    VerifyWithOptions modelCurve modelSha pub0 msg0 zeroBytes defaultPureOptions = some false ∧
    sig0.length = 64 ∧
    VerifyWithOptions modelCurve modelSha pub0 msg0 sig0 defaultPureOptions = some true ∧
    VerifyWithOptions modelCurve modelSha pub0 msg0 (sig0.set 63 (sig0.getD 63 0 ||| 32))
      defaultPureOptions = some false ∧
    Verify modelCurve modelSha pub0 msg0 (sig0.set 63 (sig0.getD 63 0 ||| 32)) = some false :=
  ⟨rfl, rfl, by decide,
    ((verify_rejects_malformed_signature modelCurve modelSha pub0 msg0 defaultPureOptions
      fPure fPure [] rfl rfl).1 zeroBytes (by decide)).2,
    by decide!, by decide!,
    (verify_rejects_malformed_signature modelCurve modelSha pub0 msg0 defaultPureOptions
      fPure fPure [] rfl rfl).2.2.1 sig0 (by decide!),
    (verify_rejects_malformed_signature modelCurve modelSha pub0 msg0 defaultPureOptions
      fPure fPure [] rfl rfl).2.2.2 sig0 (by decide!)⟩

/-- C5. Cofactored acceptance. With valid options, for a 64-byte signature and
a 32-byte public key that decode to points `R` and `A`, pass the small-order and
canonicity gates of the profile and pass the `scMinimal` check on `S`, and with
`CofactorlessVerify` false, `VerifyWithOptions` returns (without panic) the
truth value of `8·((S·B − k·A) − R) = identity`, where
`k = SHA-512(dom2 ‖ sig[0:32] ‖ publicKey ‖ message) mod ℓ` and `S` is the
integer `sig[32:64]`. -/
theorem cofactored_acceptance (C : Curve G) (H : Sha512)
    (publicKey message sig : List Byte) (opts : Options) (f0 f : dom2Flag)
    (context dom : List Byte) (A R : G)
    (hv : opts.verify = .ok (f0, context))
    (hh : checkHash f0 message opts.HashFunc = .ok f)
    (hdom : writeDom2 f context = some dom)
    (hsig : sig.length = 64) (hpk : publicKey.length = 32)
    (hA : C.decompress publicKey = some A)
    (hR : C.decompress (sig.take 32) = some R)
    (hga : opts.vOpts.AllowSmallOrderA = false → (8 : ℕ) • A ≠ 0)
    (hgr : opts.vOpts.AllowSmallOrderR = false → (8 : ℕ) • R ≠ 0)
    (hgc : opts.vOpts.AllowNonCanonicalAR = false →
      C.IsCanonical publicKey = true ∧ C.IsCanonical (sig.take 32) = true)
    (hS : scMinimal (sig.drop 32) = some true)
    (hcof : opts.vOpts.CofactorlessVerify = false) :
    VerifyWithOptions C H publicKey message sig opts =
      some (decide ((8 : ℕ) • ((leValue (sig.drop 32) • C.B -
        (leValue (H.sum (dom ++ sig.take 32 ++ publicKey ++ message)) % L) • A) - R) = 0)) := by
  have hdrop : (sig.drop 32).length = 32 := by simp [hsig]
  have hlt : leValue (sig.drop 32) < 2 ^ 252 := by
    have h := hS
    rw [scMinimal_eq _ hdrop] at h
    simpa using h
  have hmod : leValue (sig.drop 32) % L = leValue (sig.drop 32) :=
    Nat.mod_eq_of_lt (by unfold L; omega)
  have htop : ∀ top, sig[63]? = some top → top &&& 224 = 0 := by
    intro top hget
    by_contra hne
    have h31 : (sig.drop 32)[31]? = some top := by
      rw [List.getElem?_drop]; exact hget
    rw [scMinimal_top_bits _ top h31 hne] at hS
    cases hS
  have hga' : (!opts.vOpts.AllowSmallOrderA && EdwardsPoint.IsSmallOrder A) = false := by
    cases hf : opts.vOpts.AllowSmallOrderA
    · simp [EdwardsPoint.IsSmallOrder, hga hf]
    · simp
  have hgr' : (!opts.vOpts.AllowSmallOrderR && EdwardsPoint.IsSmallOrder R) = false := by
    cases hf : opts.vOpts.AllowSmallOrderR
    · simp [EdwardsPoint.IsSmallOrder, hgr hf]
    · simp
  have hgc' : (!opts.vOpts.AllowNonCanonicalAR &&
      !(C.IsCanonical publicKey && C.IsCanonical (sig.take 32))) = false := by
    cases hf : opts.vOpts.AllowNonCanonicalAR
    · simp [(hgc hf).1, (hgc hf).2]
    · simp
  apply VerifyWithOptions_of_noPanic
  rw [verifyNoPanic_checked C H publicKey message sig opts f0 f context hv hh hsig htop,
    verifyChecked_pass C H f context dom opts.vOpts publicKey message sig A R hsig hdom hpk hA
      hga' hS hR hgr' hgc', hcof, hmod]
  simp only [Bool.false_eq_true, if_false, EdwardsPoint.IsSmallOrder, EdwardsPoint.Sub,
    EdwardsPoint.Neg, Curve.DoubleScalarMulBasepointVartime, smul_neg]
  have hkey : ∀ P Q : G, -P + Q - R = Q - P - R := fun P Q => by abel
  rw [hkey]

theorem cofactored_acceptance_witness :
    defaultPureOptions.verify = .ok (fPure, []) ∧
    checkHash fPure msg0 defaultPureOptions.HashFunc = .ok fPure ∧
    writeDom2 fPure [] = some [] ∧
    sig0.length = 64 ∧ pub0.length = 32 ∧
    modelCurve.decompress pub0 = some ((2 ^ 254 + 32) • modelCurve.B) ∧
    modelCurve.decompress (sig0.take 32) = some (35 • modelCurve.B) ∧
    (8 : ℕ) • ((2 ^ 254 + 32) • modelCurve.B) ≠ 0 ∧
    (8 : ℕ) • (35 • modelCurve.B) ≠ 0 ∧
    modelCurve.IsCanonical pub0 = true ∧ modelCurve.IsCanonical (sig0.take 32) = true ∧
    scMinimal (sig0.drop 32) = some true ∧
    defaultPureOptions.vOpts.CofactorlessVerify = false ∧
    VerifyWithOptions modelCurve modelSha pub0 msg0 sig0 defaultPureOptions =
      some (decide ((8 : ℕ) • ((leValue (sig0.drop 32) • modelCurve.B -
        (leValue (modelSha.sum ([] ++ sig0.take 32 ++ pub0 ++ msg0)) % L) •
          ((2 ^ 254 + 32) • modelCurve.B)) - 35 • modelCurve.B) = 0)) :=
  ⟨rfl, rfl, rfl, by decide!, by decide!, by decide!, by decide!, by decide!, by decide!,
    by decide!, by decide!, by decide!, rfl,
    cofactored_acceptance modelCurve modelSha pub0 msg0 sig0 defaultPureOptions fPure fPure
      [] [] ((2 ^ 254 + 32) • modelCurve.B) (35 • modelCurve.B) rfl rfl rfl (by decide!)
      (by decide!) (by decide!) (by decide!) (fun _ => by decide!) (fun _ => by decide!)
      (fun _ => ⟨by decide!, by decide!⟩) (by decide!) rfl⟩

/-- C6, as the code has it. Cofactorless acceptance. With valid options, for a
64-byte signature and a 32-byte public key that decode to points `R` and `A`,
pass the gates of the profile and the `scMinimal` check on `S`, and with
`CofactorlessVerify` true, `VerifyWithOptions` returns (without panic) the
truth value of `R = S·B − k·A`, an equality of points: the point decoded from
`sig[0:32]` against `R′`. When decompression inverts compression and
`sig[0:32]` is a canonical encoding (as it is whenever `AllowNonCanonicalAR` is
false), this is the equality of the compressed encoding of `R′` with the bytes
`sig[0:32]`. -/
theorem cofactorless_acceptance (C : Curve G) (H : Sha512)
    (publicKey message sig : List Byte) (opts : Options) (f0 f : dom2Flag)
    (context dom : List Byte) (A R : G)
    (hv : opts.verify = .ok (f0, context))
    (hh : checkHash f0 message opts.HashFunc = .ok f)
    (hdom : writeDom2 f context = some dom)
    (hsig : sig.length = 64) (hpk : publicKey.length = 32)
    (hA : C.decompress publicKey = some A)
    (hR : C.decompress (sig.take 32) = some R)
    (hga : opts.vOpts.AllowSmallOrderA = false → (8 : ℕ) • A ≠ 0)
    (hgr : opts.vOpts.AllowSmallOrderR = false → (8 : ℕ) • R ≠ 0)
    (hgc : opts.vOpts.AllowNonCanonicalAR = false →
      C.IsCanonical publicKey = true ∧ C.IsCanonical (sig.take 32) = true)
    (hS : scMinimal (sig.drop 32) = some true)
    (hcof : opts.vOpts.CofactorlessVerify = true) :
    VerifyWithOptions C H publicKey message sig opts =
      some (decide (R = leValue (sig.drop 32) • C.B -
        (leValue (H.sum (dom ++ sig.take 32 ++ publicKey ++ message)) % L) • A)) ∧
    (C.Lawful → C.IsCanonical (sig.take 32) = true →
      (VerifyWithOptions C H publicKey message sig opts = some true ↔
        C.compress (leValue (sig.drop 32) • C.B -
          (leValue (H.sum (dom ++ sig.take 32 ++ publicKey ++ message)) % L) • A) =
          sig.take 32)) := by
  have hdrop : (sig.drop 32).length = 32 := by simp [hsig]
  have hlt : leValue (sig.drop 32) < 2 ^ 252 := by
    have h := hS
    rw [scMinimal_eq _ hdrop] at h
    simpa using h
  have hmod : leValue (sig.drop 32) % L = leValue (sig.drop 32) :=
    Nat.mod_eq_of_lt (by unfold L; omega)
  have htop : ∀ top, sig[63]? = some top → top &&& 224 = 0 := by
    intro top hget
    by_contra hne
    have h31 : (sig.drop 32)[31]? = some top := by
      rw [List.getElem?_drop]; exact hget
    rw [scMinimal_top_bits _ top h31 hne] at hS
    cases hS
  have hga' : (!opts.vOpts.AllowSmallOrderA && EdwardsPoint.IsSmallOrder A) = false := by
    cases hf : opts.vOpts.AllowSmallOrderA
    · simp [EdwardsPoint.IsSmallOrder, hga hf]
    · simp
  have hgr' : (!opts.vOpts.AllowSmallOrderR && EdwardsPoint.IsSmallOrder R) = false := by
    cases hf : opts.vOpts.AllowSmallOrderR
    · simp [EdwardsPoint.IsSmallOrder, hgr hf]
    · simp
  have hgc' : (!opts.vOpts.AllowNonCanonicalAR &&
      !(C.IsCanonical publicKey && C.IsCanonical (sig.take 32))) = false := by
    cases hf : opts.vOpts.AllowNonCanonicalAR
    · simp [(hgc hf).1, (hgc hf).2]
    · simp
  have hmain : VerifyWithOptions C H publicKey message sig opts =
      some (decide (R = leValue (sig.drop 32) • C.B -
        (leValue (H.sum (dom ++ sig.take 32 ++ publicKey ++ message)) % L) • A)) := by
    apply VerifyWithOptions_of_noPanic
    rw [verifyNoPanic_checked C H publicKey message sig opts f0 f context hv hh hsig htop,
      verifyChecked_pass C H f context dom opts.vOpts publicKey message sig A R hsig hdom hpk
        hA hga' hS hR hgr' hgc', hcof, hmod]
    have hkey : ∀ P Q : G, -P + Q = Q - P := fun P Q => by abel
    simp only [if_true, EdwardsPoint.Equal, EdwardsPoint.Neg,
      Curve.DoubleScalarMulBasepointVartime, smul_neg, hkey]
    by_cases hEq : R = leValue (sig.drop 32) • C.B -
        (leValue (H.sum (dom ++ sig.take 32 ++ publicKey ++ message)) % L) • A
    · simp [hEq]
    · simp [hEq]
  refine ⟨hmain, ?_⟩
  intro hlaw hcan
  rw [hmain]
  have hcomp : C.compress R = sig.take 32 := by
    unfold Curve.IsCanonical at hcan
    rw [hR] at hcan
    simpa using hcan
  constructor
  · intro h
    have hEq : R = leValue (sig.drop 32) • C.B -
        (leValue (H.sum (dom ++ sig.take 32 ++ publicKey ++ message)) % L) • A := by
      simpa using h
    rw [← hEq, hcomp]
  · intro h
    have hdec := hlaw.decompress_compress (leValue (sig.drop 32) • C.B -
        (leValue (H.sum (dom ++ sig.take 32 ++ publicKey ++ message)) % L) • A)
    rw [h, hR] at hdec
    have hEq := Option.some.inj hdec
    simp [hEq]

theorem cofactorless_acceptance_witness :
    runtimeOptions.verify = .ok (fPure, []) ∧
    checkHash fPure msg0 runtimeOptions.HashFunc = .ok fPure ∧
    writeDom2 fPure [] = some [] ∧
    sig0.length = 64 ∧ pub0.length = 32 ∧
    modelCurve.decompress pub0 = some ((2 ^ 254 + 32) • modelCurve.B) ∧
    modelCurve.decompress (sig0.take 32) = some (35 • modelCurve.B) ∧
    scMinimal (sig0.drop 32) = some true ∧
    runtimeOptions.vOpts.CofactorlessVerify = true ∧
    (VerifyWithOptions modelCurve modelSha pub0 msg0 sig0 runtimeOptions =
      some (decide (35 • modelCurve.B = leValue (sig0.drop 32) • modelCurve.B -
        (leValue (modelSha.sum ([] ++ sig0.take 32 ++ pub0 ++ msg0)) % L) •
          ((2 ^ 254 + 32) • modelCurve.B))) ∧
    (modelCurve.Lawful → modelCurve.IsCanonical (sig0.take 32) = true →
      (VerifyWithOptions modelCurve modelSha pub0 msg0 sig0 runtimeOptions = some true ↔
        modelCurve.compress (leValue (sig0.drop 32) • modelCurve.B -
          (leValue (modelSha.sum ([] ++ sig0.take 32 ++ pub0 ++ msg0)) % L) •
            ((2 ^ 254 + 32) • modelCurve.B)) = sig0.take 32))) :=
  ⟨rfl, rfl, rfl, by decide!, by decide!, by decide!, by decide!, by decide!, rfl,
    cofactorless_acceptance modelCurve modelSha pub0 msg0 sig0 runtimeOptions fPure fPure
      [] [] ((2 ^ 254 + 32) • modelCurve.B) (35 • modelCurve.B) rfl rfl rfl (by decide!)
      (by decide!) (by decide!) (by decide!) (fun h => by cases h) (fun h => by cases h)
      (fun h => by cases h) (by decide!) rfl⟩

/-- C6, as stated, fails: under the preset compatible with Go's `crypto/ed25519`
(every allow-flag true, cofactorless), for the public key that encodes the
neutral element and the signature made of the second, non-canonical encoding of
the neutral element followed by `S = 0`, every check passes and
`VerifyWithOptions` returns true, while the compressed encoding of
`R′ = S·B − k·A` differs from the bytes `sig[0:32]`. -/
theorem cofactorless_accepts_other_encoding_of_R :
    runtimeOptions.verify = .ok (fPure, []) ∧
    checkHash fPure msg0 runtimeOptions.HashFunc = .ok fPure ∧
    (nonCanonicalZeroBytes ++ zeroBytes).length = 64 ∧ zeroBytes.length = 32 ∧
    modelCurve.decompress zeroBytes = some 0 ∧
    modelCurve.decompress ((nonCanonicalZeroBytes ++ zeroBytes).take 32) = some 0 ∧
    scMinimal ((nonCanonicalZeroBytes ++ zeroBytes).drop 32) = some true ∧
    runtimeOptions.vOpts = VerifyOptionsRuntime ∧
    VerifyWithOptions modelCurve modelSha zeroBytes msg0 (nonCanonicalZeroBytes ++ zeroBytes)
      runtimeOptions = some true ∧
    modelCurve.compress (leValue ((nonCanonicalZeroBytes ++ zeroBytes).drop 32) • modelCurve.B -
      (leValue (modelSha.sum ([] ++ (nonCanonicalZeroBytes ++ zeroBytes).take 32 ++ zeroBytes
        ++ msg0)) % L) • (0 : ModelPoint)) ≠ (nonCanonicalZeroBytes ++ zeroBytes).take 32 :=
  ⟨rfl, rfl, by decide!, by decide!, by decide!, by decide!, by decide!, rfl, by decide!,
    by decide!⟩

/-- C7. With valid options, when `AllowSmallOrderA` is false and the public key
decodes to a point `A` of the 8-torsion subgroup (`8·A` is the identity),
verification returns false, `(false, nil)` without panic, for every message
and signature and whatever the other verification flags are. -/
theorem verify_rejects_small_order_A (C : Curve G) (H : Sha512)
    (publicKey message sig : List Byte) (opts : Options) (f0 f : dom2Flag)
    (context : List Byte) (A : G)
    (hv : opts.verify = .ok (f0, context))
    (hh : checkHash f0 message opts.HashFunc = .ok f)
    (hflag : opts.vOpts.AllowSmallOrderA = false)
    (hA : C.decompress publicKey = some A) (hsmall : (8 : ℕ) • A = 0) :
    verifyWithOptionsNoPanic C H publicKey message sig opts = some (false, none) ∧
    VerifyWithOptions C H publicKey message sig opts = some false := by
  have key : verifyWithOptionsNoPanic C H publicKey message sig opts = some (false, none) := by
    rcases verifyNoPanic_cases C H publicKey message sig opts f0 f context hv hh with
      h | ⟨A', R, _, _, hA', hga, _⟩
    · exact h
    · rw [hA] at hA'
      cases hA'
      simp [hflag, EdwardsPoint.IsSmallOrder, hsmall] at hga
  exact ⟨key, VerifyWithOptions_of_noPanic C H publicKey message sig opts false key⟩

theorem verify_rejects_small_order_A_witness :
    defaultPureOptions.verify = .ok (fPure, []) ∧
    checkHash fPure msg0 defaultPureOptions.HashFunc = .ok fPure ∧
    defaultPureOptions.vOpts.AllowSmallOrderA = false ∧
    modelCurve.decompress zeroBytes = some 0 ∧ (8 : ℕ) • (0 : ModelPoint) = 0 ∧
    verifyWithOptionsNoPanic modelCurve modelSha zeroBytes msg0 sig0 defaultPureOptions =
      some (false, none) ∧
    VerifyWithOptions modelCurve modelSha zeroBytes msg0 sig0 defaultPureOptions = some false :=
  ⟨rfl, rfl, rfl, by decide, by decide,
    verify_rejects_small_order_A modelCurve modelSha zeroBytes msg0 sig0 defaultPureOptions
      fPure fPure [] 0 rfl rfl rfl (by decide) (by decide)⟩

/-- C8. With valid options, when `AllowSmallOrderR` is false and `sig[0:32]`
decodes to a point `R` of the 8-torsion subgroup, verification returns false,
`(false, nil)` without panic, for every public key and message, whatever `S`
and the other verification flags are. -/
theorem verify_rejects_small_order_R (C : Curve G) (H : Sha512)
    (publicKey message sig : List Byte) (opts : Options) (f0 f : dom2Flag)
    (context : List Byte) (R : G)
    (hv : opts.verify = .ok (f0, context))
    (hh : checkHash f0 message opts.HashFunc = .ok f)
    (hflag : opts.vOpts.AllowSmallOrderR = false)
    (hR : C.decompress (sig.take 32) = some R) (hsmall : (8 : ℕ) • R = 0) :
    verifyWithOptionsNoPanic C H publicKey message sig opts = some (false, none) ∧
    VerifyWithOptions C H publicKey message sig opts = some false := by
  have key : verifyWithOptionsNoPanic C H publicKey message sig opts = some (false, none) := by
    rcases verifyNoPanic_cases C H publicKey message sig opts f0 f context hv hh with
      h | ⟨A, R', _, _, _, _, _, hR', hgr, _⟩
    · exact h
    · rw [hR] at hR'
      cases hR'
      simp [hflag, EdwardsPoint.IsSmallOrder, hsmall] at hgr
  exact ⟨key, VerifyWithOptions_of_noPanic C H publicKey message sig opts false key⟩

theorem verify_rejects_small_order_R_witness :
    defaultPureOptions.verify = .ok (fPure, []) ∧
    checkHash fPure msg0 defaultPureOptions.HashFunc = .ok fPure ∧
    defaultPureOptions.vOpts.AllowSmallOrderR = false ∧
    modelCurve.decompress ((zeroBytes ++ zeroBytes).take 32) = some 0 ∧
    (8 : ℕ) • (0 : ModelPoint) = 0 ∧
    verifyWithOptionsNoPanic modelCurve modelSha pub0 msg0 (zeroBytes ++ zeroBytes)
      defaultPureOptions = some (false, none) ∧
    VerifyWithOptions modelCurve modelSha pub0 msg0 (zeroBytes ++ zeroBytes)
      defaultPureOptions = some false :=
  ⟨rfl, rfl, rfl, by decide, by decide,
    verify_rejects_small_order_R modelCurve modelSha pub0 msg0 (zeroBytes ++ zeroBytes)
      defaultPureOptions fPure fPure [] 0 rfl rfl rfl (by decide) (by decide)⟩

/-- C9. With valid options, when `AllowNonCanonicalAR` is false and the public
key bytes or the bytes `sig[0:32]` are a non-canonical encoding (they decode to
a point whose re-encoding differs from them), verification returns false,
`(false, nil)` without panic, whatever else holds of the signature. -/
theorem verify_rejects_non_canonical (C : Curve G) (H : Sha512)
    (publicKey message sig : List Byte) (opts : Options) (f0 f : dom2Flag)
    (context : List Byte)
    (hv : opts.verify = .ok (f0, context))
    (hh : checkHash f0 message opts.HashFunc = .ok f)
    (hflag : opts.vOpts.AllowNonCanonicalAR = false)
    (hnc : (∃ P, C.decompress publicKey = some P ∧ C.compress P ≠ publicKey) ∨
      (∃ P, C.decompress (sig.take 32) = some P ∧ C.compress P ≠ sig.take 32)) :
    verifyWithOptionsNoPanic C H publicKey message sig opts = some (false, none) ∧
    VerifyWithOptions C H publicKey message sig opts = some false := by
  have key : verifyWithOptionsNoPanic C H publicKey message sig opts = some (false, none) := by
    rcases verifyNoPanic_cases C H publicKey message sig opts f0 f context hv hh with
      h | ⟨A, R, _, _, hA, _, _, hR, _, hgc⟩
    · exact h
    · rcases hnc with ⟨P, hP, hne⟩ | ⟨P, hP, hne⟩
      · rw [hA] at hP
        cases hP
        simp [hflag, Curve.IsCanonical, hA, hne] at hgc
      · rw [hR] at hP
        cases hP
        simp [hflag, Curve.IsCanonical, hR, hne] at hgc
  exact ⟨key, VerifyWithOptions_of_noPanic C H publicKey message sig opts false key⟩

theorem verify_rejects_non_canonical_witness :
    fipsOptions.verify = .ok (fPure, []) ∧
    checkHash fPure msg0 fipsOptions.HashFunc = .ok fPure ∧
    fipsOptions.vOpts.AllowNonCanonicalAR = false ∧
    ((∃ P, modelCurve.decompress nonCanonicalZeroBytes = some P ∧
        modelCurve.compress P ≠ nonCanonicalZeroBytes) ∨
      (∃ P, modelCurve.decompress (sig0.take 32) = some P ∧
        modelCurve.compress P ≠ sig0.take 32)) ∧
    verifyWithOptionsNoPanic modelCurve modelSha nonCanonicalZeroBytes msg0 sig0 fipsOptions =
      some (false, none) ∧
    VerifyWithOptions modelCurve modelSha nonCanonicalZeroBytes msg0 sig0 fipsOptions =
      some false :=
  ⟨rfl, rfl, rfl, Or.inl ⟨0, by decide, by decide⟩,
    verify_rejects_non_canonical modelCurve modelSha nonCanonicalZeroBytes msg0 sig0 fipsOptions
      fPure fPure [] rfl rfl rfl (Or.inl ⟨0, by decide, by decide⟩)⟩

/-- C10. With valid options and under every verification profile, when the
public key bytes or the bytes `sig[0:32]` do not decode to a point,
verification returns false with no error: `(false, nil)`, and no panic. -/
theorem verify_rejects_undecodable (C : Curve G) (H : Sha512)
    (publicKey message sig : List Byte) (opts : Options) (f0 f : dom2Flag)
    (context : List Byte)
    (hv : opts.verify = .ok (f0, context))
    (hh : checkHash f0 message opts.HashFunc = .ok f)
    (hbad : C.decompress publicKey = none ∨ C.decompress (sig.take 32) = none) :
    verifyWithOptionsNoPanic C H publicKey message sig opts = some (false, none) ∧
    VerifyWithOptions C H publicKey message sig opts = some false := by
  have key : verifyWithOptionsNoPanic C H publicKey message sig opts = some (false, none) := by
    rcases verifyNoPanic_cases C H publicKey message sig opts f0 f context hv hh with
      h | ⟨A, R, _, _, hA, _, _, hR, _, _⟩
    · exact h
    · rcases hbad with h | h
      · rw [hA] at h; cases h
      · rw [hR] at h; cases h
  exact ⟨key, VerifyWithOptions_of_noPanic C H publicKey message sig opts false key⟩

theorem verify_rejects_undecodable_witness :
    runtimeOptions.verify = .ok (fPure, []) ∧
    checkHash fPure msg0 runtimeOptions.HashFunc = .ok fPure ∧
    (modelCurve.decompress undecodableBytes = none ∨
      modelCurve.decompress (sig0.take 32) = none) ∧
    verifyWithOptionsNoPanic modelCurve modelSha undecodableBytes msg0 sig0 runtimeOptions =
      some (false, none) ∧
    VerifyWithOptions modelCurve modelSha undecodableBytes msg0 sig0 runtimeOptions =
      some false :=
  ⟨rfl, rfl, Or.inl (by decide),
    verify_rejects_undecodable modelCurve modelSha undecodableBytes msg0 sig0 runtimeOptions
      fPure fPure [] rfl rfl (Or.inl (by decide))⟩

/-- C11. The cofactored rule is more permissive than the cofactorless rule: for
every public key, message, signature, hash option, context and setting of the
three allow-flags, when verification returns true with `CofactorlessVerify`
true it returns true with `CofactorlessVerify` false. -/
theorem cofactored_more_permissive (C : Curve G) (H : Sha512)
    (publicKey message sig : List Byte) (hash : Nat) (context : List Byte)
    (allowA allowR allowNC : Bool)
    (h : VerifyWithOptions C H publicKey message sig
      { Hash := hash
        Context := context
        Verify := some
          { AllowSmallOrderA := allowA
            AllowSmallOrderR := allowR
            AllowNonCanonicalAR := allowNC
            CofactorlessVerify := true } } = some true) :
    VerifyWithOptions C H publicKey message sig
      { Hash := hash
        Context := context
        Verify := some
          { AllowSmallOrderA := allowA
            AllowSmallOrderR := allowR
            AllowNonCanonicalAR := allowNC
            CofactorlessVerify := false } } = some true := by
  exact cofactorless_imp_cofactored C H publicKey message sig
    ⟨hash, context, some ⟨allowA, allowR, allowNC, true⟩⟩
    ⟨hash, context, some ⟨allowA, allowR, allowNC, false⟩⟩ rfl rfl rfl rfl rfl rfl rfl h

theorem cofactored_more_permissive_witness :
    VerifyWithOptions modelCurve modelSha pub0 msg0 sig0
      { Hash := 0
        Context := []
        Verify := some
          { AllowSmallOrderA := false
            AllowSmallOrderR := false
            AllowNonCanonicalAR := false
            CofactorlessVerify := true } } = some true ∧
    VerifyWithOptions modelCurve modelSha pub0 msg0 sig0
      { Hash := 0
        Context := []
        Verify := some
          { AllowSmallOrderA := false
            AllowSmallOrderR := false
            AllowNonCanonicalAR := false
            CofactorlessVerify := false } } = some true ∧
    -- the converse fails: `R` an 8-torsion point, `A` the neutral element, `S = 0`
    VerifyWithOptions modelCurve modelSha zeroBytes msg0 (leBytes 32 L ++ zeroBytes)
      { Hash := 0
        Context := []
        Verify := some
          { AllowSmallOrderA := true
            AllowSmallOrderR := true
            AllowNonCanonicalAR := true
            CofactorlessVerify := false } } = some true ∧
    VerifyWithOptions modelCurve modelSha zeroBytes msg0 (leBytes 32 L ++ zeroBytes)
      runtimeOptions = some false :=
  ⟨by decide!, cofactored_more_permissive modelCurve modelSha pub0 msg0 sig0 0 [] false false
    false (by decide!), by decide!, by decide!⟩

end Claims

section SigningClaims

variable {G : Type} [AddCommGroup G]

/-- C12. `PrivateKey.Sign` computes the RFC 8032 signature: for a 64-byte
private key `priv = seed ‖ A`, a message `M` and a valid mode, with
`h = SHA-512(seed)`, `a = clamp(h[0..32])` (the clamp of the specification),
`r = SHA-512(dom2 ‖ h[32..64] ‖ M) mod ℓ`, `R = compress(r·B)`,
`k = SHA-512(dom2 ‖ R ‖ A ‖ M) mod ℓ` and `S = (r + k·a) mod ℓ`, the result is
the 64 bytes `R ‖ S`, `S` in 32 little-endian bytes; `S < ℓ` and the top three
bits of the last byte are zero. -/
theorem sign_rfc8032 {ρ : Type} (C : Curve G) (H : Sha512) (rand : ρ)
    (priv message : List Byte) (opts : Options) (f0 f : dom2Flag) (context dom : List Byte)
    (digest R : List Byte) (a r k S : Nat)
    (hpriv : priv.length = 64)
    (hv : opts.verify = .ok (f0, context))
    (hh : checkHash f0 message opts.HashFunc = .ok f)
    (hdom : writeDom2 f context = some dom)
    (hdigest : digest = H.sum (priv.take 32))
    (ha : a = leValue (clampSpec (digest.take 32)))
    (hr : r = leValue (H.sum (dom ++ digest.drop 32 ++ message)) % L)
    (hR : R = C.compress (r • C.B))
    (hk : k = leValue (H.sum (dom ++ R ++ priv.drop 32 ++ message)) % L)
    (hS : S = (r + k * a) % L) :
    PrivateKey.Sign C H priv rand message (.options opts) = some (.ok (R ++ leBytes 32 S)) ∧
    (R ++ leBytes 32 S).length = 64 ∧ leValue (leBytes 32 S) = S ∧ S < L ∧
    (∀ top, (R ++ leBytes 32 S)[63]? = some top → top &&& 224 = 0) := by
  have hSlt : S < L := by rw [hS]; exact Nat.mod_lt _ (by decide)
  have hRlen : R.length = 32 := by rw [hR]; exact C.compress_length _
  have hd32 : 32 ≤ (H.sum (priv.take 32)).length := by rw [H.size]; norm_num
  refine ⟨?_, ?_, ?_, hSlt, ?_⟩
  · rw [Sign_ok C H rand priv message opts f0 f context dom hpriv hv hh hdom,
      take_clamped _ hd32, drop_clamped, scalar_muladd, hS, hk, hR, hr, ha, hdigest]
  · rw [List.length_append, hRlen, length_leBytes]
  · rw [leValue_leBytes]
    apply Nat.mod_eq_of_lt
    have : L < 256 ^ 32 := by decide
    omega
  · intro top hget
    have h31 : (leBytes 32 S)[31]? = some top := by
      have hd : (R ++ leBytes 32 S).drop 32 = leBytes 32 S := by
        rw [← hRlen]; exact List.drop_left _ _
      rw [← hd, List.getElem?_drop]
      exact hget
    exact top_bits_of_lt_order S hSlt top h31

theorem sign_rfc8032_witness :
    priv0.length = 64 ∧
    defaultPureOptions.verify = .ok (fPure, []) ∧
    checkHash fPure msg0 defaultPureOptions.HashFunc = .ok fPure ∧
    writeDom2 fPure [] = some [] ∧
    PrivateKey.Sign modelCurve modelSha priv0 () msg0 (.options defaultPureOptions) =
      some (.ok (modelCurve.compress ((leValue (modelSha.sum ([] ++
          (modelSha.sum (priv0.take 32)).drop 32 ++ msg0)) % L) • modelCurve.B) ++
        leBytes 32 ((leValue (modelSha.sum ([] ++
            (modelSha.sum (priv0.take 32)).drop 32 ++ msg0)) % L +
          leValue (modelSha.sum ([] ++ modelCurve.compress ((leValue (modelSha.sum ([] ++
            (modelSha.sum (priv0.take 32)).drop 32 ++ msg0)) % L) • modelCurve.B) ++
            priv0.drop 32 ++ msg0)) % L *
          leValue (clampSpec ((modelSha.sum (priv0.take 32)).take 32))) % L))) ∧
    -- the numbers of this instance
    leValue (clampSpec ((modelSha.sum (priv0.take 32)).take 32)) = 2 ^ 254 + 32 ∧
    leValue (sig0.drop 32) = (35 + 67 * (2 ^ 254 + 32)) % L :=
  ⟨by decide!, rfl, rfl, rfl,
    (sign_rfc8032 modelCurve modelSha () priv0 msg0 defaultPureOptions fPure fPure [] []
      _ _ _ _ _ _ (by decide!) rfl rfl rfl rfl rfl rfl rfl rfl rfl).1,
    by decide!, by decide!⟩

/-- C13. Signing is deterministic and ignores `rand`: two calls of
`PrivateKey.Sign` that differ only in the `rand` argument (of whatever kind)
return the same result, signature or error; and the result depends on the
options only through `Hash` and `Context`, so it is a function of the private
key, the message, the hash option and the context. -/
theorem sign_ignores_rand {ρ σ : Type} (C : Curve G) (H : Sha512) (priv message : List Byte) :
    (∀ (opts : SignerOpts) (rand1 : ρ) (rand2 : σ),
      PrivateKey.Sign C H priv rand1 message opts =
        PrivateKey.Sign C H priv rand2 message opts) ∧
    (∀ (opts1 opts2 : Options) (rand1 : ρ) (rand2 : σ), opts1.Hash = opts2.Hash →
      opts1.Context = opts2.Context →
      PrivateKey.Sign C H priv rand1 message (.options opts1) =
        PrivateKey.Sign C H priv rand2 message (.options opts2)) := by
  refine ⟨fun _ _ _ => rfl, ?_⟩
  intro opts1 opts2 rand1 rand2 hhash hctx
  have hv : opts1.verify = opts2.verify := by
    unfold Options.verify
    rw [hctx]
  unfold PrivateKey.Sign
  simp only [hv, SignerOpts.HashFunc, Options.HashFunc, hhash]

/-- C14. Key derivation: `NewKeyFromSeed` panics exactly when the seed is not
32 bytes long; for a 32-byte seed `s` it returns 64 bytes, the first 32 equal
to `s` and the last 32 equal to the compressed encoding of
`clamp(SHA-512(s)[0..32])·B`, the clamp being that of the specification. -/
theorem NewKeyFromSeed_derivation (C : Curve G) (H : Sha512) (seed : List Byte) :
    (NewKeyFromSeed C H seed = none ↔ seed.length ≠ 32) ∧
    (seed.length = 32 →
      ∃ sk, NewKeyFromSeed C H seed = some sk ∧ sk.length = 64 ∧ sk.take 32 = seed ∧
        sk.drop 32 = C.compress (leValue (clampSpec ((H.sum seed).take 32)) • C.B)) := by
  have hd32 : 32 ≤ (H.sum seed).length := by rw [H.size]; norm_num
  have hsome : seed.length = 32 → NewKeyFromSeed C H seed =
      some (seed ++ C.compress (leValue (clampSpec ((H.sum seed).take 32)) • C.B)) := by
    intro hlen
    have h32 : ((clamped (H.sum seed)).take 32).length = 32 := by
      simp [length_clamped, H.size]
    have hbits : Scalar.FromBits ((clamped (H.sum seed)).take 32) =
        some (leValue ((clamped (H.sum seed)).take 32)) := by
      simp [Scalar.FromBits, h32]
    unfold NewKeyFromSeed
    simp only [clamped] at hbits
    simp only [SeedSize, hlen, ne_eq, not_true_eq_false, if_false, hbits, Curve.BasepointMul]
    rw [← take_clamped _ hd32]
    rfl
  constructor
  · constructor
    · intro hnone hlen
      rw [hsome hlen] at hnone
      cases hnone
    · intro hlen
      unfold NewKeyFromSeed
      simp [SeedSize, hlen]
  · intro hlen
    refine ⟨_, hsome hlen, ?_, ?_, ?_⟩
    · rw [List.length_append, hlen, C.compress_length]
    · rw [← hlen]; exact List.take_left seed _
    · rw [← hlen]; exact List.drop_left seed _

/-- C15. Clamping. For a 64-byte digest `d`, the three statements of the code
(`clamped`) clear bits 0, 1, 2 of byte 0, clear bit 7 and set bit 6 of byte 31
and leave every other bit and the length unchanged; the first 32 bytes then
read as a multiple of 8 in `[2^254, 2^255)`. `NewKeyFromSeed` (on a seed whose
digest is `d`) and `PrivateKey.Sign` (on a key whose seed has digest `d`) both
use exactly this function of `d`: the first multiplies the base point by the
clamped value, the second computes `S` from the same value and its nonce from
the untouched upper half. -/
theorem clamp_shared (ρ : Type) (C : Curve G) (H : Sha512) (d : List Byte)
    (hd : d.length = 64) :
    (clamped d).length = 64 ∧
    (∀ i j, j < 8 → ((clamped d).getD i 0).val.testBit j =
      if i = 0 ∧ j < 3 then false
      else if i = 31 ∧ j = 7 then false
      else if i = 31 ∧ j = 6 then true
      else (d.getD i 0).val.testBit j) ∧
    (clamped d).take 32 = clampSpec (d.take 32) ∧ (clamped d).drop 32 = d.drop 32 ∧
    leValue ((clamped d).take 32) % 8 = 0 ∧ 2 ^ 254 ≤ leValue ((clamped d).take 32) ∧
    leValue ((clamped d).take 32) < 2 ^ 255 ∧
    (∀ seed, seed.length = 32 → H.sum seed = d →
      NewKeyFromSeed C H seed =
        some (seed ++ C.compress (leValue ((clamped d).take 32) • C.B))) ∧
    (∀ (rand : ρ) (priv message : List Byte) (opts : Options) (f0 f : dom2Flag)
      (context dom : List Byte), priv.length = 64 → H.sum (priv.take 32) = d →
      opts.verify = .ok (f0, context) → checkHash f0 message opts.HashFunc = .ok f →
      writeDom2 f context = some dom →
      ∃ r k, r = leValue (H.sum (dom ++ (clamped d).drop 32 ++ message)) % L ∧
        k = leValue (H.sum (dom ++ C.compress (r • C.B) ++ priv.drop 32 ++ message)) % L ∧
        PrivateKey.Sign C H priv rand message (.options opts) =
          some (.ok (C.compress (r • C.B) ++
            leBytes 32 ((k * (leValue ((clamped d).take 32) % L) % L + r) % L)))) := by
  have hd32 : 32 ≤ d.length := by omega
  obtain ⟨h8, hlo, hhi⟩ := clamped_scalar d hd32
  refine ⟨by rw [length_clamped, hd], fun i j hj => testBit_clamped d hd32 i j hj,
    take_clamped d hd32, drop_clamped d, h8, hlo, hhi, ?_, ?_⟩
  · intro seed hlen hsum
    have h32 : ((clamped (H.sum seed)).take 32).length = 32 := by
      simp [length_clamped, H.size]
    have hbits : Scalar.FromBits ((clamped (H.sum seed)).take 32) =
        some (leValue ((clamped (H.sum seed)).take 32)) := by
      simp [Scalar.FromBits, h32]
    rw [← hsum]
    unfold NewKeyFromSeed
    simp only [clamped] at hbits ⊢
    simp only [SeedSize, hlen, ne_eq, not_true_eq_false, if_false, hbits, Curve.BasepointMul]
  · intro rand priv message opts f0 f context dom hpriv hsum hv hh hdom
    refine ⟨_, _, rfl, rfl, ?_⟩
    rw [← hsum]
    exact Sign_ok C H rand priv message opts f0 f context dom hpriv hv hh hdom

/-- The instance of C15 at the digest of `seed0`: the clamped value is
`2^254 + 32` (the digest of the toy hash is the number 32). -/
theorem clamp_shared_witness :
    (modelSha.sum seed0).length = 64 ∧
    leValue ((clamped (modelSha.sum seed0)).take 32) = 2 ^ 254 + 32 ∧
    leValue ((clamped (modelSha.sum seed0)).take 32) % 8 = 0 ∧
    NewKeyFromSeed modelCurve modelSha seed0 =
      some (seed0 ++ modelCurve.compress
        (leValue ((clamped (modelSha.sum seed0)).take 32) • modelCurve.B)) :=
  ⟨by decide!, by decide!,
    (clamp_shared Unit modelCurve modelSha (modelSha.sum seed0) (by decide!)).2.2.2.2.1,
    (clamp_shared Unit modelCurve modelSha (modelSha.sum seed0)
      (by decide!)).2.2.2.2.2.2.2.1 seed0 (by decide) rfl⟩

/-- C16. Mode selection. Whenever `Options.verify` followed by `checkHash`
accepts the options and the message, the context is at most 255 bytes and the
hash is 0 or SHA-512, and the flag is: pure (for which `writeDom2` writes
nothing) when `Hash = 0` and the context is empty; ctx, the byte 0, when
`Hash = 0` and the context has 1..255 bytes; ph, the byte 1, when
`Hash = SHA-512`, with a 64-byte message and any context of 0..255 bytes. The
context handed on is `Context` itself. -/
theorem mode_selection (opts : Options) (message : List Byte) (f0 f : dom2Flag)
    (context : List Byte)
    (hv : opts.verify = .ok (f0, context))
    (hh : checkHash f0 message opts.HashFunc = .ok f) :
    context = opts.Context ∧ opts.Context.length ≤ 255 ∧
    (opts.Hash = 0 ∨ opts.Hash = cryptoSHA512) ∧
    (opts.Hash = 0 → opts.Context = [] → f = fPure ∧ writeDom2 f context = some []) ∧
    (opts.Hash = 0 → 1 ≤ opts.Context.length → f = fCtx ∧ f.val = 0) ∧
    (opts.Hash = cryptoSHA512 → f = fPh ∧ f.val = 1 ∧ message.length = 64) := by
  have hctx : opts.Context.length ≤ 255 := by
    by_contra hgt
    have h0 : opts.Context.length > 0 := by omega
    have h1 : opts.Context.length > ContextMaxSize := by unfold ContextMaxSize; omega
    simp [Options.verify, h0, h1] at hv
  have hv0 : f0 = (if opts.Context.length > 0 then fCtx else fPure) ∧
      context = opts.Context := by
    unfold Options.verify at hv
    by_cases h0 : opts.Context.length > 0
    · have h1 : ¬ opts.Context.length > ContextMaxSize := by unfold ContextMaxSize; omega
      simp only [h0, h1, if_true, if_false, Except.ok.injEq, Prod.mk.injEq] at hv
      exact ⟨by rw [if_pos h0]; exact hv.1.symm, hv.2.symm⟩
    · have hnil : opts.Context = [] := List.length_eq_zero.mp (by omega)
      simp only [h0, if_false, Except.ok.injEq, Prod.mk.injEq] at hv
      exact ⟨by rw [if_neg h0]; exact hv.1.symm, by rw [hnil]; exact hv.2.symm⟩
  unfold checkHash Options.HashFunc at hh
  refine ⟨hv0.2, hctx, ?_, ?_, ?_, ?_⟩
  · by_cases h7 : opts.Hash = cryptoSHA512
    · exact Or.inr h7
    · by_cases h0 : opts.Hash = 0
      · exact Or.inl h0
      · simp [h7, h0] at hh
  · intro h0 hnil
    simp only [h0, show ¬ (0 = cryptoSHA512) from by decide, if_false, if_true,
      Except.ok.injEq] at hh
    have hf : f = fPure := by
      rw [← hh, hv0.1, hnil]; rfl
    exact ⟨hf, by rw [hf]; rfl⟩
  · intro h0 hlen
    simp only [h0, show ¬ (0 = cryptoSHA512) from by decide, if_false, if_true,
      Except.ok.injEq] at hh
    have hf : f = fCtx := by
      rw [← hh, hv0.1, if_pos (by omega)]
    exact ⟨hf, by rw [hf]; rfl⟩
  · intro h7
    by_cases hm : message.length = 64
    · simp only [h7, hm, if_true, ne_eq, not_true_eq_false, if_false, Except.ok.injEq] at hh
      exact ⟨hh.symm, by rw [← hh]; rfl, hm⟩
    · simp [h7, hm] at hh

/-- The instance of C16 with `Hash = SHA-512`, an empty context and a 64-byte
message: the flag is ph. The other two modes are evaluated next to it. -/
theorem mode_selection_witness :
    (⟨cryptoSHA512, [], none⟩ : Options).verify = .ok (fPure, []) ∧
    checkHash fPure (List.replicate 64 5) cryptoSHA512 = .ok fPh ∧
    ((fPh : dom2Flag) = fPh ∧ (fPh : dom2Flag).val = 1 ∧
      (List.replicate 64 (5 : Byte)).length = 64) ∧
    (⟨0, [9], none⟩ : Options).verify = .ok (fCtx, [9]) ∧
    checkHash fCtx msg0 0 = .ok fCtx ∧
    defaultPureOptions.verify = .ok (fPure, []) ∧
    checkHash fPure msg0 0 = .ok fPure :=
  ⟨rfl, rfl,
    (mode_selection ⟨cryptoSHA512, [], none⟩ (List.replicate 64 5) fPure fPh [] rfl rfl).2.2.2.2.2
      rfl,
    rfl, rfl, rfl, rfl⟩

/-- C17. The bytes of the dom2 prefix. For the pure flag `writeDom2` writes
nothing, whatever the context; for the ctx and ph flags and a context `c` of at
most 255 bytes it writes the 32 ASCII bytes of "SigEd25519 no Ed25519
collisions", the flag byte (0 for ctx, 1 for ph), one byte whose value is
`len(c)`, then `c`: `34 + len(c)` bytes in all. -/
theorem writeDom2_bytes (c : List Byte) (hc : c.length ≤ 255) :
    (∀ c1 : List Byte, writeDom2 fPure c1 = some []) ∧
    dom2Prefix = dom2PrefixAscii ∧ dom2PrefixAscii.length = 32 ∧
    writeDom2 fCtx c = some (dom2PrefixAscii ++ [0, Fin.ofNat c.length] ++ c) ∧
    writeDom2 fPh c = some (dom2PrefixAscii ++ [1, Fin.ofNat c.length] ++ c) ∧
    (Fin.ofNat c.length : Byte).val = c.length ∧
    (dom2PrefixAscii ++ [(0 : Byte), Fin.ofNat c.length] ++ c).length = 34 + c.length ∧
    (dom2PrefixAscii ++ [(1 : Byte), Fin.ofNat c.length] ++ c).length = 34 + c.length := by
  have hpre : dom2Prefix = dom2PrefixAscii := by decide
  have hlen : dom2PrefixAscii.length = 32 := by decide
  have hgt : ¬ c.length > ContextMaxSize := by unfold ContextMaxSize; omega
  refine ⟨fun c1 => by simp [writeDom2], hpre, hlen, ?_, ?_, ?_, ?_, ?_⟩
  · unfold writeDom2
    rw [if_neg (by decide)]
    simp only [hgt, if_false, hpre]
    rfl
  · unfold writeDom2
    rw [if_neg (by decide)]
    simp only [hgt, if_false, hpre]
    rfl
  · simp only [Fin.ofNat, Fin.val_mk]
    omega
  · simp only [List.length_append, hlen, List.length_cons, List.length_nil]
  · simp only [List.length_append, hlen, List.length_cons, List.length_nil]

/-- The instance of C17 at the 3-byte context `01 02 03`. -/
theorem writeDom2_bytes_witness :
    msg0.length ≤ 255 ∧
    writeDom2 fCtx msg0 = some (dom2PrefixAscii ++ [0, 3, 1, 2, 3]) ∧
    (writeDom2 fPh msg0).map List.length = some 37 :=
  ⟨by decide, (writeDom2_bytes msg0 (by decide)).2.2.2.1, by decide⟩

/-- C18. Sign-side errors. `PrivateKey.Sign` with a `*Options` returns an error
(and no signature) if and only if `len(Context) > 255`, or `Hash = SHA-512` and
`len(message) ≠ 64`, or `Hash` is neither 0 nor SHA-512, or `len(priv) ≠ 64`; in
every other case it returns a signature of exactly 64 bytes and no error, so it
never panics and never fails to deserialise a scalar. `Sign`, which panics on
an error, panics exactly when the key is not 64 bytes long. -/
theorem sign_errors {ρ : Type} (C : Curve G) (H : Sha512) (rand : ρ) (priv message : List Byte)
    (opts : Options) :
    ((∃ e, PrivateKey.Sign C H priv rand message (.options opts) = some (.error e)) ↔
      (opts.Context.length > 255 ∨ (opts.Hash = cryptoSHA512 ∧ message.length ≠ 64) ∨
        (opts.Hash ≠ 0 ∧ opts.Hash ≠ cryptoSHA512) ∨ priv.length ≠ 64)) ∧
    (¬ (opts.Context.length > 255 ∨ (opts.Hash = cryptoSHA512 ∧ message.length ≠ 64) ∨
        (opts.Hash ≠ 0 ∧ opts.Hash ≠ cryptoSHA512) ∨ priv.length ≠ 64) →
      ∃ sig, PrivateKey.Sign C H priv rand message (.options opts) = some (.ok sig) ∧
        sig.length = 64) ∧
    (Sign C H priv message = none ↔ priv.length ≠ 64) ∧
    (priv.length = 64 → ∃ sig, Sign C H priv message = some sig ∧ sig.length = 64) := by
  have hgood : ¬ (opts.Context.length > 255 ∨ (opts.Hash = cryptoSHA512 ∧ message.length ≠ 64) ∨
      (opts.Hash ≠ 0 ∧ opts.Hash ≠ cryptoSHA512) ∨ priv.length ≠ 64) →
      opts.Context.length ≤ 255 ∧
      (opts.Hash = 0 ∨ (opts.Hash = cryptoSHA512 ∧ message.length = 64)) ∧
      priv.length = 64 := by
    intro hn
    simp only [not_or, not_and_or, not_not, not_lt] at hn
    obtain ⟨h1, h2, h3, h4⟩ := hn
    refine ⟨by omega, ?_, h4⟩
    rcases h3 with h0 | h7
    · exact Or.inl h0
    · rcases h2 with h2 | h2
      · exact absurd h7 h2
      · exact Or.inr ⟨h7, h2⟩
  have hok : ¬ (opts.Context.length > 255 ∨ (opts.Hash = cryptoSHA512 ∧ message.length ≠ 64) ∨
      (opts.Hash ≠ 0 ∧ opts.Hash ≠ cryptoSHA512) ∨ priv.length ≠ 64) →
      ∃ sig, PrivateKey.Sign C H priv rand message (.options opts) = some (.ok sig) ∧
        sig.length = 64 := by
    intro hn
    obtain ⟨hctx, hhash, hpriv⟩ := hgood hn
    exact Sign_total C H rand priv message opts hctx hhash hpriv
  have hpure : ∀ m : List Byte, defaultPureOptions.Context.length ≤ 255 ∧
      (defaultPureOptions.Hash = 0 ∨
        (defaultPureOptions.Hash = cryptoSHA512 ∧ m.length = 64)) :=
    fun m => ⟨by decide, Or.inl rfl⟩
  refine ⟨⟨?_, ?_⟩, hok, ⟨?_, ?_⟩, ?_⟩
  · rintro ⟨e, he⟩
    by_contra hn
    obtain ⟨sig, hsig, _⟩ := hok hn
    rw [hsig] at he
    cases he
  · intro hbad
    by_cases hopt : opts.Context.length > 255 ∨
        (opts.Hash = cryptoSHA512 ∧ message.length ≠ 64) ∨
        (opts.Hash ≠ 0 ∧ opts.Hash ≠ cryptoSHA512)
    · exact Sign_refused C H rand priv message opts hopt
    · have hpriv : priv.length ≠ 64 := by
        rcases hbad with h | h | h | h
        · exact absurd (Or.inl h) hopt
        · exact absurd (Or.inr (Or.inl h)) hopt
        · exact absurd (Or.inr (Or.inr h)) hopt
        · exact h
      have hvalid : opts.Context.length ≤ 255 ∧
          (opts.Hash = 0 ∨ (opts.Hash = cryptoSHA512 ∧ message.length = 64)) := by
        simp only [not_or, not_and_or, not_not, not_lt] at hopt
        obtain ⟨h1, h2, h3⟩ := hopt
        refine ⟨by omega, ?_⟩
        rcases h3 with h0 | h7
        · exact Or.inl h0
        · rcases h2 with h2 | h2
          · exact absurd h7 h2
          · exact Or.inr ⟨h7, h2⟩
      obtain ⟨hv, hh⟩ := options_accepted opts message hvalid.1 hvalid.2
      exact ⟨_, Sign_bad_key C H rand priv message opts _ _ _ hv hh hpriv⟩
  · intro hnone hpriv
    obtain ⟨sig, hsig, _⟩ :=
      Sign_total C H () priv message defaultPureOptions (hpure message).1 (hpure message).2 hpriv
    unfold Sign at hnone
    rw [hsig] at hnone
    cases hnone
  · intro hpriv
    obtain ⟨hv, hh⟩ := options_accepted defaultPureOptions message (hpure message).1
      (hpure message).2
    unfold Sign
    rw [Sign_bad_key C H () priv message defaultPureOptions _ _ _ hv hh hpriv]
  · intro hpriv
    obtain ⟨sig, hsig, hlen⟩ :=
      Sign_total C H () priv message defaultPureOptions (hpure message).1 (hpure message).2 hpriv
    refine ⟨sig, ?_, hlen⟩
    unfold Sign
    rw [hsig]

end SigningClaims

section VerifyClaims

variable {G : Type} [AddCommGroup G] [DecidableEq G]

/-- C19. The doc comments of `Verify` and `VerifyWithOptions` promise a panic
when `len(publicKey)` is not `PublicKeySize`. The code does otherwise: for a
public key of any other length and valid options (a context of at most 255
bytes; `Hash` 0, or SHA-512 with a 64-byte message), whatever the message and
the signature, `verifyWithOptionsNoPanic` returns `(false, nil)`, so
`VerifyWithOptions` returns false; and `Verify` returns false for every
message. -/
theorem verify_wrong_size_public_key (C : Curve G) (H : Sha512)
    (publicKey message sig : List Byte) (opts : Options)
    (hpk : publicKey.length ≠ PublicKeySize)
    (hctx : opts.Context.length ≤ 255)
    (hhash : opts.Hash = 0 ∨ (opts.Hash = cryptoSHA512 ∧ message.length = 64)) :
    verifyWithOptionsNoPanic C H publicKey message sig opts = some (false, none) ∧
    VerifyWithOptions C H publicKey message sig opts = some false ∧
    Verify C H publicKey message sig = some false := by
  obtain ⟨hv, hh⟩ := options_accepted opts message hctx hhash
  have hno := verifyNoPanic_bad_key C H publicKey message sig opts _ _ _ hv hh hpk
  obtain ⟨hv0, hh0⟩ := options_accepted defaultPureOptions message (by decide) (Or.inl rfl)
  have hno0 := verifyNoPanic_bad_key C H publicKey message sig defaultPureOptions _ _ _ hv0 hh0
    hpk
  exact ⟨hno, VerifyWithOptions_of_noPanic C H publicKey message sig opts false hno,
    VerifyWithOptions_of_noPanic C H publicKey message sig defaultPureOptions false hno0⟩

/-- The instance of C19 with the first 31 bytes of a public key and the
signature made by its private key; also with an empty public key, and with an
empty signature, which is refused before the public key is looked at. -/
theorem verify_wrong_size_public_key_witness :
    (pub0.take 31).length ≠ PublicKeySize ∧
    VerifyWithOptions modelCurve modelSha (pub0.take 31) msg0 sig0 defaultPureOptions =
      some false ∧
    Verify modelCurve modelSha (pub0.take 31) msg0 sig0 = some false ∧
    Verify modelCurve modelSha [] msg0 sig0 = some false ∧
    Verify modelCurve modelSha (pub0.take 31) msg0 [] = some false ∧
    Verify modelCurve modelSha pub0 msg0 sig0 = some true :=
  ⟨by decide!,
    (verify_wrong_size_public_key modelCurve modelSha (pub0.take 31) msg0 sig0
      defaultPureOptions (by decide!) (by decide) (Or.inl rfl)).2.1,
    by decide!, by decide!, by decide!, by decide!⟩

/-- C20. For every public key (the 32-byte ones among them), any message and a
`sig` of any length, `VerifyWithOptions` panics if and only if the options are
invalid: `len(Context) > 255`, or `Hash = SHA-512` and `len(message) ≠ 64`, or
`Hash` neither 0 nor SHA-512. The panic is that of a returned error. With valid
options `verifyWithOptionsNoPanic` returns a boolean and a nil error, and
`VerifyWithOptions` returns that boolean. -/
theorem verify_panics_iff_invalid_options (C : Curve G) (H : Sha512)
    (publicKey message sig : List Byte) (opts : Options) :
    (VerifyWithOptions C H publicKey message sig opts = none ↔
      (opts.Context.length > 255 ∨ (opts.Hash = cryptoSHA512 ∧ message.length ≠ 64) ∨
        (opts.Hash ≠ 0 ∧ opts.Hash ≠ cryptoSHA512))) ∧
    ((opts.Context.length > 255 ∨ (opts.Hash = cryptoSHA512 ∧ message.length ≠ 64) ∨
        (opts.Hash ≠ 0 ∧ opts.Hash ≠ cryptoSHA512)) →
      ∃ e, verifyWithOptionsNoPanic C H publicKey message sig opts = some (false, some e)) ∧
    (¬ (opts.Context.length > 255 ∨ (opts.Hash = cryptoSHA512 ∧ message.length ≠ 64) ∨
        (opts.Hash ≠ 0 ∧ opts.Hash ≠ cryptoSHA512)) →
      ∃ b, verifyWithOptionsNoPanic C H publicKey message sig opts = some (b, none) ∧
        VerifyWithOptions C H publicKey message sig opts = some b) := by
  have hgood : ¬ (opts.Context.length > 255 ∨
      (opts.Hash = cryptoSHA512 ∧ message.length ≠ 64) ∨
      (opts.Hash ≠ 0 ∧ opts.Hash ≠ cryptoSHA512)) →
      ∃ b, verifyWithOptionsNoPanic C H publicKey message sig opts = some (b, none) ∧
        VerifyWithOptions C H publicKey message sig opts = some b := by
    intro hopt
    have hvalid : opts.Context.length ≤ 255 ∧
        (opts.Hash = 0 ∨ (opts.Hash = cryptoSHA512 ∧ message.length = 64)) := by
      simp only [not_or, not_and_or, not_not, not_lt] at hopt
      obtain ⟨h1, h2, h3⟩ := hopt
      refine ⟨by omega, ?_⟩
      rcases h3 with h0 | h7
      · exact Or.inl h0
      · rcases h2 with h2 | h2
        · exact absurd h7 h2
        · exact Or.inr ⟨h7, h2⟩
    obtain ⟨hv, hh⟩ := options_accepted opts message hvalid.1 hvalid.2
    obtain ⟨b, hb⟩ := verifyNoPanic_total C H publicKey message sig opts _ _ _ hv hh
    exact ⟨b, hb, VerifyWithOptions_of_noPanic C H publicKey message sig opts b hb⟩
  refine ⟨⟨?_, ?_⟩, verifyNoPanic_refused C H publicKey message sig opts, hgood⟩
  · intro hnone
    by_contra hopt
    obtain ⟨b, _, hb⟩ := hgood hopt
    rw [hb] at hnone
    cases hnone
  · intro hbad
    obtain ⟨e, he⟩ := verifyNoPanic_refused C H publicKey message sig opts hbad
    unfold VerifyWithOptions
    rw [he]

/-- The instance of C20 at a genuine public key: a 256-byte context panics,
a valid signature gives true, and an empty, a 63-byte and an undecodable
signature give false. -/
theorem verify_panics_iff_invalid_options_witness :
    pub0.length = PublicKeySize ∧
    VerifyWithOptions modelCurve modelSha pub0 msg0 sig0
      ⟨0, List.replicate 256 0, none⟩ = none ∧
    VerifyWithOptions modelCurve modelSha pub0 msg0 sig0 ⟨cryptoSHA512, [], none⟩ = none ∧
    VerifyWithOptions modelCurve modelSha pub0 msg0 sig0 ⟨5, [], none⟩ = none ∧
    VerifyWithOptions modelCurve modelSha pub0 msg0 sig0 defaultPureOptions = some true ∧
    VerifyWithOptions modelCurve modelSha pub0 msg0 [] defaultPureOptions = some false ∧
    VerifyWithOptions modelCurve modelSha pub0 msg0 (sig0.take 63) defaultPureOptions =
      some false ∧
    VerifyWithOptions modelCurve modelSha pub0 msg0 (undecodableBytes ++ zeroBytes)
      defaultPureOptions = some false :=
  ⟨by decide!,
    (verify_panics_iff_invalid_options modelCurve modelSha pub0 msg0 sig0
      ⟨0, List.replicate 256 0, none⟩).1.mpr (Or.inl (by decide!)),
    by decide!, by decide!, by decide!, by decide!, by decide!, by decide!⟩

end VerifyClaims

section OrderClaims

variable {G : Type} [AddCommGroup G] [DecidableEq G]

/-- C21, as amended. Verification runs its checks in the same order on all
inputs: the steps executed are always a non-empty initial part of the order of
the source text (decode `A`, small-order `A`, `H(R,A,m)`, `S` minimal, decode
`R`, small-order `R`, canonical `A`/`R`, scalar `S`, equation), and the
instrumented function returns what `verifyWithOptionsNoPanic` returns. A return
on the small-order test of `R` or on the canonicity test happens after both `A`
and `R` were decoded; a return on the small-order test of `A` happens after `A`
was decoded and before `R` is decoded. -/
theorem verify_check_order (C : Curve G) (H : Sha512) (f : dom2Flag) (context : List Byte)
    (vOpts : VerifyOptions) (publicKey message sig : List Byte) :
    (verifyCheckedSteps C H f context vOpts publicKey message sig).2 =
      verifyChecked C H f context vOpts publicKey message sig ∧
    (∀ (opts : Options) (f0 : dom2Flag), opts.verify = .ok (f0, context) →
      checkHash f0 message opts.HashFunc = .ok f → opts.vOpts = vOpts → sig.length = 64 →
      (∀ top, sig[63]? = some top → top &&& 224 = 0) →
      verifyWithOptionsNoPanic C H publicKey message sig opts =
        (verifyCheckedSteps C H f context vOpts publicKey message sig).2) ∧
    (verifyCheckedSteps C H f context vOpts publicKey message sig).1 <+: verifyOrder ∧
    (verifyCheckedSteps C H f context vOpts publicKey message sig).1 ≠ [] ∧
    (((verifyCheckedSteps C H f context vOpts publicKey message sig).1.getLast? =
          some .smallOrderR ∨
        (verifyCheckedSteps C H f context vOpts publicKey message sig).1.getLast? =
          some .canonicalAR) →
      VerifyStep.decodeA ∈ (verifyCheckedSteps C H f context vOpts publicKey message sig).1 ∧
      VerifyStep.decodeR ∈ (verifyCheckedSteps C H f context vOpts publicKey message sig).1) ∧
    ((verifyCheckedSteps C H f context vOpts publicKey message sig).1.getLast? =
        some .smallOrderA →
      VerifyStep.decodeA ∈ (verifyCheckedSteps C H f context vOpts publicKey message sig).1 ∧
      VerifyStep.decodeR ∉ (verifyCheckedSteps C H f context vOpts publicKey message sig).1) := by
  obtain ⟨hres, n, h1, h9, hsteps⟩ :=
    verifyCheckedSteps_spec C H f context vOpts publicKey message sig
  refine ⟨hres, ?_, ?_⟩
  · intro opts f0 hv hh hvo hsig htop
    rw [hres, ← hvo]
    exact verifyNoPanic_checked C H publicKey message sig opts f0 f context hv hh hsig htop
  · rw [hsteps]
    interval_cases n <;> decide

/-- C21, the claim as it stands fails: with the strict default profile, a public
key that encodes the identity (a small-order point) and a signature whose `R`
does not decode, the function returns on the small-order test of `A`, the second
step, and `R` is never decoded. With `AllowSmallOrderA` set, the same input is
refused three steps later, at the decoding of `R`. -/
theorem verify_small_order_A_returns_before_R_is_decoded :
    verifyCheckedSteps modelCurve modelSha fPure [] defaultVerifyOptions zeroBytes msg0
        (undecodableBytes ++ zeroBytes) =
      ([.decodeA, .smallOrderA], some (false, none)) ∧
    verifyWithOptionsNoPanic modelCurve modelSha zeroBytes msg0 (undecodableBytes ++ zeroBytes)
        defaultPureOptions = some (false, none) ∧
    modelCurve.decompress undecodableBytes = none ∧
    verifyCheckedSteps modelCurve modelSha fPure [] VerifyOptionsFIPS_186_5 zeroBytes msg0
        (undecodableBytes ++ zeroBytes) =
      ([.decodeA, .smallOrderA, .hram, .minimalS, .decodeR], some (false, none)) := by
  refine ⟨by decide!, by decide!, by decide!, by decide!⟩

end OrderClaims

section ProfileClaims

variable {G : Type} [AddCommGroup G] [DecidableEq G]

/-- C22. The preset profiles. The default profile, the one `defaultPureOptions`
points to and the one taken whenever `opts.Verify` is nil, has the four flags
false, and `Verify` is `VerifyWithOptions` with it; `VerifyOptionsRuntime` has
the four flags true; `VerifyOptionsFIPS_186_5` allows small-order `A` and `R`,
refuses non-canonical encodings and is cofactored. -/
theorem preset_profiles (C : Curve G) (H : Sha512) (publicKey message sig : List Byte)
    (hash : Nat) (context : List Byte) :
    defaultPureOptions.Verify = some ⟨false, false, false, false⟩ ∧
    defaultPureOptions.vOpts = ⟨false, false, false, false⟩ ∧
    (⟨hash, context, none⟩ : Options).vOpts = ⟨false, false, false, false⟩ ∧
    verifyWithOptionsNoPanic C H publicKey message sig ⟨hash, context, none⟩ =
      verifyWithOptionsNoPanic C H publicKey message sig
        ⟨hash, context, some ⟨false, false, false, false⟩⟩ ∧
    Verify C H publicKey message sig =
      VerifyWithOptions C H publicKey message sig ⟨0, [], some ⟨false, false, false, false⟩⟩ ∧
    VerifyOptionsRuntime = ⟨true, true, true, true⟩ ∧
    VerifyOptionsFIPS_186_5 = ⟨true, true, false, false⟩ :=
  ⟨rfl, rfl, rfl, rfl, rfl, rfl, rfl⟩

end ProfileClaims

section AccessorClaims

variable {G : Type} [AddCommGroup G]

/-- C23. Key accessors. For a 32-byte seed `s`, `k = NewKeyFromSeed(s)` exists,
`k.Seed()` is `s`, `k.Public()` is `k[32:64]` and `NewKeyFromSeed(k.Seed())` is
`k` again; for every 64-byte private key `Seed()` returns its first 32 bytes and
`Public()` its last 32 bytes. Both return fresh slices and do not write to the
key. -/
theorem key_accessors_round_trip (C : Curve G) (H : Sha512) (seed priv : List Byte) :
    (seed.length = 32 →
      ∃ k, NewKeyFromSeed C H seed = some k ∧ PrivateKey.Seed k = some seed ∧
        PrivateKey.Public k = some (k.drop 32) ∧ (k.drop 32).length = 32 ∧
        (PrivateKey.Seed k).bind (NewKeyFromSeed C H) = some k) ∧
    (priv.length = 64 →
      PrivateKey.Seed priv = some (priv.take 32) ∧
      PrivateKey.Public priv = some (priv.drop 32)) := by
  have hacc : ∀ key : List Byte, key.length = 64 →
      PrivateKey.Seed key = some (key.take 32) ∧ PrivateKey.Public key = some (key.drop 32) := by
    intro key hkey
    constructor
    · unfold PrivateKey.Seed goCopy
      simp [SeedSize, hkey]
    · unfold PrivateKey.Public goCopy sliceFrom
      simp [SeedSize, PublicKeySize, hkey]
  refine ⟨?_, hacc priv⟩
  intro hseed
  have hk := NewKeyFromSeed_some C H seed hseed
  have hklen : (seed ++ C.compress (leValue ((clamped (H.sum seed)).take 32) • C.B)).length =
      64 := by
    rw [List.length_append, hseed, C.compress_length]
  have htake : (seed ++ C.compress (leValue ((clamped (H.sum seed)).take 32) • C.B)).take 32 =
      seed := by
    rw [← hseed]; exact List.take_left seed _
  obtain ⟨hs, hp⟩ := hacc _ hklen
  refine ⟨_, hk, by rw [hs, htake], hp, by simp [C.compress_length, hseed], ?_⟩
  rw [hs, htake]
  exact hk

end AccessorClaims

/-! ## The constants of the curve -/

/-- C24. Each of the eight points `T` of `EIGHT_TORSION` is a valid extended
point: `Z = 1`, the `T` coordinate is `x·y`, and `(x, y)` satisfies
`−x² + y² = 1 + d·x²·y²` in GF(2^255 − 19); and `8·T`, three doublings, is the
identity (`X = 0` and `Y = Z ≠ 0`). -/
theorem eight_torsion_valid :
    curve.EIGHT_TORSION.length = 8 ∧
    ∀ T ∈ curve.EIGHT_TORSION,
      T.Z.val = 1 ∧ T.T.val = field.feMul T.X.val T.Y.val ∧
      curve.OnCurve T.X.val T.Y.val ∧
      T.coords.mulByCofactor.Equal curve.ExtendedPoint.identity = true ∧
      T.coords.mulByCofactor.X = 0 ∧ T.coords.mulByCofactor.Y = T.coords.mulByCofactor.Z ∧
      T.coords.mulByCofactor.Z ≠ 0 := by
  decide!

/-- C25. `constAFFINE_ODD_MULTIPLES_OF_BASEPOINT` has 64 entries, and entry `i`
holds, as field values, the affine Niels form `(y+x, y−x, 2·d·x·y)` of the affine
point `(2i+1)·B`, `B` being `ED25519_BASEPOINT_POINT`: the table is
`[B, 3B, 5B, ..., 127B]`. The affine point is `(X/Z, Y/Z)`, and the inverse of
`Z` used for it is one. -/
theorem affine_odd_multiples_of_basepoint :
    curve.constAFFINE_ODD_MULTIPLES_OF_BASEPOINT.length = 64 ∧
    ∀ i, i < 64 →
      field.feMul (curve.ExtendedPoint.smul (2 * i + 1) curve.ED25519_BASEPOINT_POINT.coords).Z
        (field.feInvert
          (curve.ExtendedPoint.smul (2 * i + 1) curve.ED25519_BASEPOINT_POINT.coords).Z) = 1 ∧
      (curve.constAFFINE_ODD_MULTIPLES_OF_BASEPOINT[i]?).map curve.affineNielsPoint.vals =
        some (curve.affineNiels
          (curve.ExtendedPoint.smul (2 * i + 1) curve.ED25519_BASEPOINT_POINT.coords).affine) := by
  decide!

/-- C26. `ED25519_BASEPOINT_POINT` is the Ed25519 basepoint as a valid extended
point: `Z = 1`, `y = 4/5` (that is `5·y = 4`), `x` is the even root, the `T`
coordinate is `x·y`, and `(x, y)` satisfies `−x² + y² = 1 + d·x²·y²` with
`d = constEDWARDS_D`, all in GF(2^255 − 19). -/
theorem basepoint_valid :
    curve.ED25519_BASEPOINT_POINT.Z.val = 1 ∧
    field.feMul 5 curve.ED25519_BASEPOINT_POINT.Y.val = 4 ∧
    curve.ED25519_BASEPOINT_POINT.X.val % 2 = 0 ∧
    curve.ED25519_BASEPOINT_POINT.T.val =
      field.feMul curve.ED25519_BASEPOINT_POINT.X.val curve.ED25519_BASEPOINT_POINT.Y.val ∧
    curve.OnCurve curve.ED25519_BASEPOINT_POINT.X.val curve.ED25519_BASEPOINT_POINT.Y.val ∧
    curve.edwardsD = curve.constEDWARDS_D.val ∧ field.p = 2 ^ 255 - 19 := by
  decide!

/-- C27. The field constants hold their documented values in GF(2^255 − 19):
`constMINUS_ONE = −1`; `constEDWARDS_D · 121666 = −121665`;
`constEDWARDS_D2 = 2·d`; `constSQRT_AD_MINUS_ONE² = a·d − 1` and
`constINVSQRT_A_MINUS_D² · (a − d) = 1` with `a = −1`;
`constAPLUS2_OVER_FOUR = 121666`, which is `(486662 + 2)/4`. -/
theorem field_constants :
    curve.constMINUS_ONE.val = field.feNeg 1 ∧
    field.feMul curve.constEDWARDS_D.val 121666 = field.feNeg 121665 ∧
    curve.constEDWARDS_D2.val = field.feMul 2 curve.constEDWARDS_D.val ∧
    field.feMul curve.constSQRT_AD_MINUS_ONE.val curve.constSQRT_AD_MINUS_ONE.val =
      field.feSub (field.feMul (field.feNeg 1) curve.constEDWARDS_D.val) 1 ∧
    field.feMul
      (field.feMul curve.constINVSQRT_A_MINUS_D.val curve.constINVSQRT_A_MINUS_D.val)
      (field.feSub (field.feNeg 1) curve.constEDWARDS_D.val) = 1 ∧
    curve.constAPLUS2_OVER_FOUR.val = 121666 ∧
    field.feMul 4 curve.constAPLUS2_OVER_FOUR.val = field.feAdd 486662 2 ∧
    (486662 + 2) / 4 = 121666 ∧ (486662 + 2) % 4 = 0 := by
  decide!

/-- C28. The source comment of `constONE_MINUS_EDWARDS_D_SQUARED` gives the
formula `(1 - (-121665/121666) mod p) pow 2`, the square `(1 − d)²` of the
difference. The limbs hold another value: the constant equals `1 − d²` in
GF(2^255 − 19), with `d = constEDWARDS_D = −121665/121666`, and it differs from
`(1 − d)²`, which is the value of `constEDWARDS_D_MINUS_ONE_SQUARED`. -/
theorem one_minus_edwards_d_squared_contradicts_comment :
    curve.constONE_MINUS_EDWARDS_D_SQUARED.val ≠
      field.feMul (field.feSub 1 curve.constEDWARDS_D.val)
        (field.feSub 1 curve.constEDWARDS_D.val) ∧
    curve.constONE_MINUS_EDWARDS_D_SQUARED.val =
      field.feSub 1 (field.feMul curve.constEDWARDS_D.val curve.constEDWARDS_D.val) ∧
    curve.constEDWARDS_D_MINUS_ONE_SQUARED.val =
      field.feMul (field.feSub 1 curve.constEDWARDS_D.val)
        (field.feSub 1 curve.constEDWARDS_D.val) ∧
    field.feMul curve.constEDWARDS_D.val 121666 = field.feNeg 121665 := by
  decide!

/-- C29. `constEDWARDS_D_MINUS_ONE_SQUARED` equals `(d − 1)²` in GF(2^255 − 19),
where `d = constEDWARDS_D = −121665/121666`. -/
theorem edwards_d_minus_one_squared :
    curve.constEDWARDS_D_MINUS_ONE_SQUARED.val =
      field.feMul (field.feSub curve.constEDWARDS_D.val 1)
        (field.feSub curve.constEDWARDS_D.val 1) ∧
    field.feMul curve.constEDWARDS_D.val 121666 = field.feNeg 121665 := by
  decide!

section LookupClaims

variable {G : Type} [AddCommGroup G]

/-- C30. The constant-time scan equals direct selection: for every table `tbl`
and every digit `x` in `[-8, 8]`, `tbl.Lookup(x)` is the identity if `x = 0`,
`tbl[x-1]` if `x > 0` and the negation of `tbl[|x|-1]` if `x < 0`; hence
`Lookup(-x)` is the negation of `Lookup(x)`, and for a table holding `j·P` at
index `j-1` the result is `x·P`. -/
theorem lookup_equals_direct_selection (tbl : curve.projectiveNielsPointLookupTable G)
    (x : Int) (hlo : -8 ≤ x) (hhi : x ≤ 8) :
    (x = 0 → curve.projectiveNielsPointLookupTable.Lookup tbl x = 0) ∧
    (∀ j : Fin 8, x = (j.val : Int) + 1 →
      curve.projectiveNielsPointLookupTable.Lookup tbl x = tbl j) ∧
    (∀ j : Fin 8, x = -((j.val : Int) + 1) →
      curve.projectiveNielsPointLookupTable.Lookup tbl x = -tbl j) ∧
    curve.projectiveNielsPointLookupTable.Lookup tbl (-x) =
      -curve.projectiveNielsPointLookupTable.Lookup tbl x ∧
    (∀ P : G, (∀ j : Fin 8, tbl j = (j.val + 1) • P) →
      curve.projectiveNielsPointLookupTable.Lookup tbl x = x • P) := by
  obtain ⟨h0, hpos, hneg⟩ := Lookup_select tbl x hlo hhi
  obtain ⟨n0, npos, nneg⟩ := Lookup_select tbl (-x) (by omega) (by omega)
  refine ⟨h0, hpos, hneg, ?_, ?_⟩
  · rcases digit_cases x hlo hhi with hx | ⟨j, hx | hx⟩
    · rw [h0 hx, n0 (by omega), neg_zero]
    · rw [hpos j hx, nneg j (by omega)]
    · rw [hneg j hx, npos j (by omega), neg_neg]
  · intro P htbl
    rcases digit_cases x hlo hhi with hx | ⟨j, hx | hx⟩
    · rw [h0 hx, hx, zero_smul]
    · rw [hpos j hx, htbl j, hx, succ_zsmul_eq]
    · rw [hneg j hx, htbl j, hx, neg_smul, succ_zsmul_eq]

/-- The instance of C30 at the digit `-3` and the table `{1,...,8}·7` over the
integers: the scan returns `-21`. -/
theorem lookup_equals_direct_selection_witness :
    (-8 : Int) ≤ -3 ∧ (-3 : Int) ≤ 8 ∧
    curve.projectiveNielsPointLookupTable.Lookup curve.integerTable (-3) =
      -curve.integerTable 2 ∧
    curve.projectiveNielsPointLookupTable.Lookup curve.integerTable (-3) = -21 ∧
    curve.projectiveNielsPointLookupTable.Lookup curve.integerTable 0 = 0 ∧
    curve.projectiveNielsPointLookupTable.Lookup curve.integerTable 8 = 56 :=
  ⟨by decide, by decide,
    (lookup_equals_direct_selection curve.integerTable (-3) (by decide) (by decide)).2.2.1 2
      rfl,
    by decide, by decide, by decide⟩

end LookupClaims

/-! ## The tables and the remaining properties -/

section TableClaims

variable {G : Type} [AddCommGroup G] {F : Type} [Zero F] [One F] [Neg F]

/-- C31. For every point `P`, the table built by
`newProjectiveNielsPointLookupTable(P)` holds `j·P` at index `j-1` for every `j`
in `1..8`: it is `{1, 2, ..., 8}·P`. Its `Lookup(x)` is therefore `x·P` for
every digit `x` in `[-8, 8]`. -/
theorem projective_niels_lookup_table (P : G) :
    (∀ j : Fin 8, curve.newProjectiveNielsPointLookupTable P j = (j.val + 1) • P) ∧
    (∀ x : Int, -8 ≤ x → x ≤ 8 →
      curve.projectiveNielsPointLookupTable.Lookup (curve.newProjectiveNielsPointLookupTable P)
        x = x • P) :=
  ⟨newProjectiveNielsPointLookupTable_entry P,
    fun x hlo hhi => Lookup_of_multiples _ x hlo hhi P
      (newProjectiveNielsPointLookupTable_entry P)⟩

/-- C32. The packed affine table. With lawful field and point operations, for
every point `P`: entry `i` of `newPackedAffineNielsPointLookupTable(P)` is the
96-byte concatenation of the 32-byte encodings of `y+x`, `y−x` and `2dxy` of
`(i+1)·P`; unpacking what was packed loses nothing; the generic scan leaves
`tbl[xabs-1]` in `out` for `xabs` in `1..8` and the packed identity for
`xabs = 0`; and for every digit `x` in `[-8, 8]`, `Lookup(x)` is the affine Niels
form of `x·P`, the identity `(1, 1, 0)` for `x = 0`. -/
theorem packed_affine_lookup_table (ops : curve.AffineNielsOps G F) (hlaw : ops.Lawful)
    (P : G) :
    (∀ i : Fin 8,
      curve.newPackedAffineNielsPointLookupTable ops P i =
        ops.ToBytes (ops.SetEdwards ((i.val + 1) • P)).y_plus_x ++
          ops.ToBytes (ops.SetEdwards ((i.val + 1) • P)).y_minus_x ++
          ops.ToBytes (ops.SetEdwards ((i.val + 1) • P)).xy2d ∧
      (curve.newPackedAffineNielsPointLookupTable ops P i).length = 96) ∧
    (∀ n : curve.AffineNiels F,
      curve.unpackAffineNiels ops (curve.packAffineNiels ops n) = n) ∧
    (∀ (tbl : curve.packedAffineNielsPointLookupTable) (xabs : Nat),
      (xabs = 0 → curve.lookupPackedAffineNielsGeneric ops tbl xabs =
        curve.identityAffineNielsPacked ops) ∧
      (∀ j : Fin 8, xabs = j.val + 1 →
        curve.lookupPackedAffineNielsGeneric ops tbl xabs = tbl j)) ∧
    (∀ x : Int, -8 ≤ x → x ≤ 8 →
      curve.packedAffineNielsPointLookupTable.Lookup ops
        (curve.newPackedAffineNielsPointLookupTable ops P) x = ops.SetEdwards (x • P)) ∧
    curve.packedAffineNielsPointLookupTable.Lookup ops
      (curve.newPackedAffineNielsPointLookupTable ops P) 0 = ⟨1, 1, 0⟩ := by
  have hentry := newPackedAffineNielsPointLookupTable_entry ops hlaw P
  have hlook : ∀ x : Int, -8 ≤ x → x ≤ 8 →
      curve.packedAffineNielsPointLookupTable.Lookup ops
        (curve.newPackedAffineNielsPointLookupTable ops P) x = ops.SetEdwards (x • P) := by
    intro x hlo hhi
    obtain ⟨h0, hpos, hneg⟩ := packedLookup_select ops
      (curve.newPackedAffineNielsPointLookupTable ops P) x hlo hhi
    rcases digit_cases x hlo hhi with hx | ⟨j, hx | hx⟩
    · rw [h0 hx, hx, zero_smul, hlaw.SetEdwards_zero]
      exact unpack_pack ops hlaw _
    · rw [hpos j hx, hentry j, unpack_pack ops hlaw, hx, succ_zsmul_eq]
    · rw [hneg j hx, hentry j, unpack_pack ops hlaw, hx, neg_smul, succ_zsmul_eq,
        hlaw.SetEdwards_neg]
  refine ⟨?_, unpack_pack ops hlaw, lookupPackedAffineNielsGeneric_select ops, hlook, ?_⟩
  · intro i
    refine ⟨hentry i, ?_⟩
    rw [hentry i]
    unfold curve.packAffineNiels
    rw [List.length_append, List.length_append, hlaw.ToBytes_length, hlaw.ToBytes_length,
      hlaw.ToBytes_length]
  · rw [hlook 0 (by decide) (by decide), zero_smul, hlaw.SetEdwards_zero]

/-- The instance of C32 on the small operations, at the point 3 and the digit
-2: the table is built, scanned, unpacked and negated to the form of `-6`. -/
theorem packed_affine_lookup_table_witness :
    curve.toyOps.Lawful ∧
    curve.packedAffineNielsPointLookupTable.Lookup curve.toyOps
      (curve.newPackedAffineNielsPointLookupTable curve.toyOps 3) (-2) =
        curve.toyOps.SetEdwards ((-2 : Int) • (3 : ZMod 17)) ∧
    curve.packedAffineNielsPointLookupTable.Lookup curve.toyOps
      (curve.newPackedAffineNielsPointLookupTable curve.toyOps 3) (-2) = ⟨-5, 7, -6⟩ ∧
    (curve.newPackedAffineNielsPointLookupTable curve.toyOps 3 1).take 1 = [7] :=
  ⟨toyOps_lawful,
    (packed_affine_lookup_table curve.toyOps toyOps_lawful 3).2.2.2.1 (-2) (by decide)
      (by decide),
    by decide, by decide⟩

/-- C33. For every point `A`, `newProjectiveNielsPointNafLookupTable(A)` holds
the odd multiples `1A, 3A, ..., 15A`: entry `i` is `(2i+1)·A` for `i` in `0..7`;
and for every odd `x` in `{1, 3, ..., 15}`, `lookup(x)` returns the entry for
`x·A`. -/
theorem projective_niels_naf_lookup_table (A : G) :
    (∀ i : Fin 8, curve.newProjectiveNielsPointNafLookupTable A i = (2 * i.val + 1) • A) ∧
    (∀ x : Nat, x % 2 = 1 → x ≤ 15 →
      curve.projectiveNielsPointNafLookupTable.lookup
        (curve.newProjectiveNielsPointNafLookupTable A) x = some (x • A)) := by
  refine ⟨newProjectiveNielsPointNafLookupTable_entry A, ?_⟩
  intro x hx hle
  have h : x / 2 < 8 := by omega
  have hodd : 2 * (x / 2) + 1 = x := by omega
  unfold curve.projectiveNielsPointNafLookupTable.lookup
  simp only [h, dite_true, newProjectiveNielsPointNafLookupTable_entry, hodd]

end TableClaims

/-- C34. The array `order`, read as four 64-bit words in little-endian word
order, equals the group order `ℓ = 2^252 + 27742317777372353535851937790883648493`. -/
theorem order_words_equal_group_order :
    order = [0x5812631a5cf5d3ed, 0x14def9dea2f79cd6, 0, 0x1000000000000000] ∧
    order.length = 4 ∧ (∀ w ∈ order, w < 2 ^ 64) ∧
    order.getD 0 0 + order.getD 1 0 * 2 ^ 64 + order.getD 2 0 * 2 ^ 128 +
      order.getD 3 0 * 2 ^ 192 = L ∧
    L = 2 ^ 252 + 27742317777372353535851937790883648493 := by
  decide!

/-- C35. The eight entries of `EIGHT_TORSION` in cyclic order: entry 0 is the
identity; entry 1 has exact order 8 (`8·T₁` is the identity and `k·T₁` is not
for `0 < k < 8`); entry `i` is `i·T₁` for every `i` in `0..7`; the sum of entries
`i` and `j` is entry `(i + j) mod 8`, so the eight points form a group; they are
pairwise distinct; entries 0, 2, 4, 6 are those killed by 4 and entries 0, 4
those killed by 2. Together with `8·T = identity` for each entry this makes the
table a cyclic group of eight distinct 8-torsion points; that the curve, of
order `8ℓ`, has no ninth point killed by 8 is a fact about the curve and not
about the table. Points are compared as the spec compares them
(`X₁Z₂ = X₂Z₁` and `Y₁Z₂ = Y₂Z₁`, with `Z ≠ 0`); `enum` pairs each entry with
its index. -/
theorem eight_torsion_cyclic :
    curve.EIGHT_TORSION.length = 8 ∧
    (curve.EIGHT_TORSION[0]?).map curve.EdwardsPoint.coords =
      some curve.ExtendedPoint.identity ∧
    (curve.EIGHT_TORSION[1]?).isSome = true ∧
    (∀ T1 ∈ curve.EIGHT_TORSION[1]?,
      (curve.ExtendedPoint.smul 8 T1.coords).Equal curve.ExtendedPoint.identity = true ∧
      (∀ k, k < 8 → 0 < k →
        (curve.ExtendedPoint.smul k T1.coords).Equal curve.ExtendedPoint.identity = false) ∧
      (∀ p ∈ curve.EIGHT_TORSION.enum,
        (curve.ExtendedPoint.smul p.1 T1.coords).Z ≠ 0 ∧
        (curve.ExtendedPoint.smul p.1 T1.coords).Equal p.2.coords = true)) ∧
    (∀ p ∈ curve.EIGHT_TORSION.enum, ∀ q ∈ curve.EIGHT_TORSION.enum,
      (p.2.coords.add q.2.coords).Z ≠ 0 ∧
      (curve.EIGHT_TORSION[(p.1 + q.1) % 8]?).map
        (fun T => (p.2.coords.add q.2.coords).Equal T.coords) = some true ∧
      (p.1 ≠ q.1 → p.2.coords.Equal q.2.coords = false)) ∧
    (∀ p ∈ curve.EIGHT_TORSION.enum,
      (curve.ExtendedPoint.smul 4 p.2.coords).Equal curve.ExtendedPoint.identity =
        decide (p.1 % 2 = 0) ∧
      (curve.ExtendedPoint.smul 2 p.2.coords).Equal curve.ExtendedPoint.identity =
        decide (p.1 % 4 = 0)) := by
  decide!

section DigitClaims

variable {G : Type} [AddCommGroup G] {F : Type} [Zero F] [One F] [Neg F]

/-- C36. The branch-free absolute value of both `Lookup` methods: for every
`int8` `x` other than -128, with `xmask = x >> 7`, `uint8((x + xmask) ^ xmask)`
is `|x|`, and `int(byte(xmask & 1))` is 1 if `x < 0` and 0 otherwise; for
`x = -128` the computed `xabs` is 128, which matches no table row. Both methods
are these computations followed by the scan and the conditional negation. -/
theorem lookup_branch_free_abs (x : Int) (hlo : -128 ≤ x) (hhi : x ≤ 127) :
    (x ≠ -128 → curve.lookupXabs x = x.natAbs) ∧
    curve.lookupXmask x = (if x < 0 then 255 else 0) ∧
    curve.lookupNegMask x = (if x < 0 then 1 else 0) ∧
    (x = -128 → curve.lookupXabs x = 128 ∧
      ∀ j : Fin 8, subtle.ConstantTimeCompareByte (curve.lookupXabs x) (j.val + 1) = 0) ∧
    (∀ tbl : curve.projectiveNielsPointLookupTable G,
      curve.projectiveNielsPointLookupTable.Lookup tbl x =
        curve.ConditionalNegate
          ((List.finRange 8).foldl
            (fun t i => curve.ConditionalAssign t (tbl i)
              (subtle.ConstantTimeCompareByte (curve.lookupXabs x) (i.val + 1)))
            (0 : G))
          (curve.lookupNegMask x)) ∧
    (∀ (ops : curve.AffineNielsOps G F) (tbl : curve.packedAffineNielsPointLookupTable),
      curve.packedAffineNielsPointLookupTable.Lookup ops tbl x =
        curve.ConditionalNegate
          (curve.unpackAffineNiels ops
            (curve.lookupPackedAffineNiels ops tbl (curve.lookupXabs x)))
          (curve.lookupNegMask x)) := by
  have hn : ((x + 128).toNat : Int) - 128 = x := by omega
  have hlt : (x + 128).toNat < 256 := by omega
  have h := lookup_bits ⟨(x + 128).toNat, hlt⟩
  simp only [hn] at h
  obtain ⟨habs, hmask, hneg, h128⟩ := h
  refine ⟨habs, hmask, hneg, ?_, fun _ => rfl, fun _ _ => rfl⟩
  intro hx
  refine ⟨h128 hx, ?_⟩
  intro j
  rw [h128 hx]
  unfold subtle.ConstantTimeCompareByte
  rw [if_neg (by omega)]

/-- The instance of C36 at -5 and at the two ends of the range. -/
theorem lookup_branch_free_abs_witness :
    (-128 : Int) ≤ -5 ∧ (-5 : Int) ≤ 127 ∧
    curve.lookupXabs (-5) = (-5 : Int).natAbs ∧ curve.lookupXabs (-5) = 5 ∧
    curve.lookupNegMask (-5) = 1 ∧ curve.lookupXabs 127 = 127 ∧ curve.lookupNegMask 127 = 0 ∧
    curve.lookupXabs (-128) = 128 :=
  ⟨by decide, by decide,
    (lookup_branch_free_abs (G := Int) (F := Int) (-5) (by decide) (by decide)).1 (by decide),
    by decide, by decide, by decide, by decide, by decide⟩

/-- C37. The NAF table lookups stay in bounds for valid digits:
`projectiveNielsPointNafLookupTable.lookup(x)` reads index `x/2` of 8 entries
and is in range exactly when `x ≤ 15`; `affineNielsPointNafLookupTable.lookup(x)`
reads index `x/2` of 64 entries and is in range exactly when `x ≤ 127`. An odd
digit `x = 2i+1` reads entry `i`, so in a table that holds `(2i+1)·A` at index
`i` every odd digit up to 15 (width-5 NAF), respectively 127 (width-8 NAF),
reads the entry holding `x·A`; for the table of the basepoint this entry is, as
field values, the affine Niels form of `x·B`. -/
theorem naf_lookup_in_bounds (tbl8 : curve.projectiveNielsPointNafLookupTable G)
    (tbl64 : curve.affineNielsPointNafLookupTable G) (x : Nat) :
    ((curve.projectiveNielsPointNafLookupTable.lookup tbl8 x).isSome ↔ x ≤ 15) ∧
    ((curve.affineNielsPointNafLookupTable.lookup tbl64 x).isSome ↔ x ≤ 127) ∧
    (∀ i : Fin 8, x = 2 * i.val + 1 →
      curve.projectiveNielsPointNafLookupTable.lookup tbl8 x = some (tbl8 i)) ∧
    (∀ i : Fin 64, x = 2 * i.val + 1 →
      curve.affineNielsPointNafLookupTable.lookup tbl64 x = some (tbl64 i)) ∧
    (∀ A : G, (∀ i : Fin 8, tbl8 i = (2 * i.val + 1) • A) → x % 2 = 1 → x ≤ 15 →
      curve.projectiveNielsPointNafLookupTable.lookup tbl8 x = some (x • A)) ∧
    (∀ A : G, (∀ i : Fin 64, tbl64 i = (2 * i.val + 1) • A) → x % 2 = 1 → x ≤ 127 →
      curve.affineNielsPointNafLookupTable.lookup tbl64 x = some (x • A)) ∧
    (x % 2 = 1 → x ≤ 127 →
      (curve.constAFFINE_ODD_MULTIPLES_OF_BASEPOINT[x / 2]?).map curve.affineNielsPoint.vals =
        some (curve.affineNiels
          (curve.ExtendedPoint.smul x curve.ED25519_BASEPOINT_POINT.coords).affine)) := by
  have hodd : ∀ n : Nat, n % 2 = 1 → 2 * (n / 2) + 1 = n := fun n hn => by omega
  refine ⟨?_, ?_, ?_, ?_, ?_, ?_, ?_⟩
  · unfold curve.projectiveNielsPointNafLookupTable.lookup
    by_cases h : x / 2 < 8
    · simp only [h, dite_true, Option.isSome_some, true_iff]; omega
    · simp only [h, dite_false, Option.isSome_none, Bool.false_eq_true, false_iff]; omega
  · unfold curve.affineNielsPointNafLookupTable.lookup
    by_cases h : x / 2 < 64
    · simp only [h, dite_true, Option.isSome_some, true_iff]; omega
    · simp only [h, dite_false, Option.isSome_none, Bool.false_eq_true, false_iff]; omega
  · intro i hx
    have h : x / 2 = i.val := by omega
    unfold curve.projectiveNielsPointNafLookupTable.lookup
    simp only [h, i.isLt, dite_true, Fin.eta]
  · intro i hx
    have h : x / 2 = i.val := by omega
    unfold curve.affineNielsPointNafLookupTable.lookup
    simp only [h, i.isLt, dite_true, Fin.eta]
  · intro A htbl hx hle
    have h : x / 2 < 8 := by omega
    unfold curve.projectiveNielsPointNafLookupTable.lookup
    simp only [h, dite_true, htbl, hodd x hx]
  · intro A htbl hx hle
    have h : x / 2 < 64 := by omega
    unfold curve.affineNielsPointNafLookupTable.lookup
    simp only [h, dite_true, htbl, hodd x hx]
  · intro hx hle
    have hall : ∀ n, n < 128 → n % 2 = 1 →
        (curve.constAFFINE_ODD_MULTIPLES_OF_BASEPOINT[n / 2]?).map curve.affineNielsPoint.vals =
          some (curve.affineNiels
            (curve.ExtendedPoint.smul n curve.ED25519_BASEPOINT_POINT.coords).affine) := by
      decide!
    exact hall x (by omega) hx

end DigitClaims

/-- C38. `scMinimal` is total on 32-byte inputs. It returns a value (here: the
truth value of `scalar < 2^252`, the loop being unreachable with the masks as
written). Its loop, run on any 32-byte string from `i = 3` with the index as a
Go `int`, ends with a result within four iterations: the indices visited are an
initial part of `3, 2, 1, 0`, so `i` never goes below 0, every read
`scalar[i*8:]` has its 8 bytes and every `order[i]` is in range; the result is
the one of `scMinimalLoop`. -/
theorem scMinimal_loop_terminates (scalar : List Byte) (hlen : scalar.length = 32) :
    scMinimal scalar = some (decide (leValue scalar < 2 ^ 252)) ∧
    ∃ b visited, scMinimalRun scalar 4 3 [] = .result b visited ∧
      1 ≤ visited.length ∧ visited.length ≤ 4 ∧ visited <+: [3, 2, 1, 0] ∧
      (∀ i ∈ visited, 0 ≤ i ∧ i < 4 ∧ (i * 8).toNat + 8 ≤ scalar.length ∧
        i.toNat < order.length) ∧
      scMinimalLoop scalar 3 = some b := by
  refine ⟨scMinimal_eq scalar hlen, ?_⟩
  obtain ⟨b, visited, hrun, hne, hpre, hloop⟩ := scMinimalRun_spec scalar hlen
  refine ⟨b, visited, hrun, ?_, ?_, hpre, ?_, hloop⟩
  · exact List.length_pos.mpr hne
  · exact hpre.length_le
  · intro i hi
    have hmem : i ∈ ([3, 2, 1, 0] : List Int) := hpre.subset hi
    simp only [List.mem_cons, List.mem_singleton, List.not_mem_nil, or_false] at hmem
    rcases hmem with h | h | h | h <;> subst h <;> simp [hlen, order]

/-- The instance of C38 at the 32 bytes of `2^252`: the loop makes three
iterations and leaves by `break`, while `scMinimal` itself answers false. -/
theorem scMinimal_loop_terminates_witness :
    twoPow252Bytes.length = 32 ∧
    scMinimal twoPow252Bytes = some (decide (leValue twoPow252Bytes < 2 ^ 252)) ∧
    scMinimalRun twoPow252Bytes 4 3 [] = .result true [3, 2, 1] ∧
    scMinimalRun zeroBytes 4 3 [] = .result true [3] ∧
    scMinimalRun (leBytes 32 L) 4 3 [] = .result false [3, 2, 1, 0] :=
  ⟨by decide, (scMinimal_loop_terminates twoPow252Bytes (by decide)).1, by decide!, by decide!,
    by decide!⟩

section FlagClaims

variable {G : Type} [AddCommGroup G] [DecidableEq G]

/-- C39. Verification is monotone in the allow-flags: for every public key,
message, signature and mode, if a signature is accepted under the flags
`(a, r, n)` then it is accepted under any flags `(a', r', n')` obtained by
changing some of `AllowSmallOrderA`, `AllowSmallOrderR`, `AllowNonCanonicalAR`
from false to true, `CofactorlessVerify` and the mode being fixed. -/
theorem verify_monotone_in_allow_flags (C : Curve G) (H : Sha512)
    (publicKey message sig : List Byte) (hash : Nat) (context : List Byte)
    (a r n a' r' n' cofactorless : Bool)
    (hA : a = true → a' = true) (hR : r = true → r' = true) (hN : n = true → n' = true)
    (h : VerifyWithOptions C H publicKey message sig
      ⟨hash, context, some ⟨a, r, n, cofactorless⟩⟩ = some true) :
    VerifyWithOptions C H publicKey message sig
      ⟨hash, context, some ⟨a', r', n', cofactorless⟩⟩ = some true :=
  accepted_of_more_allowed C H publicKey message sig
    ⟨hash, context, some ⟨a, r, n, cofactorless⟩⟩
    ⟨hash, context, some ⟨a', r', n', cofactorless⟩⟩ rfl rfl hA hR hN rfl h

/-- The instance of C39 at a genuine signature, from the strict flags to the
three flags set; the identity as public key with the signature `(identity, 0)`
shows that the converse fails. -/
theorem verify_monotone_in_allow_flags_witness :
    VerifyWithOptions modelCurve modelSha pub0 msg0 sig0
      ⟨0, [], some ⟨false, false, false, false⟩⟩ = some true ∧
    VerifyWithOptions modelCurve modelSha pub0 msg0 sig0
      ⟨0, [], some ⟨true, true, true, false⟩⟩ = some true ∧
    VerifyWithOptions modelCurve modelSha zeroBytes msg0 (zeroBytes ++ zeroBytes)
      ⟨0, [], some ⟨true, true, true, false⟩⟩ = some true ∧
    VerifyWithOptions modelCurve modelSha zeroBytes msg0 (zeroBytes ++ zeroBytes)
      ⟨0, [], some ⟨false, false, false, false⟩⟩ = some false :=
  ⟨by decide!,
    verify_monotone_in_allow_flags modelCurve modelSha pub0 msg0 sig0 0 [] false false false
      true true true false (fun _ => rfl) (fun _ => rfl) (fun _ => rfl) (by decide!),
    by decide!, by decide!⟩

/-- C40. Domain separation is unambiguous. Over the flags `ctx` and `ph` and
contexts of at most 255 bytes, `writeDom2` is injective and prefix-free: if what
it writes for `(f1, c1)` followed by some bytes equals what it writes for
`(f2, c2)` followed by some bytes, then `f1 = f2`, `c1 = c2` and the bytes that
follow are equal. Its panic branch is not reached from `PrivateKey.Sign` or
`verifyWithOptionsNoPanic`: the context they pass is the one `Options.verify`
accepted (or the empty one), and neither function panics on any input. -/
theorem domain_separation_unambiguous (f1 f2 : dom2Flag)
    (c1 c2 rest1 rest2 dom1 dom2 : List Byte)
    (hf1 : f1 = fCtx ∨ f1 = fPh) (hf2 : f2 = fCtx ∨ f2 = fPh)
    (h1 : c1.length ≤ 255) (h2 : c2.length ≤ 255)
    (hd1 : writeDom2 f1 c1 = some dom1) (hd2 : writeDom2 f2 c2 = some dom2)
    (h : dom1 ++ rest1 = dom2 ++ rest2) :
    (f1 = f2 ∧ c1 = c2 ∧ rest1 = rest2 ∧ dom1 = dom2) ∧
    (∀ (opts : Options) (f0 f : dom2Flag) (context : List Byte),
      opts.verify = .ok (f0, context) → writeDom2 f context ≠ none) ∧
    (∀ (C : Curve G) (H : Sha512) (priv message : List Byte) (opts : SignerOpts),
      PrivateKey.Sign C H priv () message opts ≠ none) ∧
    (∀ (C : Curve G) (H : Sha512) (publicKey message sig : List Byte) (opts : Options),
      verifyWithOptionsNoPanic C H publicKey message sig opts ≠ none) := by
  have hne : ∀ f : dom2Flag, f = fCtx ∨ f = fPh → f ≠ fPure := by
    intro f hf
    rcases hf with hf | hf <;> rw [hf] <;> decide
  rw [writeDom2_of_ne_pure f1 c1 (hne f1 hf1) h1] at hd1
  rw [writeDom2_of_ne_pure f2 c2 (hne f2 hf2) h2] at hd2
  have e1 := Option.some.inj hd1
  have e2 := Option.some.inj hd2
  rw [← e1, ← e2] at h
  obtain ⟨hf, hc, hr⟩ := dom2_prefix_free f1 f2 c1 c2 rest1 rest2 h1 h2 h
  refine ⟨⟨hf, hc, hr, ?_⟩, ?_, ?_, ?_⟩
  · rw [← e1, ← e2, hf, hc]
  · intro opts f0 f context hv
    obtain ⟨dom, hdom⟩ := writeDom2_isSome f context (Options.verify_ok hv)
    rw [hdom]; exact Option.some_ne_none _
  · intro C H priv message opts
    cases opts with
    | options o => exact Sign_options_no_panic C H () priv message o
    | other hashFunc => exact Sign_other_no_panic C H () priv message hashFunc
  · intro C H publicKey message sig opts
    exact verifyNoPanic_no_panic C H publicKey message sig opts

/-- The instance of C40 at the context `01 02 03` under `ctx`, followed by `03`,
against the same context under `ctx` followed by `03`; next to it, two different
contexts, one an initial part of the other, give different bytes. -/
theorem domain_separation_unambiguous_witness :
    writeDom2 fCtx msg0 = some (dom2Prefix ++ [0, 3, 1, 2, 3]) ∧
    ((fCtx : dom2Flag) = fCtx ∧ msg0 = msg0 ∧ ([3] : List Byte) = [3] ∧
      dom2Prefix ++ [0, 3, 1, 2, 3] = dom2Prefix ++ [0, 3, 1, 2, 3]) ∧
    writeDom2 fCtx [1, 2] = some (dom2Prefix ++ [0, 2, 1, 2]) ∧
    dom2Prefix ++ [(0 : Byte), 2, 1, 2] ++ [3] ≠ dom2Prefix ++ [0, 3, 1, 2, 3] ∧
    writeDom2 fPh msg0 ≠ writeDom2 fCtx msg0 :=
  ⟨by decide,
    (domain_separation_unambiguous (G := ModelPoint) fCtx fCtx msg0 msg0 [3] [3]
      (dom2Prefix ++ [0, 3, 1, 2, 3]) (dom2Prefix ++ [0, 3, 1, 2, 3]) (Or.inl rfl) (Or.inl rfl)
      (by decide) (by decide) (by decide) (by decide) rfl).1,
    by decide, by decide, by decide⟩

end FlagClaims

end Ed25519
